import Mathlib

/-!
# Block ingestion core of go-genesis: parser, validator, executor

Shallow embedding of `packages/parser/common_parse_data_full.go`.

* A Go `[]byte` is a list of bytes; a `*bytes.Buffer` is the list of bytes not
  yet read, and a function reading from it returns what is left.
* A Go `error` is its message; a Go `(v, error)` result is an `Except`, or a
  pair of options where Go can return a value next to the error.
* The storage layer, the interpreter, the crypto primitives and the system
  parameters are collaborators the core only calls: they are the fields of
  `Env`, each a function of its arguments and of the current `Store`.
-/

namespace Genesis

/-! ## Bytes and the `converter` package -/

abbrev Byte := Fin 256
abbrev Bytes := List Byte
abbrev Err := String

deriving instance DecidableEq for Except

/-- ASCII bytes of a string literal (`[]byte(s)`). -/
def strBytes (s : String) : Bytes :=
  s.toList.map (fun c => Fin.ofNat c.toNat)

/-- Big-endian value of a byte string. -/
def beValue (bs : Bytes) : Nat :=
  bs.foldl (fun a b => a * 256 + b.val) 0

/-- Big-endian bytes of `v`, exactly `n` of them (the value is cut to `n` bytes). -/
def beBytes : Nat → Nat → Bytes
  | 0, _ => []
  | n + 1, v => beBytes n (v / 256) ++ [Fin.ofNat (v % 256)]

/-- Modelled from the spec: `converter.BinToDec` is not in src/. Spec 4.1 `read_uint(n)`
(big-endian, 1 ≤ n ≤ 8); the source applies it to at most four bytes. -/
def BinToDec (bin : Bytes) : Int :=
  (beValue bin : Int)

/-- Modelled from the spec: `converter.DecToBin` is not in src/. Spec 6.1: the fixed
width header fields are big-endian `u8` / `u32`; `sizeBytes` bytes of `v`. -/
def DecToBin (v : Int) (sizeBytes : Nat) : Bytes :=
  beBytes sizeBytes (v % (256 ^ sizeBytes : Nat)).toNat

/-- Modelled from the spec: `converter.EncodeLength` is not in src/. Spec 6.1: one
byte `b < 128` encodes length `b`; otherwise the low seven bits of the first byte
count the trailing length bytes, which form a big-endian length. -/
def EncodeLength (length : Nat) : Bytes :=
  if length < 128 then [Fin.ofNat length]
  else
    let body := (beBytes 8 length).dropWhile (fun b => b.val == 0)
    Fin.ofNat (128 + body.length) :: body

/-- Modelled from the spec: `converter.EncodeLengthPlusData` is not in src/. Spec 4.6
`encode_varlen_plus_data`: the varlen prefix of the length, then the data. -/
def EncodeLengthPlusData (data : Bytes) : Bytes :=
  EncodeLength data.length ++ data

/-- Modelled from the spec: `converter.DecodeLengthBuf` is not in src/. Spec 4.1
`read_varlen()` and 6.1: a first byte below 128 is the length; otherwise its low
seven bits count the big-endian length bytes that follow; fails when the buffer is
shorter than requested. Returns the length and the rest of the buffer. -/
def DecodeLengthBuf (buf : Bytes) : Except Err (Nat × Bytes) :=
  match buf with
  | [] => .error "input slice is empty"
  | b :: rest =>
    if b.val < 128 then .ok (b.val, rest)
    else
      let n := b.val % 128
      if rest.length < n then .error "input slice has small size"
      else .ok (beValue (rest.take n), rest.drop n)

/-- Modelled from the spec: `converter.BinToHex` is not in src/. Spec 4.2
`bin_to_hex`: two lower-case hexadecimal digits per byte. -/
def BinToHex (bin : Bytes) : Bytes :=
  let digit (d : Nat) : Byte := if d < 10 then Fin.ofNat (48 + d) else Fin.ofNat (87 + d)
  bin.flatMap (fun b => [digit (b.val / 16), digit (b.val % 16)])

/-- A byte string read as text (`string(b)`). -/
def bytesStr (b : Bytes) : String :=
  String.mk (b.map (fun x => Char.ofNat x.val))

/-- Decimal rendering of an integer (`%d`). -/
def fmtInt (i : Int) : Bytes :=
  strBytes (toString i)

/-! ## Data model -/

/-- Block header record `utils.BlockData` (its declaration is not in src/; the fields are
the ones the parser reads and writes). -/
structure BlockData where
  BlockID : Int
  Time : Int
  WalletID : Int
  StateID : Int
  Sign : Bytes
  Hash : Bytes
  Version : Int
deriving DecidableEq, Repr

/-- The zero value `utils.BlockData{}`. -/
def BlockData.zero : BlockData :=
  { BlockID := 0, Time := 0, WalletID := 0, StateID := 0, Sign := [], Hash := [], Version := 0 }

/-- Transaction header `tx.Header` (declaration not in src/; fields as used by the parser). -/
structure TxHeader where
  Typ : Int
  Time : Int
  UserID : Int
  StateID : Int
  PublicKey : Bytes
  BinSignatures : Bytes
deriving DecidableEq, Repr

/-- Envelope `tx.SmartContract` of a contract-dialect transaction. -/
structure SmartContract where
  Header : TxHeader
  Data : Bytes
deriving DecidableEq, Repr

/-- One declared parameter of a contract (`script.FieldInfo`); `Typ` is the source's
`fitem.Type.String()`. -/
structure FieldInfo where
  Name : String
  Typ : String
  Tags : String
deriving DecidableEq, Repr

/-- Contract descriptor: `Tx` is `contract.Block.Info.(*script.ContractInfo).Tx`, a
pointer that may be nil. -/
structure Contract where
  ID : Int
  Tx : Option (List FieldInfo)
deriving DecidableEq, Repr

/-- A decoded parameter (`interface{}` stored in `TxData`). -/
inductive Value where
  | nil
  | uint64 (v : Nat)
  | float64 (bits : Nat)
  | int64 (v : Int)
  | decimal (digits : Bytes)
  | str (s : Bytes)
  | list (items : List Bytes)
deriving DecidableEq, Repr

/-- The handle a storage call is given: Go `nil` (autocommit on the connection) or the
storage transaction of the block. -/
inductive Handle where
  | nil
  | tx
deriving DecidableEq, Repr

/-- A write of the contract interpreter or of a parser action, as the storage sees it. -/
structure StateWrite where
  table : String
  payload : Bytes
deriving DecidableEq, Repr

/-- The rows the core and its collaborators write. -/
inductive Row where
  | usedCleared
  | used (hash : Bytes)
  | bad (hash : Bytes) (reason : Err)
  | status (blockID : Int) (hash : Bytes)
  | log (data : Bytes) (time : Int)
  | state (txHash : Bytes) (w : StateWrite)
  | blockInfo (header : BlockData)
  | chain (header : BlockData) (data : Bytes)
deriving DecidableEq, Repr

/-- Phase mask of an interpreter call (`smart.CallInit | smart.CallCondition | smart.CallAction`). -/
structure CallFlags where
  init : Bool
  condition : Bool
  action : Bool
deriving DecidableEq, Repr

/-- A call the core makes on the storage layer or on the executor of a transaction;
an executor call is recorded with what the executor wrote. -/
inductive Op where
  | startTransaction
  | commit
  | rollback
  | deleteUsed (h : Handle)
  | markUsed (h : Handle) (hash : Bytes)
  | badTx (h : Handle) (hash : Bytes) (reason : Err)
  | updateBlockID (h : Handle) (blockID : Int) (hash : Bytes)
  | insertLog (h : Handle) (data : Bytes) (time : Int)
  | callContract (h : Handle) (txHash : Bytes) (flags : CallFlags) (writes : List StateWrite)
  | action (h : Handle) (txHash : Bytes) (writes : List StateWrite)
  | updBlockInfo (h : Handle) (header : BlockData)
  | insertBlockchain (h : Handle) (header : BlockData) (data : Bytes)
deriving DecidableEq, Repr

/-- Storage as the core sees it: the durable rows, the rows written under the open
storage transaction, and the calls made so far (oldest first) with whether each
succeeded. -/
structure Store where
  durable : List Row
  pending : List Row
  trace : List (Op × Bool)
deriving DecidableEq, Repr

/-- Outcome of a function that can fault (a Go panic) besides returning `(v, error)`. -/
inductive Res (α : Type) where
  | ok (v : α)
  | error (e : Err)
  | panic (msg : String)
deriving DecidableEq, Repr

/-- The transaction record `Parser`, restricted to the fields this file's functions use. -/
structure Parser where
  TxHash : Bytes
  TxFullData : Bytes
  TxBinaryData : Bytes
  dataType : Int
  TxType : Int
  TxTime : Int
  TxUserID : Int
  TxCitizenID : Int
  TxWalletID : Int
  TxStateID : Int
  TxSmart : Option SmartContract
  TxContract : Option Contract
  TxHeader : Option TxHeader
  TxData : List (String × Value)
  txParser : Option String
  TxPtr : Option Bytes
  BlockData : Option BlockData
  AllPkeys : List (String × String)
  DbTransaction : Handle
deriving DecidableEq, Repr

/-- The record `new(Parser)` returns: every field at its zero value. -/
def Parser.new : Parser :=
  { TxHash := [], TxFullData := [], TxBinaryData := [], dataType := 0, TxType := 0,
    TxTime := 0, TxUserID := 0, TxCitizenID := 0, TxWalletID := 0, TxStateID := 0,
    TxSmart := none, TxContract := none, TxHeader := none, TxData := [],
    txParser := none, TxPtr := none, BlockData := none, AllPkeys := [],
    DbTransaction := Handle.nil }

/-- Type `Block` of the source. -/
structure Block where
  Header : BlockData
  PrevHeader : Option BlockData
  MrklRoot : Bytes
  BinData : Bytes
  Parsers : List Parser
deriving DecidableEq, Repr

/-- Common header of a struct-dialect record (`consts.Header`). -/
structure StructHead where
  CitizenID : Int
  WalletID : Int
  Time : Int
deriving DecidableEq, Repr

/-- The handle a recorded call was given; the three transaction controls act on T. -/
def Op.handle : Op → Handle
  | Op.startTransaction => Handle.tx
  | Op.commit => Handle.tx
  | Op.rollback => Handle.tx
  | Op.deleteUsed h => h
  | Op.markUsed h _ => h
  | Op.badTx h _ _ => h
  | Op.updateBlockID h _ _ => h
  | Op.insertLog h _ _ => h
  | Op.callContract h _ _ _ => h
  | Op.action h _ _ => h
  | Op.updBlockInfo h _ => h
  | Op.insertBlockchain h _ _ => h

/-- The rows a recorded call wrote: a storage call writes its row when it succeeds; an
executor call has written what it has written also when it ends in an error. -/
def Op.rows : Op → Bool → List Row
  | Op.deleteUsed _, true => [Row.usedCleared]
  | Op.markUsed _ hash, true => [Row.used hash]
  | Op.badTx _ hash reason, true => [Row.bad hash reason]
  | Op.updateBlockID _ blockID hash, true => [Row.status blockID hash]
  | Op.insertLog _ data time, true => [Row.log data time]
  | Op.callContract _ txHash _ writes, _ => writes.map (Row.state txHash)
  | Op.action _ txHash writes, _ => writes.map (Row.state txHash)
  | Op.updBlockInfo _ header, true => [Row.blockInfo header]
  | Op.insertBlockchain _ header data, true => [Row.chain header data]
  | _, _ => []

/-- The rows a sequence of calls wrote through the handle `h`. -/
def rowsVia (h : Handle) (calls : List (Op × Bool)) : List Row :=
  calls.flatMap (fun c => if c.1.handle = h then c.1.rows c.2 else [])

/-! ## Collaborators -/

/-- What the core calls and does not define: system parameters and constants, crypto,
the wallet varint of `converter`, the typed readers, the contract registry and
interpreter, the per-tag parsers and the storage layer. Storage-dependent answers
are functions of the current `Store`. -/
structure Env where
  maxBlockSize : Int
  maxBlockUserTx : Int
  now : Int
  MAX_TX_FORW : Int
  MAX_TX_BACK : Int
  ERROR_TIME : Int
  MAX_TX_SIZE : Int
  scriptDecimal : String
  hash : Bytes → Except Err Bytes
  doubleHash : Bytes → Except Err Bytes
  sign : String → Bytes → Except Err Bytes
  checkSign : List Bytes → Bytes → Bytes → Bool → Except Err Bool
  merkleTreeRoot : List Bytes → Bytes
  encodeLenInt64InPlace : Int → Bytes
  decodeLenInt64Buf : Bytes → Except Err (Int × Bytes)
  decodeLenInt64 : Bytes → Except Err (Int × Bytes)
  binUnmarshalUint64 : Bytes → Except Err (Nat × Bytes)
  binUnmarshalFloat64 : Bytes → Except Err (Nat × Bytes)
  binUnmarshalString : Bytes → Except Err (Bytes × Bytes)
  binUnmarshalBytes : Bytes → Except Err (Bytes × Bytes)
  decimalNewFromString : Bytes → Except Err Bytes
  fmtFloat : Nat → Bytes
  msgpackUnmarshal : Bytes → Except Err SmartContract
  smartForSign : SmartContract → Bytes
  getContractByID : Int → Option Contract
  isStruct : Int → Bool
  getParser : Parser → Int → Except Err String
  unmarshalStruct : Int → Bytes → Except Err StructHead
  parserInit : Store → Parser → Option Err
  parserHeader : Parser → Option TxHeader
  parserValidate : Store → Parser → Option Err
  callContract : Store → Parser → CallFlags → List StateWrite × Option Err
  parserAction : Store → Parser → List StateWrite × Option Err
  modelGetAllTables : Store → Except Err (List String)
  getFirstColumnName : Store → String → Except Err String
  getBlockDataFromBlockChain : Store → Int → Except Err BlockData
  getSleepTime : Store → Int → Int → Int → Int → Except Err Int
  getNodePublicKeyWalletOrCB : Store → Int → Int → Except Err Bytes
  checkLogTx : Store → Bytes → Bool → Bool → Option Err
  startTransaction : Store → Option Err
  deleteUsedTransactions : Store → Handle → Option Err
  markTransactionUsed : Store → Handle → Bytes → Option Err
  updateBlockID : Store → Handle → Int → Bytes → Option Err
  insertInLogTx : Store → Handle → Bytes → Int → Option Err
  processBadTransaction : Store → Handle → Bytes → Err → Option Err
  updBlockInfo : Store → Handle → Block → Option Err
  insertIntoBlockchain : Store → Handle → Block → Option Err
  commit : Store → Option Err

/-- Modelled from the spec: `utils.ErrInfo` is not in src/. Spec 9: it decorates an error
for logging; the error stays an error with the same cause. -/
def ErrInfo (e : Err) : Err := e

/-! ## Storage calls -/

/-- Record a call in the history. -/
def Store.call (s : Store) (op : Op) (ok : Bool) : Store :=
  { s with trace := s.trace ++ [(op, ok)] }

/-- Rows written through a handle: at once durable with the nil handle, pending
under the storage transaction. -/
def Store.write (s : Store) (h : Handle) (rows : List Row) : Store :=
  match h with
  | Handle.nil => { s with durable := s.durable ++ rows }
  | Handle.tx => { s with pending := s.pending ++ rows }

/-- One storage call: the collaborator says whether it fails; when it does not, the
rows are written through the handle. -/
def Store.exec (s : Store) (h : Handle) (op : Op) (res : Option Err) (rows : List Row) :
    Option Err × Store :=
  match res with
  | some e => (some e, s.call op false)
  | none => (none, (s.write h rows).call op true)

/-- Modelled from the spec: `model.StartTransaction` is not in src/. Spec 4.5 step 1 and
6.3 `begin_tx()`: opens the storage transaction T, with nothing written under it. -/
def StartTransaction (env : Env) (s : Store) : Option Err × Store :=
  match env.startTransaction s with
  | some e => (some e, s.call Op.startTransaction false)
  | none => (none, { s with pending := [] }.call Op.startTransaction true)

/-- Modelled from the spec: `DbTransaction.Commit` is not in src/. Spec 4.5 step 5 and
key invariant 5: the rows written under T become visible together, or not at all
when the storage layer fails to commit. -/
def Commit (env : Env) (s : Store) : Option Err × Store :=
  match env.commit s with
  | some e => (some e, { s with pending := [] }.call Op.commit false)
  | none => (none, { s with durable := s.durable ++ s.pending, pending := [] }.call Op.commit true)

/-- Modelled from the spec: `DbTransaction.Rollback` is not in src/. Spec 4.5 step 5:
the rows written under T are dropped. -/
def Rollback (s : Store) : Store :=
  { s with pending := [] }.call Op.rollback true

/-- Modelled from the spec: `model.DeleteUsedTransactions` is not in src/. Spec 4.5 step 2:
empties the per-block staging table, through the handle given. -/
def DeleteUsedTransactions (env : Env) (s : Store) (h : Handle) : Option Err × Store :=
  s.exec h (Op.deleteUsed h) (env.deleteUsedTransactions s h) [Row.usedCleared]

/-- Modelled from the spec: `model.MarkTransactionUsed` is not in src/. Spec 6.3
`mark_tx_used(T_or_nil, hash)`: a used-marker for the hash, through the handle given. -/
def MarkTransactionUsed (env : Env) (s : Store) (h : Handle) (hash : Bytes) :
    Option Err × Store :=
  s.exec h (Op.markUsed h hash) (env.markTransactionUsed s h hash) [Row.used hash]

/-- Modelled from the spec: `TransactionStatus.UpdateBlockID` is not in src/. Spec 6.3
`update_tx_status_block(T, block_id, hash)`. -/
def UpdateBlockID (env : Env) (s : Store) (h : Handle) (blockID : Int) (hash : Bytes) :
    Option Err × Store :=
  s.exec h (Op.updateBlockID h blockID hash) (env.updateBlockID s h blockID hash)
    [Row.status blockID hash]

/-- Modelled from the spec: `InsertInLogTx` is not in src/. Spec 6.3
`insert_log(T, bytes, time)`: appends to the log. -/
def InsertInLogTx (env : Env) (s : Store) (h : Handle) (data : Bytes) (time : Int) :
    Option Err × Store :=
  s.exec h (Op.insertLog h data time) (env.insertInLogTx s h data time) [Row.log data time]

/-- Modelled from the spec: `Parser.processBadTransaction` is not in src/. Spec 4.5 step 3c
records a bad-transaction row for the hash with the reason; spec 5 lets only the
used-marker of a bad transaction survive a rollback, so the row goes through the
handle attached to the record (nil while parsing, T while the block is played). -/
def Parser.processBadTransaction (env : Env) (s : Store) (p : Parser) (hash : Bytes)
    (errText : Err) : Option Err × Store :=
  s.exec p.DbTransaction (Op.badTx p.DbTransaction hash errText)
    (env.processBadTransaction s p.DbTransaction hash errText) [Row.bad hash errText]

/-- Modelled from the spec: `Parser.CallContract` is not in src/. Spec 4.5 step 3b and 5:
the interpreter runs the phases of the mask; what it writes flows through the
handle attached to the record, also when it ends in an error. -/
def Parser.CallContract (env : Env) (s : Store) (p : Parser) (flags : CallFlags) :
    Option Err × Store :=
  let r := env.callContract s p flags
  ((r.2, (s.write p.DbTransaction (r.1.map (Row.state p.TxHash))).call
    (Op.callContract p.DbTransaction p.TxHash flags r.1) r.2.isNone))

/-- Modelled from the spec: the `Action` method of a per-tag parser is not in src/.
Spec 4.5 step 3b: its writes flow through the handle attached to the record. -/
def Parser.Action (env : Env) (s : Store) (p : Parser) : Option Err × Store :=
  let r := env.parserAction s p
  ((r.2, (s.write p.DbTransaction (r.1.map (Row.state p.TxHash))).call
    (Op.action p.DbTransaction p.TxHash r.1) r.2.isNone))

/-- Modelled from the spec: `UpdBlockInfo` is not in src/. Spec 4.5 step 4
`update_block_info(T, block)`: the canonical block record. -/
def UpdBlockInfo (env : Env) (s : Store) (h : Handle) (block : Block) : Option Err × Store :=
  s.exec h (Op.updBlockInfo h block.Header) (env.updBlockInfo s h block) [Row.blockInfo block.Header]

/-- Modelled from the spec: `InsertIntoBlockchain` is not in src/. Spec 4.5 step 4
`insert_into_blockchain(T, block)`: the chain tail. -/
def InsertIntoBlockchain (env : Env) (s : Store) (h : Handle) (block : Block) :
    Option Err × Store :=
  s.exec h (Op.insertBlockchain h block.Header block.BinData) (env.insertIntoBlockchain s h block)
    [Row.chain block.Header block.BinData]

/-! ## Transaction parser -/

/-- Go conversion `uint32(x)` / `int32(x)` of a 64-bit integer. -/
def toUint32 (x : Int) : Int := x % 4294967296

def toInt32 (x : Int) : Int :=
  let u := x % 4294967296
  if u < 2147483648 then u else u - 4294967296

def IsContractTransaction (txType : Int) : Bool :=
  txType > 127

/-- Assignment `m[key] = v` on a Go map kept as an association list. -/
def setKey {α : Type} (m : List (String × α)) (key : String) (v : α) : List (String × α) :=
  match m with
  | [] => [(key, v)]
  | (k, w) :: rest => if k = key then (k, v) :: rest else (k, w) :: setKey rest key v

/-- Join of byte strings with a separator (`strings.Join`). -/
def joinBytes (sep : Bytes) : List Bytes → Bytes
  | [] => []
  | [x] => x
  | x :: y :: rest => x ++ sep ++ joinBytes sep (y :: rest)

/-- Substring test `strings.Index(s, sub) >= 0`. -/
def containsStr (s sub : String) : Bool :=
  s.toList.tails.any (fun t => sub.toList.isPrefixOf t)

/-- Rendering of a decoded value with the verb `%v`. -/
def fmtValue (env : Env) : Value → Bytes
  | Value.nil => strBytes "<nil>"
  | Value.uint64 v => fmtInt v
  | Value.float64 bits => env.fmtFloat bits
  | Value.int64 v => fmtInt v
  | Value.decimal d => d
  | Value.str s => s
  | Value.list items => strBytes "[" ++ joinBytes (strBytes " ") items ++ strBytes "]"

/-- The inner loop of the `[]interface {}` case: `count` length-framed strings. -/
def readList : Nat → Bytes → List Bytes → Except Err (List Bytes × Bytes)
  | 0, input, list => .ok (list, input)
  | count + 1, input, list =>
    match DecodeLengthBuf input with
    | .error e => .error e
    | .ok (length, input1) =>
      if input1.length < length then .error "input slice is short"
      else readList count (input1.drop length) (list ++ [input1.take length])

/-- What one iteration of the field loop of `parseContractTransaction` decodes: the
value `v`, the pending error `err`, `forv`/`isforv`, and the input left; or the error
of an early `return`. -/
def decodeField (env : Env) (fitem : FieldInfo) (input : Bytes) :
    Except Err (Value × Option Err × Option Bytes × Bytes) :=
  if fitem.Typ = "uint64" then
    match env.binUnmarshalUint64 input with
    | .ok (val, rest) => .ok (Value.uint64 val, none, none, rest)
    | .error _ => .ok (Value.uint64 0, none, none, input)
  else if fitem.Typ = "float64" then
    match env.binUnmarshalFloat64 input with
    | .ok (val, rest) => .ok (Value.float64 val, none, none, rest)
    | .error _ => .ok (Value.float64 0, none, none, input)
  else if fitem.Typ = "int64" then
    match env.decodeLenInt64 input with
    | .ok (val, rest) => .ok (Value.int64 val, none, none, rest)
    | .error e => .ok (Value.int64 0, some e, none, input)
  else if fitem.Typ = env.scriptDecimal then
    match env.binUnmarshalString input with
    | .error e => .error e
    | .ok (str, rest) =>
      match env.decimalNewFromString str with
      | .ok d => .ok (Value.decimal d, none, none, rest)
      | .error e => .ok (Value.decimal (strBytes "0"), some e, none, rest)
  else if fitem.Typ = "string" then
    match env.binUnmarshalString input with
    | .error e => .error e
    | .ok (str, rest) => .ok (Value.str str, none, none, rest)
  else if fitem.Typ = "[]uint8" then
    match env.binUnmarshalBytes input with
    | .error e => .error e
    | .ok (b, rest) => .ok (Value.str (BinToHex b), none, none, rest)
  else if fitem.Typ = "[]interface {}" then
    match DecodeLengthBuf input with
    | .error e => .error e
    | .ok (count, input1) =>
      match readList count input1 [] with
      | .error e => .error e
      | .ok (list, rest) =>
        .ok (Value.list list, none, some (joinBytes (strBytes ",") list), rest)
  else .ok (Value.nil, none, none, input)

/-- The field loop of `parseContractTransaction`: threads `input`, `p.TxData` and
`forsign` through the declared parameters. -/
def parseFields (env : Env) : List FieldInfo → Bytes → List (String × Value) → Bytes →
    Except Err (List (String × Value) × Bytes)
  | [], _, txData, forsign => .ok (txData, forsign)
  | fitem :: rest, input, txData, forsign =>
    match decodeField env fitem input with
    | .error e => .error e
    | .ok (v, err, forv, input1) =>
      let txData1 := setKey txData fitem.Name v
      match err with
      | some e => .error e
      | none =>
        if containsStr fitem.Tags "image" then parseFields env rest input1 txData1 forsign
        else
          let shown := match forv with
            | some f => f
            | none => fmtValue env v
          parseFields env rest input1 txData1 (forsign ++ strBytes "," ++ shown)

def parseContractTransaction (env : Env) (p : Parser) (buf : Bytes) : Except Err Parser :=
  match env.msgpackUnmarshal buf with
  | .error e => .error e
  | .ok smartTx =>
    let stateID := toUint32 smartTx.Header.StateID
    let p1 : Parser := { p with
      TxPtr := none, TxSmart := some smartTx, TxTime := smartTx.Header.Time,
      TxStateID := stateID,
      TxCitizenID := if stateID > 0 then smartTx.Header.UserID else 0,
      TxWalletID := if stateID > 0 then 0 else smartTx.Header.UserID }
    match env.getContractByID (toInt32 smartTx.Header.Typ) with
    | none => .error ("unknown contract " ++ toString smartTx.Header.Typ)
    | some contract =>
      let forsign := env.smartForSign smartTx
      let p2 : Parser := { p1 with
        TxContract := some contract, TxHeader := some smartTx.Header, TxData := [] }
      match contract.Tx with
      | none => .ok { p2 with TxData := setKey p2.TxData "forsign" (Value.str forsign) }
      | some fields =>
        match parseFields env fields smartTx.Data [] forsign with
        | .error e => .error e
        | .ok (txData, forsign1) =>
          .ok { p2 with TxData := setKey txData "forsign" (Value.str forsign1) }

/-- Read of a Go map kept as an association list. -/
def getKey {α : Type} (m : List (String × α)) (key : String) : Option α :=
  match m with
  | [] => none
  | (k, w) :: rest => if k = key then some w else getKey rest key

/-- Reference decoding of one declared parameter, in the words of the specification: the
typed reader of its type gives the value and the rest of the data region, bytes are
kept as their hexadecimal text, a list is a count followed by that many length-framed
strings, and every failure of a reader is a failure. -/
def decodeParam (env : Env) (fitem : FieldInfo) (input : Bytes) : Except Err (Value × Bytes) :=
  if fitem.Typ = "uint64" then
    match env.binUnmarshalUint64 input with
    | .error e => .error e
    | .ok (val, rest) => .ok (Value.uint64 val, rest)
  else if fitem.Typ = "float64" then
    match env.binUnmarshalFloat64 input with
    | .error e => .error e
    | .ok (val, rest) => .ok (Value.float64 val, rest)
  else if fitem.Typ = "int64" then
    match env.decodeLenInt64 input with
    | .error e => .error e
    | .ok (val, rest) => .ok (Value.int64 val, rest)
  else if fitem.Typ = env.scriptDecimal then
    match env.binUnmarshalString input with
    | .error e => .error e
    | .ok (str, rest) =>
      match env.decimalNewFromString str with
      | .error e => .error e
      | .ok d => .ok (Value.decimal d, rest)
  else if fitem.Typ = "string" then
    match env.binUnmarshalString input with
    | .error e => .error e
    | .ok (str, rest) => .ok (Value.str str, rest)
  else if fitem.Typ = "[]uint8" then
    match env.binUnmarshalBytes input with
    | .error e => .error e
    | .ok (b, rest) => .ok (Value.str (BinToHex b), rest)
  else if fitem.Typ = "[]interface {}" then
    match DecodeLengthBuf input with
    | .error e => .error e
    | .ok (count, input1) =>
      match readList count input1 [] with
      | .error e => .error e
      | .ok (list, rest) => .ok (Value.list list, rest)
  else .error "unsupported parameter type"

/-- Reference decoding of the data region: the declared parameters one after the other;
the values, in declaration order, and what is left of the region. -/
def decodeParams (env : Env) : List FieldInfo → Bytes → Except Err (List Value × Bytes)
  | [], input => .ok ([], input)
  | fitem :: rest, input =>
    match decodeParam env fitem input with
    | .error e => .error e
    | .ok (v, input1) =>
      match decodeParams env rest input1 with
      | .error e => .error e
      | .ok (vs, input2) => .ok (v :: vs, input2)

/-- Reference rendering of a value in the sign-string: a number in decimal, text and
hexadecimal text as they are, a list as its elements joined by commas. -/
def renderValue (env : Env) : Value → Bytes
  | Value.nil => []
  | Value.uint64 v => fmtInt v
  | Value.float64 bits => env.fmtFloat bits
  | Value.int64 v => fmtInt v
  | Value.decimal d => d
  | Value.str s => s
  | Value.list items => joinBytes (strBytes ",") items

/-- Reference sign-string: `forSign`, then a comma and the rendering of the value for
every parameter, in declaration order, whose tags do not hold `image`. -/
def signString (env : Env) (forSign : Bytes) (fields : List FieldInfo) (values : List Value) :
    Bytes :=
  forSign ++ ((fields.zip values).filter (fun fv => !containsStr fv.1.Tags "image")).flatMap
    (fun fv => strBytes "," ++ renderValue env fv.2)

/-- Reference map: every value stored under the name of its parameter, in declaration
order. -/
def storeParams (fields : List FieldInfo) (values : List Value) : List (String × Value) :=
  (fields.zip values).foldl (fun m fv => setKey m fv.1.Name fv.2) []

def parseStructTransaction (env : Env) (p : Parser) (buf : Bytes) (txType : Int) :
    Except Err Parser :=
  match env.getParser p txType with
  | .error e => .error e
  | .ok trParser =>
    let p1 : Parser := { p with txParser := some trParser, TxPtr := some buf }
    match env.unmarshalStruct txType buf with
    | .error e => .error e
    | .ok head =>
      .ok { p1 with
        TxCitizenID := head.CitizenID, TxWalletID := head.WalletID,
        TxTime := head.Time, TxType := txType }

/-- Returns the record as the function left it together with the error, since
`ParseTransaction` hands the record back in this dialect also on failure. -/
def parseRegularTransaction (env : Env) (s : Store) (p : Parser) (txType : Int) :
    Parser × Option Err :=
  match env.getParser p txType with
  | .error e => (p, some e)
  | .ok trParser =>
    let p1 : Parser := { p with txParser := some trParser }
    match env.parserInit s p1 with
    | some e => (p1, some e)
    | none =>
      match env.parserHeader p1 with
      | none => (p1, some "tx header is nil")
      | some header =>
        let p2 : Parser := { p1 with
          TxHeader := some header, TxTime := header.Time, TxType := txType,
          TxStateID := toUint32 header.StateID, TxUserID := header.UserID }
        match env.parserValidate s p2 with
        | some e => (p2, some (ErrInfo e))
        | none => (p2, none)

/-- Go result `(*Parser, error)`: the record may be nil, with or without an error. -/
def ParseTransaction (env : Env) (s : Store) (buffer : Bytes) :
    Option Parser × Option Err × Store :=
  match buffer with
  | [] => (none, some "empty transaction buffer", s)
  | b :: rest =>
    match env.hash buffer with
    | .error e => (none, some e, s)
    | .ok hash =>
      let txType : Int := b.val
      let p : Parser := { Parser.new with
        TxHash := hash, TxFullData := buffer, dataType := txType }
      if IsContractTransaction txType then
        let p1 : Parser := { p with TxBinaryData := rest }
        match parseContractTransaction env p1 rest with
        | .error e => (none, some e, s)
        | .ok p2 =>
          match p2.CallContract env s { init := true, condition := true, action := false } with
          | (some e, s1) => (none, some e, s1)
          | (none, s1) => (some p2, none, s1)
      else if env.isStruct txType then
        let p1 : Parser := { p with TxBinaryData := buffer }
        match parseStructTransaction env p1 buffer txType with
        | .error e => (none, some e, s)
        | .ok p2 => (some p2, none, s)
      else
        let p1 : Parser := { p with TxBinaryData := rest }
        match parseRegularTransaction env s p1 txType with
        | (p2, some e) => (some p2, some e, s)
        | (p2, none) => (some p2, none, s)

/-! ## Old transaction parser -/

/-- Modelled from the spec: `converter.Int64ToByte` is not in src/; the claims on
`ParseOldTransaction` read its result as the decimal text of the number. -/
def Int64ToByte (v : Int) : Bytes := fmtInt v

/-- The loop of `ParseOldTransaction` (lines 25-51). Each turn reads at least the length
byte, so `fuel` equal to the length of the buffer is never used up. -/
def parseOldFields (env : Env) : Nat → Bytes → List Bytes → Except Err (List Bytes)
  | fuel, buffer, transSlice =>
    if buffer.length = 0 then .ok transSlice
    else
      match fuel with
      | 0 => .error "out of fuel"
      | fuel + 1 =>
        match DecodeLengthBuf buffer with
        | .error e => .error e
        | .ok (length, buf1) =>
          if length > buf1.length ∨ (length : Int) > env.MAX_TX_SIZE then
            .error "bad transaction"
          else if length > 0 then
            parseOldFields env fuel (buf1.drop length) (transSlice ++ [buf1.take length])
          else if buf1.length > 0 then parseOldFields env fuel buf1 (transSlice ++ [[]])
          else .ok transSlice

/-- Function `ParseOldTransaction` of the source; Go result `([][]byte, error)`, the
slice being nil on the two `return nil, err`. -/
def ParseOldTransaction (env : Env) (buffer : Bytes) : Option (List Bytes) × Option Err :=
  let transSlice : List Bytes := [[], [], Int64ToByte (BinToDec (buffer.take 4))]
  let buf1 := buffer.drop 4
  if buf1.length = 0 then (some transSlice, some "incorrect tx")
  else
    match parseOldFields env buf1.length buf1 transSlice with
    | .error e => (none, some e)
    | .ok result => (some result, none)

/-- Fields of an old transaction in the words of the specification: repeatedly, until
the input is empty, a length prefix is read, a length greater than what remains or
than `MAX_TX_SIZE` fails, and exactly that many bytes are sliced. The result lists the
fields in input order; `none` is a malformed input. The first argument bounds the
number of fields. -/
def oldFields (maxSize : Int) : Nat → Bytes → Option (List Bytes)
  | _, [] => some []
  | 0, _ :: _ => none
  | fuel + 1, b :: rest =>
    match DecodeLengthBuf (b :: rest) with
    | .error _ => none
    | .ok (size, buf1) =>
      if buf1.length < size then none
      else if (size : Int) > maxSize then none
      else
        match oldFields maxSize fuel (buf1.drop size) with
        | none => none
        | some fields => some (buf1.take size :: fields)

/-- A list of fields without its last field when that field is empty. -/
def dropLastEmpty (fields : List Bytes) : List Bytes :=
  if fields.getLast? = some [] then fields.dropLast else fields

/-! ## Block parser and serializer -/

/-- The loop of `getAllTables` over the table names. -/
def getAllTablesLoop (env : Env) (s : Store) : List String → List (String × String) →
    Except Err (List (String × String))
  | [], allPkeys => .ok allPkeys
  | table :: rest, allPkeys =>
    match env.getFirstColumnName s table with
    | .error e => .error (ErrInfo e)
    | .ok col => getAllTablesLoop env s rest (setKey allPkeys table col)

def getAllTables (env : Env) (s : Store) : Except Err (List (String × String)) :=
  match env.modelGetAllTables s with
  | .error e => .error (ErrInfo e)
  | .ok allTables => getAllTablesLoop env s allTables []

/-- Returns the header and the rest of the buffer. -/
def ParseBlockHeader (env : Env) (binaryBlock : Bytes) : Except Err (BlockData × Bytes) :=
  if binaryBlock.length < 9 then .error "bad binary block length"
  else
    let blockVersion := BinToDec (binaryBlock.take 1)
    let b1 := binaryBlock.drop 1
    if (b1.length : Int) > env.maxBlockSize then
      .error "len(binaryBlock) > variables.Int64[\"max_block_size\"]"
    else
      let blockID := BinToDec (b1.take 4)
      let b2 := b1.drop 4
      let time := BinToDec (b2.take 4)
      let b3 := b2.drop 4
      match env.decodeLenInt64Buf b3 with
      | .error e => .error e
      | .ok (walletID, b4) =>
        if b4.length < 1 then .error "bad block format"
        else
          let stateID := BinToDec (b4.take 1)
          let b5 := b4.drop 1
          let block : BlockData :=
            { BlockID := blockID, Time := time, WalletID := walletID, StateID := stateID,
              Sign := [], Hash := [], Version := blockVersion }
          if blockID > 1 then
            match DecodeLengthBuf b5 with
            | .error e => .error e
            | .ok (signSize, b6) =>
              if b6.length < signSize then .error "bad block format (no sign)"
              else .ok ({ block with Sign := b6.take signSize }, b6.drop signSize)
          else .ok (block, b5.drop 1)

/-- The transaction loop of `parseBlock`. Each turn reads at least the length byte, so
`fuel` equal to the length of the buffer is never used up. -/
def parseTransactions (env : Env) (header : BlockData) (allKeys : List (String × String)) :
    Nat → Store → Bytes → List Parser → List Bytes → Res (List Parser × List Bytes) × Store
  | fuel, s, blockBuffer, parsers, mrklSlice =>
    if blockBuffer.length = 0 then (Res.ok (parsers, mrklSlice), s)
    else
      match fuel with
      | 0 => (Res.error "out of fuel", s)
      | fuel + 1 =>
        match DecodeLengthBuf blockBuffer with
        | .error e => (Res.error ("bad block format (" ++ e ++ ")"), s)
        | .ok (transactionSize, buf1) =>
          if buf1.length < transactionSize then
            (Res.error ("bad block format (transaction len is too big: " ++
              toString transactionSize ++ ")"), s)
          else if transactionSize = 0 then (Res.error "transaction size is 0", s)
          else
            match ParseTransaction env s (buf1.take transactionSize) with
            | (none, some _, s1) => (Res.panic "nil pointer dereference: p.TxHash", s1)
            | (some p, some e, s1) =>
              let s2 := if p.TxHash ≠ [] then (p.processBadTransaction env s1 p.TxHash e).2 else s1
              (Res.error ("parse transaction error(" ++ e ++ ")"), s2)
            | (none, none, s1) => (Res.panic "nil pointer dereference: p.BlockData", s1)
            | (some p, none, s1) =>
              let p1 : Parser := { p with BlockData := some header, AllPkeys := allKeys }
              if p1.TxFullData.length > 0 then
                match env.doubleHash p1.TxFullData with
                | .error e => (Res.error e, s1)
                | .ok dSha256Hash =>
                  parseTransactions env header allKeys fuel s1 (buf1.drop transactionSize)
                    (parsers ++ [p1]) (mrklSlice ++ [BinToHex dSha256Hash])
              else
                parseTransactions env header allKeys fuel s1 (buf1.drop transactionSize)
                  (parsers ++ [p1]) mrklSlice

def parseBlock (env : Env) (s : Store) (blockBuffer : Bytes) : Res Block × Store :=
  match ParseBlockHeader env blockBuffer with
  | .error e => (Res.error e, s)
  | .ok (header, body) =>
    match getAllTables env s with
    | .error e => (Res.error e, s)
    | .ok allKeys =>
      match parseTransactions env header allKeys body.length s body [] [] with
      | (Res.error e, s1) => (Res.error e, s1)
      | (Res.panic m, s1) => (Res.panic m, s1)
      | (Res.ok (parsers, mrklSlice), s1) =>
        let mrklSlice1 := if mrklSlice.length = 0 then mrklSlice ++ [strBytes "0"] else mrklSlice
        (Res.ok { Header := header, PrevHeader := none, MrklRoot := env.merkleTreeRoot mrklSlice1,
                  BinData := [], Parsers := parsers }, s1)

/-- The sign-string `fmt.Sprintf("0,%d,%s,%d,%d,%d,%s", ...)` of `CheckHash` and
`MarshallBlock`. -/
def forSignString (blockID : Int) (prevHash : Bytes) (time walletID stateID : Int)
    (mrklRoot : Bytes) : Bytes :=
  strBytes "0," ++ fmtInt blockID ++ strBytes "," ++ prevHash ++ strBytes "," ++ fmtInt time ++
    strBytes "," ++ fmtInt walletID ++ strBytes "," ++ fmtInt stateID ++ strBytes "," ++ mrklRoot

/-- The first loop of `MarshallBlock`: the Merkle leaves and the framed body. -/
def marshallTransactions (env : Env) : List Bytes → List Bytes → Bytes →
    Except Err (List Bytes × Bytes)
  | [], mrklArray, blockDataTx => .ok (mrklArray, blockDataTx)
  | tr :: rest, mrklArray, blockDataTx =>
    match env.doubleHash tr with
    | .error e => .error e
    | .ok doubleHash =>
      marshallTransactions env rest (mrklArray ++ [BinToHex doubleHash])
        (blockDataTx ++ EncodeLengthPlusData tr)

def MarshallBlock (env : Env) (header : BlockData) (trData : List Bytes) (prevHash : Bytes)
    (key : String) : Except Err Bytes :=
  match marshallTransactions env trData [] [] with
  | .error e => .error e
  | .ok (mrklArray, blockDataTx) =>
    let signedRes : Except Err Bytes :=
      if key ≠ "" then
        let mrklArray1 := if mrklArray.length = 0 then mrklArray ++ [strBytes "0"] else mrklArray
        let mrklRoot := env.merkleTreeRoot mrklArray1
        env.sign key (forSignString header.BlockID prevHash header.Time header.WalletID
          header.StateID mrklRoot)
      else .ok []
    match signedRes with
    | .error e => .error e
    | .ok signed =>
      .ok (DecToBin header.Version 1 ++ DecToBin header.BlockID 4 ++ DecToBin header.Time 4 ++
        env.encodeLenInt64InPlace header.WalletID ++ DecToBin header.StateID 1 ++
        EncodeLengthPlusData signed ++ blockDataTx)

/-- Method `readPreviousBlock` of the source. -/
def Block.readPreviousBlock (env : Env) (s : Store) (block : Block) : Except Err Block :=
  if block.Header.BlockID = 1 then .ok { block with PrevHeader := some BlockData.zero }
  else
    match env.getBlockDataFromBlockChain s (block.Header.BlockID - 1) with
    | .error _ => .error (ErrInfo ("can't get block " ++ toString (block.Header.BlockID - 1)))
    | .ok prev => .ok { block with PrevHeader := some prev }

def ProcessBlock (env : Env) (s : Store) (data : Bytes) : Res Block × Store :=
  if (data.length : Int) > env.maxBlockSize then
    (Res.error (ErrInfo "len(binaryBlock) > variables.Int64[\"max_block_size\"]"), s)
  else if data.length = 0 then (Res.error "empty buffer", s)
  else
    match parseBlock env s data with
    | (Res.error e, s1) => (Res.error e, s1)
    | (Res.panic m, s1) => (Res.panic m, s1)
    | (Res.ok block, s1) =>
      match Block.readPreviousBlock env s1 { block with BinData := data } with
      | .error e => (Res.error e, s1)
      | .ok block1 => (Res.ok block1, s1)

/-- Framing of a block body in the words of the specification: repeatedly, until the
buffer is empty, a length prefix is read, a zero length or a length greater than what
remains fails, and exactly that many bytes are sliced. The result lists the frames in
the order of the body; `none` is a malformed body. The first argument bounds the
number of frames. -/
def splitFrames : Nat → Bytes → Option (List Bytes)
  | _, [] => some []
  | 0, _ :: _ => none
  | fuel + 1, b :: rest =>
    match DecodeLengthBuf (b :: rest) with
    | .error _ => none
    | .ok (size, buf1) =>
      if buf1.length < size then none
      else if size = 0 then none
      else
        match splitFrames fuel (buf1.drop size) with
        | none => none
        | some frames => some (buf1.take size :: frames)

/-- The phase mask `CallInit | CallCondition` of `ParseTransaction`. -/
def parseFlags : CallFlags := { init := true, condition := true, action := false }

/-- The calls parsing can make: the interpreter run of `ParseTransaction` on a contract
transaction and the bad-transaction record of `parseBlock`, both with the nil
handle. -/
def isParseCall (c : Op × Bool) : Bool :=
  match c.1 with
  | Op.callContract Handle.nil _ flags _ => flags == parseFlags
  | Op.badTx Handle.nil _ _ => true
  | _ => false

/-- A row of contract state or a bad-transaction record. -/
def isParseRow : Row → Bool
  | Row.state _ _ => true
  | Row.bad _ _ => true
  | _ => false

/-! ## Block validator -/

/-- Wraparound of a signed 64-bit result. -/
def wrapInt64 (x : Int) : Int :=
  (x + 9223372036854775808) % 18446744073709551616 - 9223372036854775808

def checkTransaction (env : Env) (s : Store) (p : Parser) (checkTime : Int)
    (checkForDupTr : Bool) : Option Err :=
  match env.checkLogTx s p.TxFullData checkForDupTr false with
  | some e => some (ErrInfo e)
  | none =>
    if wrapInt64 (p.TxTime - env.MAX_TX_FORW) > checkTime then
      some (ErrInfo "transaction time is too big")
    else if p.TxTime < wrapInt64 (checkTime - env.MAX_TX_BACK) then
      some (ErrInfo "incorrect transaction time")
    else
      match p.TxContract, p.BlockData with
      | none, some blockData =>
        if blockData.BlockID ≠ 1 then
          if p.TxUserID = 0 then some (ErrInfo "emtpy user id") else none
        else none
      | _, _ => none

/-- Go result `(*tx.Header, error)`. -/
def CheckTransaction (env : Env) (s : Store) (data : Bytes) : Res (Option TxHeader) × Store :=
  match ParseTransaction env s data with
  | (none, some e, s1) => (Res.error e, s1)
  | (some _, some e, s1) => (Res.error e, s1)
  | (none, none, s1) => (Res.panic "nil pointer dereference", s1)
  | (some p, none, s1) =>
    match checkTransaction env s1 p env.now true with
    | some e => (Res.error e, s1)
    | none => (Res.ok p.TxHeader, s1)

/-- Read of the Go map `txCounter` (zero when the key is absent). -/
def counterGet (m : List (Int × Int)) (k : Int) : Int :=
  match m with
  | [] => 0
  | (k1, v) :: rest => if k1 = k then v else counterGet rest k

/-- The statement `txCounter[k]++`. -/
def counterIncr (m : List (Int × Int)) (k : Int) : List (Int × Int) :=
  match m with
  | [] => [(k, 1)]
  | (k1, v) :: rest => if k1 = k then (k1, v + 1) :: rest else (k1, v) :: counterIncr rest k

/-- Method `CheckHash` of the source; Go result `(bool, error)`. -/
def Block.CheckHash (env : Env) (s : Store) (block : Block) : Bool × Option Err :=
  if block.Header.BlockID = 1 then (true, none)
  else
    match block.PrevHeader with
    | some prevHeader =>
      match env.getNodePublicKeyWalletOrCB s block.Header.WalletID block.Header.StateID with
      | .error e => (false, some (ErrInfo e))
      | .ok nodePublicKey =>
        if nodePublicKey.length = 0 then (false, some (ErrInfo "empty nodePublicKey"))
        else
          let forSign := forSignString block.Header.BlockID prevHeader.Hash block.Header.Time
            block.Header.WalletID block.Header.StateID block.MrklRoot
          match env.checkSign [nodePublicKey] forSign block.Header.Sign true with
          | .error e =>
            (false, some (ErrInfo ("err: " ++ e ++ " / p.PrevBlock.BlockId: " ++
              toString prevHeader.BlockID)))
          | .ok resultCheckSign => (resultCheckSign, none)
    | none => (true, none)

/-- Reference definition of the signature check, in the words of the specification: a
first block passes with no key looked up; a later block with a previous header
fails when the node key is missing or empty and otherwise is what `check_sign`
answers on the seven comma-separated fields. Nothing is specified elsewhere. -/
def CheckHashRef (env : Env) (s : Store) (block : Block) : Bool × Option Err :=
  if block.Header.BlockID = 1 then (true, none)
  else if block.Header.BlockID > 1 then
    match block.PrevHeader with
    | none => (false, some "not specified")
    | some prev =>
      match env.getNodePublicKeyWalletOrCB s block.Header.WalletID block.Header.StateID with
      | .error e => (false, some (ErrInfo e))
      | .ok nodeKey =>
        if nodeKey = [] then (false, some (ErrInfo "empty nodePublicKey"))
        else
          match env.checkSign [nodeKey]
              (joinBytes (strBytes ",")
                [strBytes "0", fmtInt block.Header.BlockID, prev.Hash, fmtInt block.Header.Time,
                 fmtInt block.Header.WalletID, fmtInt block.Header.StateID, block.MrklRoot])
              block.Header.Sign true with
          | .ok verdict => (verdict, none)
          | .error e =>
            (false, some (ErrInfo ("err: " ++ e ++ " / p.PrevBlock.BlockId: " ++
              toString prev.BlockID)))
  else (false, some "not specified")

/-- The loop of `CheckBlock` over the transactions, with the two maps. -/
def checkParsers (env : Env) (s : Store) (block : Block) : List Parser → List (Int × Int) →
    List Bytes → Option Err
  | [], _, _ => none
  | p :: rest, txCounter, txHashes =>
    let hexHash := BinToHex p.TxHash
    if txHashes.contains hexHash then
      some (ErrInfo ("duplicate transaction " ++ bytesStr hexHash))
    else
      let txCounter1 := counterIncr txCounter p.TxUserID
      if counterGet txCounter1 p.TxUserID > env.maxBlockUserTx then
        some (ErrInfo "max_block_user_transactions")
      else
        match checkTransaction env s p block.Header.Time false with
        | some e => some (ErrInfo e)
        | none => checkParsers env s block rest txCounter1 (hexHash :: txHashes)

/-- Method `CheckBlock` of the source: `none` is Go `nil`. The first test only logs:
the value `utils.ErrInfo` builds there is dropped. The last message reads
`block.PrevHeader.BlockID`; `CheckHash` answers `false` only with a previous header. -/
def Block.CheckBlock (env : Env) (s : Store) (block : Block) : Option Err :=
  let _logged : Option Err :=
    if block.Header.Time > env.now then some (ErrInfo "incorrect block time") else none
  let seqCheck : Option Err :=
    match block.PrevHeader with
    | none => none
    | some prevHeader =>
      if block.Header.BlockID ≠ wrapInt64 (prevHeader.BlockID + 1) then
        some (ErrInfo ("incorrect block_id " ++ toString block.Header.BlockID ++ " != " ++
          toString prevHeader.BlockID ++ " +1"))
      else
        match env.getSleepTime s block.Header.WalletID block.Header.StateID
            prevHeader.StateID prevHeader.WalletID with
        | .error e => some (ErrInfo e)
        | .ok sleepTime =>
          if wrapInt64 (wrapInt64 (prevHeader.Time + sleepTime) - block.Header.Time) >
              env.ERROR_TIME then
            some (ErrInfo "incorrect block time")
          else none
  match seqCheck with
  | some e => some e
  | none =>
    match checkParsers env s block block.Parsers [] [] with
    | some e => some e
    | none =>
      match block.CheckHash env s with
      | (_, some e) => some (ErrInfo e)
      | (false, none) =>
        some ("incorrect signature / p.PrevBlock.BlockId: " ++
          toString ((block.PrevHeader.map (fun h => h.BlockID)).getD 0))
      | (true, none) => none

/-- The last test of `checkTransaction` (lines 521-528): the author of a transaction
with no resolved contract in a block other than the first. -/
def checkAuthor (p : Parser) : Option Err :=
  match p.TxContract, p.BlockData with
  | none, some blockData =>
    if blockData.BlockID ≠ 1 then
      if p.TxUserID = 0 then some (ErrInfo "emtpy user id") else none
    else none
  | _, _ => none

/-- The first stage of `CheckBlock` (lines 626-643): with a previous header, the
sequence test and the test of the time between the two blocks. -/
def Block.checkSequence (env : Env) (s : Store) (block : Block) : Option Err :=
  match block.PrevHeader with
  | none => none
  | some prevHeader =>
    if block.Header.BlockID ≠ wrapInt64 (prevHeader.BlockID + 1) then
      some (ErrInfo ("incorrect block_id " ++ toString block.Header.BlockID ++ " != " ++
        toString prevHeader.BlockID ++ " +1"))
    else
      match env.getSleepTime s block.Header.WalletID block.Header.StateID
          prevHeader.StateID prevHeader.WalletID with
      | .error e => some (ErrInfo e)
      | .ok sleepTime =>
        if wrapInt64 (wrapInt64 (prevHeader.Time + sleepTime) - block.Header.Time) >
            env.ERROR_TIME then
          some (ErrInfo "incorrect block time")
        else none

/-- The rest of `CheckBlock` (lines 645-678): the loop over the transactions and the
signature. -/
def Block.checkTransactionsAndHash (env : Env) (s : Store) (block : Block) : Option Err :=
  match checkParsers env s block block.Parsers [] [] with
  | some e => some e
  | none =>
    match block.CheckHash env s with
    | (_, some e) => some (ErrInfo e)
    | (false, none) =>
      some ("incorrect signature / p.PrevBlock.BlockId: " ++
        toString ((block.PrevHeader.map (fun h => h.BlockID)).getD 0))
    | (true, none) => none

/-- The number of transactions of a block whose `TxUserID` is `user`. -/
def userTxCount (user : Int) (parsers : List Parser) : Nat :=
  (parsers.filter (fun p => p.TxUserID = user)).length

/-! ## Block executor -/

/-- The storage `s1` is `s` after the calls `delta`: the history grew by them, and the
durable and pending rows by what they wrote through the nil handle and through T. -/
def Store.Extends (s s1 : Store) (delta : List (Op × Bool)) : Prop :=
  s1.trace = s.trace ++ delta ∧
  s1.durable = s.durable ++ rowsVia Handle.nil delta ∧
  s1.pending = s.pending ++ rowsVia Handle.tx delta

/-- The statement `p.DbTransaction = dbTransaction` of `playBlock`. -/
def Parser.attach (h : Handle) (p : Parser) : Parser :=
  { p with DbTransaction := h }

/-- The phase mask `CallInit | CallCondition | CallAction` of `playTransaction`. -/
def playFlags : CallFlags := { init := true, condition := true, action := true }

/-- The recorded call is the execution of the record `p` by `playTransaction`. -/
def isExecCall (p : Parser) (c : Op × Bool) : Bool :=
  match c.1 with
  | Op.callContract h txHash flags _ =>
    p.TxContract.isSome && h == p.DbTransaction && txHash == p.TxHash && flags == playFlags
  | Op.action h txHash _ =>
    p.TxContract.isNone && p.txParser.isSome && h == p.DbTransaction && txHash == p.TxHash
  | _ => false

/-- The calls `playBlock` makes for a record whose execution failed: the failed
execution (none when the record has no parser), the used-marker with the nil
handle, and the bad-transaction record; no status update, no log entry. -/
def isFailedGroup (p : Parser) (g : List (Op × Bool)) : Bool :=
  match g with
  | [c, (Op.markUsed Handle.nil h1, _), (Op.badTx h2 h3 _, _)] =>
    isExecCall p c && !c.2 && h1 == p.TxHash && h2 == p.DbTransaction && h3 == p.TxHash
  | [(Op.markUsed Handle.nil h1, _), (Op.badTx h2 h3 _, _)] =>
    p.TxContract.isNone && p.txParser.isNone && h1 == p.TxHash && h2 == p.DbTransaction &&
      h3 == p.TxHash
  | _ => false

/-- The calls `playBlock` makes for a record whose execution succeeded, all succeeding:
the execution, the used-marker, the status update and the log entry, under the
handle of the record. -/
def isPlayedGroup (blockID : Int) (p : Parser) (g : List (Op × Bool)) : Bool :=
  match g with
  | [c, m, u, l] =>
    isExecCall p c && c.2 && m == (Op.markUsed p.DbTransaction p.TxHash, true) &&
      u == (Op.updateBlockID p.DbTransaction blockID p.TxHash, true) &&
      l == (Op.insertLog p.DbTransaction p.TxFullData p.TxTime, true)
  | _ => false

/-- The calls `playBlock` makes for the record it stops at: the execution succeeded and
then the used-marker, or after it the status update, or after both the log entry
failed. -/
def isStoppedGroup (blockID : Int) (p : Parser) (g : List (Op × Bool)) : Bool :=
  match g with
  | [c, m] =>
    isExecCall p c && c.2 && m == (Op.markUsed p.DbTransaction p.TxHash, false)
  | [c, m, u] =>
    isExecCall p c && c.2 && m == (Op.markUsed p.DbTransaction p.TxHash, true) &&
      u == (Op.updateBlockID p.DbTransaction blockID p.TxHash, false)
  | [c, m, u, l] =>
    isExecCall p c && c.2 && m == (Op.markUsed p.DbTransaction p.TxHash, true) &&
      u == (Op.updateBlockID p.DbTransaction blockID p.TxHash, true) &&
      l == (Op.insertLog p.DbTransaction p.TxFullData p.TxTime, false)
  | _ => false

/-- A bookkeeping call of `playBlock` under T: the used-table deletion, or the
used-marker, status update or log entry of a successful transaction. -/
def Op.isBookkeeping : Op → Bool
  | Op.deleteUsed Handle.tx => true
  | Op.markUsed Handle.tx _ => true
  | Op.updateBlockID Handle.tx _ _ => true
  | Op.insertLog Handle.tx _ _ => true
  | _ => false

/-- The log entries a sequence of calls appended under T: the pairs of bytes and time of
the log insertions that succeeded. -/
def logEntries (calls : List (Op × Bool)) : List (Bytes × Int) :=
  calls.filterMap (fun c =>
    match c with
    | (Op.insertLog Handle.tx data time, true) => some (data, time)
    | _ => none)

/-- The pairs of bytes and time of the records whose group of calls is that of a played
transaction, in the order of the records. -/
def playedEntries (blockID : Int) (parsers : List Parser) (groups : List (List (Op × Bool))) :
    List (Bytes × Int) :=
  ((parsers.zip groups).filter (fun pg => isPlayedGroup blockID pg.1 pg.2)).map
    (fun pg => (pg.1.TxFullData, pg.1.TxTime))

def playTransaction (env : Env) (s : Store) (p : Parser) : Option Err × Store :=
  if p.TxContract.isSome then
    match p.CallContract env s { init := true, condition := true, action := true } with
    | (some e, s1) => (some (ErrInfo e), s1)
    | (none, s1) => (none, s1)
  else
    match p.txParser with
    | none => (some (ErrInfo ("can't find parser for " ++ toString p.TxType)), s)
    | some _ =>
      match p.Action env s with
      | (some e, s1) => (some (ErrInfo e), s1)
      | (none, s1) => (none, s1)

/-- The loop of `playBlock`. Returns the error, the storage, and the records with the
handle attached as far as the loop got. -/
def playParsers (env : Env) (blockID : Int) (dbTransaction : Handle) :
    List Parser → Store → List Parser → Option Err × Store × List Parser
  | [], s, done => (none, s, done)
  | p0 :: rest, s, done =>
    let p : Parser := p0.attach dbTransaction
    match playTransaction env s p with
    | (some e, s1) =>
      let s2 := (MarkTransactionUsed env s1 Handle.nil p.TxHash).2
      let s3 := (p.processBadTransaction env s2 p.TxHash e).2
      playParsers env blockID dbTransaction rest s3 (done ++ [p])
    | (none, s1) =>
      match MarkTransactionUsed env s1 p.DbTransaction p.TxHash with
      | (some e, s2) => (some e, s2, done ++ p :: rest)
      | (none, s2) =>
        match UpdateBlockID env s2 p.DbTransaction blockID p.TxHash with
        | (some e, s3) => (some e, s3, done ++ p :: rest)
        | (none, s3) =>
          match InsertInLogTx env s3 p.DbTransaction p.TxFullData p.TxTime with
          | (some e, s4) => (some (ErrInfo e), s4, done ++ p :: rest)
          | (none, s4) => playParsers env blockID dbTransaction rest s4 (done ++ [p])

/-- Method `playBlock` of the source. -/
def Block.playBlock (env : Env) (s : Store) (block : Block) (dbTransaction : Handle) :
    Option Err × Store × Block :=
  match DeleteUsedTransactions env s dbTransaction with
  | (some e, s1) => (some e, s1, block)
  | (none, s1) =>
    match playParsers env block.Header.BlockID dbTransaction block.Parsers s1 [] with
    | (err, s2, parsers) => (err, s2, { block with Parsers := parsers })

/-- Method `PlayBlockSafe` of the source. -/
def Block.PlayBlockSafe (env : Env) (s : Store) (block : Block) : Option Err × Store :=
  match StartTransaction env s with
  | (some e, s1) => (some e, s1)
  | (none, s1) =>
    match block.playBlock env s1 Handle.tx with
    | (some e, s2, _) => (some e, Rollback s2)
    | (none, s2, block1) =>
      match UpdBlockInfo env s2 Handle.tx block1 with
      | (some e, s3) => (some e, Rollback s3)
      | (none, s3) =>
        match InsertIntoBlockchain env s3 Handle.tx block1 with
        | (some e, s4) => (some e, Rollback s4)
        | (none, s4) => (none, (Commit env s4).2)

def InsertBlock (env : Env) (s : Store) (data : Bytes) : Res Unit × Store :=
  match ProcessBlock env s data with
  | (Res.error e, s1) => (Res.error e, s1)
  | (Res.panic m, s1) => (Res.panic m, s1)
  | (Res.ok block, s1) =>
    match block.CheckBlock env s1 with
    | some e => (Res.error e, s1)
    | none =>
      match block.PlayBlockSafe env s1 with
      | (some e, s2) => (Res.error e, s2)
      | (none, s2) => (Res.ok (), s2)

/-! ## A small concrete environment, for evaluating the definitions -/

namespace Demo

/-- Toy digest: the length and the byte sum of the input. -/
def digest (b : Bytes) : Bytes :=
  [Fin.ofNat b.length, Fin.ofNat (b.foldl (fun a x => a + x.val) 0)]

/-- Toy wallet varint: a length byte, then that many little-endian bytes. -/
def encodeLenInt64 (x : Int) : Bytes :=
  let body := ((beBytes 8 (x % 18446744073709551616).toNat).dropWhile (fun b => b.val == 0)).reverse
  Fin.ofNat body.length :: body

def decodeLenInt64 (buf : Bytes) : Except Err (Int × Bytes) :=
  match buf with
  | [] => .error "empty buffer"
  | b :: rest =>
    if rest.length < b.val then .error "length of data is too small"
    else .ok (wrapInt64 (beValue ((rest.take b.val).take 8).reverse), rest.drop b.val)

/-- Toy reader of a fixed eight-byte big-endian number. -/
def readUint64 (buf : Bytes) : Except Err (Nat × Bytes) :=
  if buf.length < 8 then .error "input slice is short" else .ok (beValue (buf.take 8), buf.drop 8)

/-- Toy reader of a length-framed byte string. -/
def readFramed (buf : Bytes) : Except Err (Bytes × Bytes) :=
  match DecodeLengthBuf buf with
  | .error e => .error e
  | .ok (n, rest) => if rest.length < n then .error "input slice is short" else .ok (rest.take n, rest.drop n)

/-- Toy envelope decoder: type, time, user, state as one byte each, then the data. -/
def unmarshalSmart (buf : Bytes) : Except Err SmartContract :=
  match buf with
  | t :: tm :: u :: st :: data =>
    .ok { Header := { Typ := t.val, Time := tm.val, UserID := u.val, StateID := st.val,
                      PublicKey := [], BinSignatures := [] }, Data := data }
  | _ => .error "msgpack: unexpected end of input"

/-- Toy struct decoder: citizen, wallet, time as one byte each after the tag. -/
def unmarshalStruct (_txType : Int) (buf : Bytes) : Except Err StructHead :=
  match buf with
  | _ :: c :: w :: t :: _ => .ok { CitizenID := c.val, WalletID := w.val, Time := t.val }
  | _ => .error "input slice is short"

/-- Toy regular-dialect header: time, user, state as one byte each after the tag. -/
def regularHeader (p : Parser) : Option TxHeader :=
  match p.TxBinaryData with
  | t :: u :: st :: _ =>
    some { Typ := p.dataType, Time := t.val, UserID := u.val, StateID := st.val,
           PublicKey := [], BinSignatures := [] }
  | _ => none

/-- Toy executor: a transaction whose last byte is 255 writes one row and fails; any
other writes one row and succeeds. -/
def run (p : Parser) : List StateWrite × Option Err :=
  if p.TxFullData.getLast? = some 255 then
    ([{ table := "keys", payload := p.TxFullData }], some "execution failed")
  else ([{ table := "keys", payload := p.TxFullData }], none)

/-- The environment: storage calls succeed unless stated, the node key of every wallet
is `[1]`, a signature is the digest of key and message. -/
def env : Env where
  maxBlockSize := 67108864
  maxBlockUserTx := 2
  now := 1500000000
  MAX_TX_FORW := 0
  MAX_TX_BACK := 86400
  ERROR_TIME := 1
  MAX_TX_SIZE := 33554432
  scriptDecimal := "decimal.Decimal"
  hash := fun b => .ok (digest b)
  doubleHash := fun b => .ok (digest (digest b))
  sign := fun key msg => .ok (digest (strBytes key ++ msg))
  checkSign := fun keys msg sig _ => .ok (keys.any (fun k => digest (k ++ msg) == sig))
  merkleTreeRoot := fun leaves => digest leaves.flatten
  encodeLenInt64InPlace := encodeLenInt64
  decodeLenInt64Buf := decodeLenInt64
  decodeLenInt64 := fun b => if b.length = 0 then .ok (0, b) else decodeLenInt64 b
  binUnmarshalUint64 := readUint64
  binUnmarshalFloat64 := readUint64
  binUnmarshalString := readFramed
  binUnmarshalBytes := readFramed
  decimalNewFromString := fun d => .ok d
  fmtFloat := fun bits => fmtInt bits
  msgpackUnmarshal := unmarshalSmart
  smartForSign := fun t => fmtInt t.Header.Typ ++ strBytes "," ++ fmtInt t.Header.Time
  getContractByID := fun id =>
    if id = 1 then some { ID := 1, Tx := some [{ Name := "Amount", Typ := "uint64", Tags := "" }] }
    else if id = 2 then some { ID := 2, Tx := none }
    else none
  isStruct := fun t => t == 1
  getParser := fun _ t => if t ≤ 20 then .ok ("parser" ++ toString t) else .error "unknown tx type"
  unmarshalStruct := unmarshalStruct
  parserInit := fun _ _ => none
  parserHeader := regularHeader
  parserValidate := fun _ p => if p.TxFullData.length < 5 then some "validation failed" else none
  callContract := fun _ p flags => if flags.action then run p else ([], none)
  parserAction := fun _ p => run p
  modelGetAllTables := fun _ => .ok ["keys"]
  getFirstColumnName := fun _ _ => .ok "id"
  getBlockDataFromBlockChain := fun _ id =>
    .ok { BlockData.zero with BlockID := id, Time := 1400000000, Hash := [7] }
  getSleepTime := fun _ _ _ _ _ => .ok 1
  getNodePublicKeyWalletOrCB := fun _ _ _ => .ok [1]
  checkLogTx := fun _ _ _ _ => none
  startTransaction := fun _ => none
  deleteUsedTransactions := fun _ _ => none
  markTransactionUsed := fun _ _ _ => none
  updateBlockID := fun _ _ _ _ => none
  insertInLogTx := fun _ _ data _ => if data.length = 9 then some "log insert failed" else none
  processBadTransaction := fun _ _ _ _ => none
  updBlockInfo := fun _ _ _ => none
  insertIntoBlockchain := fun _ _ _ => none
  commit := fun _ => none

/-- The empty storage. -/
def store0 : Store := { durable := [], pending := [], trace := [] }

/-- Header of a first block. -/
def firstHeader : BlockData :=
  { BlockData.zero with BlockID := 1, Time := 1400000005, WalletID := 5, StateID := 1,
                        Version := 1 }

/-- Header of a block that follows another. -/
def secondHeader : BlockData :=
  { BlockData.zero with BlockID := 2, Time := 1400000005, WalletID := 5, StateID := 1,
                        Version := 1 }

/-- Three frames: struct dialect, contract dialect (contract 2), regular dialect. -/
def frames : List Bytes :=
  [[1, 2, 3, 4], [129, 2, 7, 9, 0], [5, 9, 9, 1, 1, 1]]

/-- A block with id 2, no previous header attached, and a signature that is not the
node's. -/
def orphanBlock : Block :=
  { Header := { secondHeader with Sign := [0, 0] }, PrevHeader := none, MrklRoot := [12, 174],
    BinData := [], Parsers := [] }

/-- The same block with the header of block 1 attached as previous header. -/
def forgedBlock : Block :=
  { orphanBlock with
    PrevHeader := some { BlockData.zero with BlockID := 1, Time := 1400000000, Hash := [7] } }

/-- A record of the regular dialect as `parseBlock` leaves it, for the frame given. -/
def regularRecord (hash frame : Bytes) : Parser :=
  { Parser.new with TxHash := hash, TxFullData := frame, TxBinaryData := frame.drop 1,
                    dataType := 5, TxType := 5, TxTime := 1400000001, TxUserID := 9,
                    txParser := some "parser5", BlockData := some secondHeader }

/-- A block of three transactions, the second of which fails when executed, after
writing one row. -/
def badMiddleBlock : Block :=
  { Header := secondHeader, PrevHeader := none, MrklRoot := [], BinData := [],
    Parsers := [regularRecord [1] [5, 9, 9, 1, 1], regularRecord [2] [5, 9, 9, 1, 255],
                regularRecord [3] [5, 9, 9, 1, 3]] }

/-- The bytes `MarshallBlock` returns for `secondHeader`, `frames`, previous hash `[7]`
and key `k`. -/
def secondPayload : Bytes :=
  [1, 0, 0, 0, 2, 83, 114, 78, 5, 1, 5, 1, 2, 24, 198, 4, 1, 2, 3, 4, 5, 129, 2, 7, 9, 0,
    6, 5, 9, 9, 1, 1, 1]

/-- A first block that stops after the state byte: version, id 1, time, a wallet of one
byte, state 1, and nothing where the padding byte belongs. -/
def truncatedFirst : Bytes := [1, 0, 0, 0, 1, 83, 114, 78, 5, 0, 1]

/-- The header of `secondPayload`, then a frame of one byte in the contract dialect
that does not parse, then a length prefix of zero. -/
def zeroAfterBadFrame : Bytes :=
  [1, 0, 0, 0, 2, 83, 114, 78, 5, 1, 5, 1, 2, 24, 198, 1, 129, 0]

/-- A block of two transactions of the same author with different hashes. -/
def pairBlock : Block :=
  { Header := secondHeader, PrevHeader := none, MrklRoot := [], BinData := [],
    Parsers := [regularRecord [1] [5, 9, 9, 1, 1], regularRecord [2] [5, 9, 9, 1, 2]] }

/-- A block of two transactions with the same hash. -/
def twinBlock : Block :=
  { Header := secondHeader, PrevHeader := none, MrklRoot := [], BinData := [],
    Parsers := [regularRecord [1] [5, 9, 9, 1, 1], regularRecord [1] [5, 9, 9, 1, 1]] }

/-- The block `forgedBlock` with id 5 after the previous header of id 1. -/
def gapBlock : Block :=
  { forgedBlock with Header := { forgedBlock.Header with BlockID := 5 } }

/-- The bytes `MarshallBlock` returns for a header of id 2 and time 10 and three frames
of the contract dialect (contract 2, time 7) whose envelopes name the users 1, 2 and 3. -/
def threeAuthors : Bytes :=
  [1, 0, 0, 0, 2, 0, 0, 0, 10, 1, 5, 1, 2, 16, 19, 5, 129, 2, 7, 1, 0, 5, 129, 2, 7, 2, 0,
    5, 129, 2, 7, 3, 0]

/-- The block `parseBlock` returns on a payload, the empty block when it returns none. -/
def parsed (payload : Bytes) : Block :=
  match (parseBlock env store0 payload).1 with
  | Res.ok block => block
  | _ => { Header := BlockData.zero, PrevHeader := none, MrklRoot := [], BinData := [],
           Parsers := [] }

/-- The environment `env` with both transaction time constants at the largest signed
64-bit value. -/
def wideEnv : Env :=
  { env with MAX_TX_FORW := 9223372036854775807, MAX_TX_BACK := 9223372036854775807 }

/-- The environment `env` over a chain whose stored blocks carry the time 5. -/
def earlyEnv : Env :=
  { env with
    getBlockDataFromBlockChain := fun _ id =>
      .ok { BlockData.zero with BlockID := id, Time := 5, Hash := [7] } }

/-- The bytes `MarshallBlock` returns for a first block of time 10 with three frames of
the regular dialect, all of user 9. -/
def sameAuthor : Bytes :=
  [1, 0, 0, 0, 1, 0, 0, 0, 10, 1, 5, 1, 0, 5, 5, 9, 9, 1, 1, 5, 5, 9, 9, 1, 2, 5, 5, 9, 9, 1, 3]

/-- The block `ProcessBlock` returns on a payload, the empty block when it returns
none. -/
def processed (payload : Bytes) : Block :=
  match (ProcessBlock env store0 payload).1 with
  | Res.ok block => block
  | _ => { Header := BlockData.zero, PrevHeader := none, MrklRoot := [], BinData := [],
           Parsers := [] }

/-- The block `forgedBlock` with the time of its previous header: with the sleep time 1
the difference is 1, the allowed error. -/
def onTimeBlock : Block :=
  { forgedBlock with Header := { forgedBlock.Header with Time := 1400000000 } }

/-- The block `forgedBlock` one second before its previous header: the difference is 2,
one more than the allowed error. -/
def earlyBlock : Block :=
  { forgedBlock with Header := { forgedBlock.Header with Time := 1399999999 } }

/-- The environment `env` with ten minutes allowed forward. -/
def forwardEnv : Env := { env with MAX_TX_FORW := 600 }

/-- A contract with four parameters: a number, bytes tagged `image`, a text and a
list. -/
def paramContract : Contract :=
  { ID := 3,
    Tx := some [{ Name := "Amount", Typ := "uint64", Tags := "" },
                { Name := "Photo", Typ := "[]uint8", Tags := "image" },
                { Name := "Note", Typ := "string", Tags := "optional" },
                { Name := "Items", Typ := "[]interface {}", Tags := "" }] }

/-- The environment `env` with `paramContract` under the id 3. -/
def paramEnv : Env :=
  { env with
    getContractByID := fun id => if id = 3 then some paramContract else env.getContractByID id }

/-- An envelope of contract 3 (time 7, user 9, state 0) with the data region: the number
42, the bytes `ab cd`, the text `hi`, the list of `a` and `b`. -/
def paramEnvelope : Bytes :=
  [3, 7, 9, 0, 0, 0, 0, 0, 0, 0, 0, 42, 2, 171, 205, 2, 104, 105, 2, 1, 97, 1, 98]

/-- An envelope of contract 1 (one parameter of type `uint64`) whose data region is
empty. -/
def emptyRegion : Bytes := [1, 7, 9, 0]

/-- An old transaction: the time 1400000005, the field `ab`, an empty field, the field
`c`, and an empty field at the end. -/
def oldTx : Bytes := [83, 114, 78, 5, 2, 97, 98, 0, 1, 99, 0]

/-- A block of two transactions: the log insertion of the first (a frame of nine bytes)
fails, after its execution succeeded. -/
def stopBlock : Block :=
  { Header := secondHeader, PrevHeader := none, MrklRoot := [], BinData := [],
    Parsers := [regularRecord [1] [5, 9, 9, 1, 1, 1, 1, 1, 1], regularRecord [2] [5, 9, 9, 1, 2]] }

/-- The block `forgedBlock` after a previous header with state 1 and wallet 2. -/
def orderBlock : Block :=
  { forgedBlock with
    PrevHeader := some { BlockData.zero with BlockID := 1, Time := 1400000000, Hash := [7],
                                             StateID := 1, WalletID := 2 } }

/-- The environment `env` with a scheduler that asks for 100 seconds when its third
argument is 1 and its fourth is 2, and for 1 second otherwise. -/
def orderEnv : Env :=
  { env with
    getSleepTime := fun _ _ _ a b => if a = 1 ∧ b = 2 then .ok 100 else .ok 1 }

/-- A header with the block id 0: version 1, id 0, time 1400000005, wallet 0, state 1, one
more byte. -/
def zeroIdHeader : Bytes := [1, 0, 0, 0, 0, 83, 114, 78, 5, 0, 1, 0]

/-- The header of `secondPayload`, then one frame of one byte in the contract dialect:
the envelope is empty and does not unmarshal. -/
def badContractFrame : Bytes :=
  [1, 0, 0, 0, 2, 83, 114, 78, 5, 1, 5, 1, 2, 24, 198, 1, 129]

/-- The header of `secondPayload`, then one frame of one byte in the struct dialect: the
record does not decode. -/
def badStructFrame : Bytes :=
  [1, 0, 0, 0, 2, 83, 114, 78, 5, 1, 5, 1, 2, 24, 198, 1, 1]

/-- The environment `env` over a storage layer whose commit fails. -/
def commitFailEnv : Env := { env with commit := fun _ => some "commit failed" }

/-- The header `secondHeader` with the state id 300, beyond one byte. -/
def wideHeader : BlockData := { secondHeader with StateID := 300 }

/-- The bytes `MarshallBlock` returns for `wideHeader`, `frames`, previous hash `[7]` and
the key of one byte 1, the node key of `env`. -/
def widePayload : Bytes :=
  [1, 0, 0, 0, 2, 83, 114, 78, 5, 1, 5, 44, 2, 26, 190, 4, 1, 2, 3, 4, 5, 129, 2, 7, 9, 0,
    6, 5, 9, 9, 1, 1, 1]

/-- The bytes `MarshallBlock` returns for `secondHeader`, `frames`, previous hash `[7]` and
the key of one byte 1, the node key of `env`. -/
def signedPayload : Bytes :=
  [1, 0, 0, 0, 2, 83, 114, 78, 5, 1, 5, 1, 2, 24, 92, 4, 1, 2, 3, 4, 5, 129, 2, 7, 9, 0,
    6, 5, 9, 9, 1, 1, 1]

/-- A previous header with the hash `[7]`. -/
def previousHeader : BlockData :=
  { BlockData.zero with BlockID := 1, Time := 1400000000, Hash := [7] }

/-- The bytes `MarshallBlock` returns for a header of id 2 and time 10 and two frames of
the struct dialect (tag 1), under the node key of `env`. -/
def structPayload : Bytes :=
  [1, 0, 0, 0, 2, 0, 0, 0, 10, 1, 5, 1, 2, 16, 47, 4, 1, 2, 3, 4, 4, 1, 7, 8, 9]

end Demo

/-! ## Codec lemmas -/

theorem beValue_append (a b : Bytes) : beValue (a ++ b) = beValue a * 256 ^ b.length + beValue b := by
  induction b using List.reverseRecOn with
  | nil => simp [beValue]
  | append_singleton l x ih =>
    have h1 : beValue (a ++ (l ++ [x])) = beValue (a ++ l) * 256 + x.val := by
      simp [beValue, List.foldl_append]
    have h2 : beValue (l ++ [x]) = beValue l * 256 + x.val := by
      simp [beValue, List.foldl_append]
    rw [h1, h2, ih]
    simp [pow_succ]
    ring

theorem beBytes_length (n v : Nat) : (beBytes n v).length = n := by
  induction n generalizing v with
  | zero => simp [beBytes]
  | succ n ih => simp [beBytes, ih]

theorem beValue_beBytes (n v : Nat) (h : v < 256 ^ n) : beValue (beBytes n v) = v := by
  induction n generalizing v with
  | zero => simp at h; simp [beBytes, beValue, h]
  | succ n ih =>
    have h1 : v / 256 < 256 ^ n := by
      rw [Nat.div_lt_iff_lt_mul (by norm_num)]
      simpa [pow_succ] using h
    simp only [beBytes]
    rw [beValue_append, ih _ h1]
    simp [beValue, Fin.ofNat]
    omega

theorem beValue_dropWhile_zero (l : Bytes) :
    beValue (l.dropWhile (fun b => b.val == 0)) = beValue l := by
  induction l with
  | nil => rfl
  | cons x xs ih =>
    by_cases hx : x.val = 0
    · rw [List.dropWhile_cons_of_pos (by simp [hx]), ih]
      simp [beValue, hx]
    · rw [List.dropWhile_cons_of_neg (by simp [hx])]

theorem dropWhile_length_le (l : Bytes) (f : Byte → Bool) : (l.dropWhile f).length ≤ l.length := by
  induction l with
  | nil => simp
  | cons x xs ih =>
    by_cases hx : f x = true
    · rw [List.dropWhile_cons_of_pos hx]; simp; omega
    · rw [List.dropWhile_cons_of_neg hx]

theorem BinToDec_DecToBin (v : Int) (n : Nat) (h0 : 0 ≤ v) (h1 : v < (256 ^ n : Nat)) :
    BinToDec (DecToBin v n) = v := by
  unfold BinToDec DecToBin
  have hv : v % ((256 ^ n : Nat) : Int) = v := Int.emod_eq_of_lt h0 h1
  rw [hv, beValue_beBytes]
  · exact Int.toNat_of_nonneg h0
  · omega

theorem DecToBin_length (v : Int) (n : Nat) : (DecToBin v n).length = n := by
  simp [DecToBin, beBytes_length]

theorem DecodeLengthBuf_EncodeLength (n : Nat) (rest : Bytes) (h : n < 2 ^ 64) :
    DecodeLengthBuf (EncodeLength n ++ rest) = .ok (n, rest) := by
  unfold EncodeLength
  by_cases hn : n < 128
  · have hv : (Fin.ofNat n : Fin 256).val = n := by
      simp [Fin.ofNat]; omega
    simp [hn, DecodeLengthBuf, hv]
  · simp only [hn, if_false]
    have hlen : ((beBytes 8 n).dropWhile (fun b => b.val == 0)).length ≤ 8 := by
      have := dropWhile_length_le (beBytes 8 n) (fun b => b.val == 0)
      rw [beBytes_length] at this
      exact this
    generalize hb : (beBytes 8 n).dropWhile (fun b => b.val == 0) = body at hlen
    have hval : beValue body = n := by
      rw [← hb, beValue_dropWhile_zero, beValue_beBytes]
      norm_num; omega
    have hv : (Fin.ofNat (128 + body.length) : Fin 256).val = 128 + body.length := by
      simp [Fin.ofNat]; omega
    simp only [DecodeLengthBuf, List.cons_append, hv]
    have h1 : ¬ (128 + body.length < 128) := by omega
    have h2 : (128 + body.length) % 128 = body.length := by omega
    simp [h1, h2, hval]

/-! ## Header round trip -/

theorem ParseBlockHeader_marshalled (env : Env) (header : BlockData) (signed body : Bytes)
    (hver : 0 ≤ header.Version ∧ header.Version < 256)
    (hstate : 0 ≤ header.StateID ∧ header.StateID < 256)
    (hid : 1 ≤ header.BlockID ∧ header.BlockID < 4294967296)
    (htime : 0 ≤ header.Time ∧ header.Time < 4294967296)
    (hwallet : ∀ rest, env.decodeLenInt64Buf (env.encodeLenInt64InPlace header.WalletID ++ rest)
      = .ok (header.WalletID, rest))
    (hsigned : signed.length < 2 ^ 64)
    (hfirst : header.BlockID = 1 → signed = [])
    (hsize : ((DecToBin header.BlockID 4 ++ DecToBin header.Time 4 ++
        env.encodeLenInt64InPlace header.WalletID ++ DecToBin header.StateID 1 ++
        EncodeLengthPlusData signed ++ body).length : Int) ≤ env.maxBlockSize) :
    ParseBlockHeader env (DecToBin header.Version 1 ++ DecToBin header.BlockID 4 ++
        DecToBin header.Time 4 ++ env.encodeLenInt64InPlace header.WalletID ++
        DecToBin header.StateID 1 ++ EncodeLengthPlusData signed ++ body) =
      .ok ({ BlockID := header.BlockID, Time := header.Time, WalletID := header.WalletID,
             StateID := header.StateID, Sign := signed, Hash := [],
             Version := header.Version }, body) := by
  have e1 : BinToDec (DecToBin header.Version 1) = header.Version :=
    BinToDec_DecToBin _ _ hver.1 (by simpa using hver.2)
  have e2 : BinToDec (DecToBin header.BlockID 4) = header.BlockID :=
    BinToDec_DecToBin _ _ (by omega) (by norm_num; omega)
  have e3 : BinToDec (DecToBin header.Time 4) = header.Time :=
    BinToDec_DecToBin _ _ htime.1 (by norm_num; omega)
  have e4 : BinToDec (DecToBin header.StateID 1) = header.StateID :=
    BinToDec_DecToBin _ _ hstate.1 (by simpa using hstate.2)
  have l1 := DecToBin_length header.Version 1
  have l2 := DecToBin_length header.BlockID 4
  have l3 := DecToBin_length header.Time 4
  have l4 := DecToBin_length header.StateID 1
  generalize DecToBin header.Version 1 = V at *
  generalize DecToBin header.BlockID 4 = B at *
  generalize DecToBin header.Time 4 = T at *
  generalize DecToBin header.StateID 1 = S at *
  generalize hW : env.encodeLenInt64InPlace header.WalletID = W at *
  unfold ParseBlockHeader
  have hlen : ¬ (V ++ B ++ T ++ W ++ S ++ EncodeLengthPlusData signed ++ body).length < 9 := by
    simp [EncodeLengthPlusData]
    have : 0 < (EncodeLength signed.length).length := by
      unfold EncodeLength; split <;> simp
    omega
  rw [if_neg hlen]
  have t1 : List.take 1 (V ++ B ++ T ++ W ++ S ++ EncodeLengthPlusData signed ++ body) = V := by
    simp only [List.append_assoc]; exact List.take_left' l1
  have d1 : List.drop 1 (V ++ B ++ T ++ W ++ S ++ EncodeLengthPlusData signed ++ body) =
      B ++ T ++ W ++ S ++ EncodeLengthPlusData signed ++ body := by
    simp only [List.append_assoc]; exact List.drop_left' l1
  simp only [t1, d1]
  rw [if_neg (by simpa using hsize)]
  have t2 : List.take 4 (B ++ T ++ W ++ S ++ EncodeLengthPlusData signed ++ body) = B := by
    simp only [List.append_assoc]; exact List.take_left' l2
  have d2 : List.drop 4 (B ++ T ++ W ++ S ++ EncodeLengthPlusData signed ++ body) =
      T ++ W ++ S ++ EncodeLengthPlusData signed ++ body := by
    simp only [List.append_assoc]; exact List.drop_left' l2
  simp only [t2, d2]
  have t3 : List.take 4 (T ++ W ++ S ++ EncodeLengthPlusData signed ++ body) = T := by
    simp only [List.append_assoc]; exact List.take_left' l3
  have d3 : List.drop 4 (T ++ W ++ S ++ EncodeLengthPlusData signed ++ body) =
      W ++ (S ++ EncodeLengthPlusData signed ++ body) := by
    simp only [List.append_assoc]; exact List.drop_left' l3
  simp only [t3, d3, hwallet]
  have hlen2 : ¬ (S ++ EncodeLengthPlusData signed ++ body).length < 1 := by
    simp only [List.length_append, l4]; omega
  rw [if_neg hlen2]
  have t4 : List.take 1 (S ++ EncodeLengthPlusData signed ++ body) = S := by
    simp only [List.append_assoc]; exact List.take_left' l4
  have d4 : List.drop 1 (S ++ EncodeLengthPlusData signed ++ body) =
      EncodeLengthPlusData signed ++ body := by
    simp only [List.append_assoc]; exact List.drop_left' l4
  simp only [t4, d4, e1, e2, e3, e4]
  by_cases hb : header.BlockID > 1
  · rw [if_pos hb]
    have : DecodeLengthBuf (EncodeLengthPlusData signed ++ body) = .ok (signed.length, signed ++ body) := by
      unfold EncodeLengthPlusData
      rw [List.append_assoc]
      exact DecodeLengthBuf_EncodeLength _ _ hsigned
    simp [this]
  · rw [if_neg hb]
    have h1 : header.BlockID = 1 := by omega
    have hs := hfirst h1
    subst hs
    simp [EncodeLengthPlusData, EncodeLength]

/-! ## Transaction parser lemmas -/

theorem parseContractTransaction_keeps (env : Env) (p q : Parser) (buf : Bytes)
    (h : parseContractTransaction env p buf = .ok q) :
    q.TxFullData = p.TxFullData ∧ q.TxHash = p.TxHash := by
  unfold parseContractTransaction at h
  split at h
  · simp at h
  · dsimp only at h
    split at h
    · simp at h
    · split at h
      · simp only [Except.ok.injEq] at h
        subst h
        exact ⟨rfl, rfl⟩
      · split at h
        · simp at h
        · simp only [Except.ok.injEq] at h
          subst h
          exact ⟨rfl, rfl⟩

theorem parseStructTransaction_keeps (env : Env) (p q : Parser) (buf : Bytes) (txType : Int)
    (h : parseStructTransaction env p buf txType = .ok q) :
    q.TxFullData = p.TxFullData ∧ q.TxHash = p.TxHash := by
  unfold parseStructTransaction at h
  split at h
  · simp at h
  · dsimp only at h
    split at h
    · simp at h
    · simp only [Except.ok.injEq] at h
      subst h
      exact ⟨rfl, rfl⟩

theorem parseRegularTransaction_keeps (env : Env) (s : Store) (p : Parser) (txType : Int) :
    (parseRegularTransaction env s p txType).1.TxFullData = p.TxFullData ∧
    (parseRegularTransaction env s p txType).1.TxHash = p.TxHash := by
  unfold parseRegularTransaction
  split
  · exact ⟨rfl, rfl⟩
  · dsimp only
    split
    · exact ⟨rfl, rfl⟩
    · split
      · exact ⟨rfl, rfl⟩
      · split <;> exact ⟨rfl, rfl⟩

/-- Whenever `ParseTransaction` hands back a record, with or without an error, the
record carries the frame and its hash. -/
theorem ParseTransaction_record (env : Env) (s s1 : Store) (buffer : Bytes) (p : Parser)
    (err : Option Err) (h : ParseTransaction env s buffer = (some p, err, s1)) :
    buffer ≠ [] ∧ p.TxFullData = buffer ∧ env.hash buffer = .ok p.TxHash := by
  unfold ParseTransaction at h
  split at h
  · simp at h
  · rename_i b rest
    split at h
    · simp at h
    · rename_i hash hh
      dsimp only at h
      split at h
      · split at h
        · simp at h
        · rename_i p2 hp2
          have hk := parseContractTransaction_keeps _ _ _ _ hp2
          split at h
          · simp at h
          · simp only [Prod.mk.injEq, Option.some.injEq] at h
            obtain ⟨h1, -, -⟩ := h
            subst h1
            refine ⟨by simp, ?_, ?_⟩
            · rw [hk.1]
            · rw [hk.2]; exact hh
      · split at h
        · split at h
          · simp at h
          · rename_i p2 hp2
            have hk := parseStructTransaction_keeps _ _ _ _ _ hp2
            simp only [Prod.mk.injEq, Option.some.injEq] at h
            obtain ⟨h1, -, -⟩ := h
            subst h1
            refine ⟨by simp, ?_, ?_⟩
            · rw [hk.1]
            · rw [hk.2]; exact hh
        · have hk := parseRegularTransaction_keeps env s
            { Parser.new with TxHash := hash, TxFullData := b :: rest, dataType := (b.val : Int),
                              TxBinaryData := rest } (b.val : Int)
          split at h
          · rename_i p2 e heq
            simp only [Prod.mk.injEq, Option.some.injEq] at h
            obtain ⟨h1, -, -⟩ := h
            subst h1
            rw [heq] at hk
            exact ⟨by simp, hk.1, by rw [hk.2]; exact hh⟩
          · rename_i p2 heq
            simp only [Prod.mk.injEq, Option.some.injEq] at h
            obtain ⟨h1, -, -⟩ := h
            subst h1
            rw [heq] at hk
            exact ⟨by simp, hk.1, by rw [hk.2]; exact hh⟩

/-! ## Body round trip -/

theorem EncodeLength_length_pos (n : Nat) : 0 < (EncodeLength n).length := by
  unfold EncodeLength; split <;> simp

theorem marshallTransactions_ok (env : Env) (trData : List Bytes) :
    ∀ (mrkl mrkl1 : List Bytes) (body body1 : Bytes),
      marshallTransactions env trData mrkl body = .ok (mrkl1, body1) →
      body1 = body ++ (trData.map EncodeLengthPlusData).flatten ∧
      ∃ ms, mrkl1 = mrkl ++ ms ∧
        List.Forall₂ (fun tx m => ∃ h, env.doubleHash tx = .ok h ∧ m = BinToHex h) trData ms := by
  induction trData with
  | nil =>
    intro mrkl mrkl1 body body1 h
    simp only [marshallTransactions, Except.ok.injEq, Prod.mk.injEq] at h
    exact ⟨by simp [h.2], [], by simp [h.1], List.Forall₂.nil⟩
  | cons tr rest ih =>
    intro mrkl mrkl1 body body1 h
    simp only [marshallTransactions] at h
    split at h
    · simp at h
    · rename_i dh hdh
      obtain ⟨hb, ms, hm, hf⟩ := ih _ _ _ _ h
      refine ⟨by simp [hb], BinToHex dh :: ms, by simp [hm], ?_⟩
      exact List.Forall₂.cons ⟨dh, hdh, rfl⟩ hf

/-- The transaction loop reads back what `marshallTransactions` framed. -/
theorem parseTransactions_framed (env : Env) (header : BlockData)
    (allKeys : List (String × String)) (trData : List Bytes) :
    ∀ (fuel : Nat) (s : Store) (parsers : List Parser) (mrkl ms : List Bytes),
      (trData.map EncodeLengthPlusData).flatten.length ≤ fuel →
      (∀ tx ∈ trData, tx.length < 2 ^ 64) →
      (∀ tx ∈ trData, ∀ st, ∃ p st1, ParseTransaction env st tx = (some p, none, st1)) →
      List.Forall₂ (fun tx m => ∃ h, env.doubleHash tx = .ok h ∧ m = BinToHex h) trData ms →
      ∃ ps s1, parseTransactions env header allKeys fuel s
          (trData.map EncodeLengthPlusData).flatten parsers mrkl =
            (Res.ok (parsers ++ ps, mrkl ++ ms), s1) ∧
        ps.map (fun p => p.TxFullData) = trData ∧
        ∀ p ∈ ps, p.BlockData = some header := by
  induction trData with
  | nil =>
    intro fuel s parsers mrkl ms _ _ _ hf
    cases hf
    refine ⟨[], s, ?_, rfl, by simp⟩
    unfold parseTransactions
    simp
  | cons tr rest ih =>
    intro fuel s parsers mrkl ms hfuel hlen hacc hf
    cases hf with
    | cons hhead htail =>
    rename_i m ms1
    obtain ⟨dh, hdh, hm⟩ := hhead
    obtain ⟨p, st1, hp⟩ := hacc tr (by simp) s
    obtain ⟨hne, hfull, -⟩ := ParseTransaction_record _ _ _ _ _ _ hp
    have hpos : 0 < tr.length := List.length_pos.mpr hne
    have hcat : ((tr :: rest).map EncodeLengthPlusData).flatten =
        EncodeLength tr.length ++ (tr ++ (rest.map EncodeLengthPlusData).flatten) := by
      simp [EncodeLengthPlusData]
    rw [hcat] at hfuel ⊢
    have hdec := DecodeLengthBuf_EncodeLength tr.length
      (tr ++ (rest.map EncodeLengthPlusData).flatten) (hlen tr (by simp))
    have hl := EncodeLength_length_pos tr.length
    cases fuel with
    | zero => simp only [List.length_append] at hfuel; omega
    | succ fuel =>
      have hfuel2 : (rest.map EncodeLengthPlusData).flatten.length ≤ fuel := by
        simp only [List.length_append] at hfuel; omega
      obtain ⟨ps, s1, hrec, hmap, hbd⟩ := ih fuel st1 (parsers ++
        [{ p with BlockData := some header, AllPkeys := allKeys }])
        (mrkl ++ [BinToHex dh]) ms1 hfuel2
        (fun tx htx => hlen tx (by simp [htx]))
        (fun tx htx => hacc tx (by simp [htx])) htail
      refine ⟨{ p with BlockData := some header, AllPkeys := allKeys } :: ps, s1, ?_, ?_, ?_⟩
      · rw [parseTransactions]
        have hne2 : ¬ (EncodeLength tr.length ++ (tr ++ (rest.map EncodeLengthPlusData).flatten)).length = 0 := by
          simp only [List.length_append]; omega
        rw [if_neg hne2]
        simp only [hdec]
        have h1 : ¬ (tr ++ (rest.map EncodeLengthPlusData).flatten).length < tr.length := by
          simp
        have h2 : ¬ tr.length = 0 := by omega
        rw [if_neg h1, if_neg h2]
        simp only [List.take_left, List.drop_left, hp]
        have h3 : p.TxFullData.length > 0 := by rw [hfull]; exact hpos
        have h4 : env.doubleHash p.TxFullData = .ok dh := by rw [hfull]; exact hdh
        simp only [h3, if_true, h4]
        rw [hrec]
        simp [hm]
      · simp [hmap, hfull]
      · intro q hq
        simp only [List.mem_cons] at hq
        rcases hq with rfl | hq
        · rfl
        · exact hbd q hq

/-! ## The fuel of the transaction loop -/

theorem DecodeLengthBuf_shorter (buf rest : Bytes) (n : Nat)
    (h : DecodeLengthBuf buf = .ok (n, rest)) : rest.length < buf.length := by
  unfold DecodeLengthBuf at h
  split at h
  · simp at h
  · rename_i b tl
    dsimp only at h
    split at h
    · simp only [Except.ok.injEq, Prod.mk.injEq] at h
      rw [← h.2]; simp
    · split at h
      · simp at h
      · simp only [Except.ok.injEq, Prod.mk.injEq] at h
        rw [← h.2]
        simp only [List.length_drop, List.length_cons]
        omega

/-- The result of the transaction loop does not depend on the fuel, once the fuel is at
least the length of the buffer: `parseBlock` never runs out of it. -/
theorem parseTransactions_fuel (env : Env) (header : BlockData)
    (allKeys : List (String × String)) :
    ∀ (fuel1 fuel2 : Nat) (s : Store) (buf : Bytes) (parsers : List Parser)
      (mrkl : List Bytes), buf.length ≤ fuel1 → buf.length ≤ fuel2 →
      parseTransactions env header allKeys fuel1 s buf parsers mrkl =
        parseTransactions env header allKeys fuel2 s buf parsers mrkl := by
  intro fuel1
  induction fuel1 with
  | zero =>
    intro fuel2 s buf parsers mrkl h1 _
    have hb : buf.length = 0 := by omega
    unfold parseTransactions
    simp [hb]
  | succ fuel1 ih =>
    intro fuel2 s buf parsers mrkl h1 h2
    by_cases hb : buf.length = 0
    · unfold parseTransactions
      simp [hb]
    · cases fuel2 with
      | zero => omega
      | succ fuel2 =>
        rw [parseTransactions, parseTransactions]
        simp only [hb, if_false]
        split
        · rfl
        · rename_i transactionSize buf1 hdec
          have hlt := DecodeLengthBuf_shorter _ _ _ hdec
          have hrec : ∀ (s1 : Store) (ps : List Parser) (ms : List Bytes),
              parseTransactions env header allKeys fuel1 s1 (buf1.drop transactionSize) ps ms =
              parseTransactions env header allKeys fuel2 s1 (buf1.drop transactionSize) ps ms := by
            intro s1 ps ms
            apply ih
            · simp only [List.length_drop]; omega
            · simp only [List.length_drop]; omega
          split
          · rfl
          · split
            · rfl
            · split
              · rfl
              · rfl
              · rfl
              · split
                · split
                  · rfl
                  · exact hrec _ _ _
                · exact hrec _ _ _

/-! ## C1: round trip of MarshallBlock and parseBlock -/

/-- C1, as stated, fails: a first block (block_id 1) marshalled with a non-empty signing
key carries a signature, of which `ParseBlockHeader` skips one byte only; the
rest of the signature is read as the body and `parseBlock` returns an error. -/
theorem C1_signed_first_block_not_parsed :
    ((0 ≤ Demo.firstHeader.Version ∧ Demo.firstHeader.Version < 256) ∧
      (0 ≤ Demo.firstHeader.StateID ∧ Demo.firstHeader.StateID < 256) ∧
      (1 ≤ Demo.firstHeader.BlockID ∧ Demo.firstHeader.BlockID < 4294967296) ∧
      (0 ≤ Demo.firstHeader.Time ∧ Demo.firstHeader.Time < 4294967296)) ∧
    MarshallBlock Demo.env Demo.firstHeader [] [7] "k" =
      .ok [1, 0, 0, 0, 1, 83, 114, 78, 5, 1, 5, 1, 2, 24, 92] ∧
    (parseBlock Demo.env Demo.store0 [1, 0, 0, 0, 1, 83, 114, 78, 5, 1, 5, 1, 2, 24, 92]).1 =
      Res.error "bad block format (transaction len is too big: 24)" := by
  refine ⟨by decide, ?_, ?_⟩
  · decide
  · decide

/-- C1, amended: when block_id > 1, or block_id = 1 and the key is empty, the bytes
`MarshallBlock` returns are parsed back by `parseBlock` into a block whose version,
block_id, time, wallet_id and state_id are those of the input header, whose hash is
empty, whose sign is the signature `MarshallBlock` produced and wrote into the bytes
(the signature of the sign-string under the key, and empty for an empty key), and
whose frames `TxFullData` are the input transactions in order; this for header fields
in range, transactions `ParseTransaction` accepts, a wallet varint that decodes what
it encodes, a payload within `max_block_size`, and a table listing that succeeds. -/
theorem C1_marshall_parse_roundtrip (env : Env) (s : Store) (header : BlockData)
    (trData : List Bytes) (prevHash : Bytes) (key : String) (data : Bytes)
    (hver : 0 ≤ header.Version ∧ header.Version < 256)
    (hstate : 0 ≤ header.StateID ∧ header.StateID < 256)
    (hid : 1 ≤ header.BlockID ∧ header.BlockID < 4294967296)
    (htime : 0 ≤ header.Time ∧ header.Time < 4294967296)
    (hfirst : header.BlockID = 1 → key = "")
    (hwallet : ∀ rest, env.decodeLenInt64Buf (env.encodeLenInt64InPlace header.WalletID ++ rest)
      = .ok (header.WalletID, rest))
    (hlen : ∀ tx ∈ trData, tx.length < 2 ^ 64)
    (hsig : ∀ msg sig, env.sign key msg = .ok sig → sig.length < 2 ^ 64)
    (hacc : ∀ tx ∈ trData, ∀ st, ∃ p st1, ParseTransaction env st tx = (some p, none, st1))
    (hm : MarshallBlock env header trData prevHash key = .ok data)
    (hsize : (data.length : Int) - 1 ≤ env.maxBlockSize)
    (htables : ∃ allKeys, getAllTables env s = .ok allKeys) :
    ∃ block s1 signed mrklArray body,
      parseBlock env s data = (Res.ok block, s1) ∧
      block.Header = { header with Sign := signed, Hash := [] } ∧
      marshallTransactions env trData [] [] = .ok (mrklArray, body) ∧
      data = DecToBin header.Version 1 ++ DecToBin header.BlockID 4 ++
        DecToBin header.Time 4 ++ env.encodeLenInt64InPlace header.WalletID ++
        DecToBin header.StateID 1 ++ EncodeLengthPlusData signed ++ body ∧
      (key = "" → signed = []) ∧
      (key ≠ "" →
        env.sign key (forSignString header.BlockID prevHash header.Time header.WalletID
          header.StateID (env.merkleTreeRoot
            (if mrklArray.length = 0 then mrklArray ++ [strBytes "0"] else mrklArray))) =
          .ok signed) ∧
      block.Parsers.map (fun p => p.TxFullData) = trData := by
  unfold MarshallBlock at hm
  split at hm
  · simp at hm
  · rename_i mrklArray blockDataTx hmt
    obtain ⟨hbody, ms, hms, hf⟩ := marshallTransactions_ok env trData [] _ [] _ hmt
    simp only [List.nil_append] at hbody hms
    dsimp only at hm
    split at hm
    · simp at hm
    · rename_i signed hsigned
      simp only [Except.ok.injEq] at hm
      have hsl : signed.length < 2 ^ 64 := by
        by_cases hk : key = ""
        · simp [hk] at hsigned
          rw [hsigned]; simp
        · simp only [ne_eq, hk, not_false_eq_true, if_true] at hsigned
          exact hsig _ _ hsigned
      have hse : key = "" → signed = [] := by
        intro hk
        simp [hk] at hsigned
        exact hsigned
      have hsk : key ≠ "" →
          env.sign key (forSignString header.BlockID prevHash header.Time header.WalletID
            header.StateID (env.merkleTreeRoot
              (if mrklArray.length = 0 then mrklArray ++ [strBytes "0"] else mrklArray))) =
            .ok signed := by
        intro hk
        simp only [ne_eq, hk, not_false_eq_true, if_true] at hsigned
        exact hsigned
      have hv1 := DecToBin_length header.Version 1
      have hsize2 : ((DecToBin header.BlockID 4 ++ DecToBin header.Time 4 ++
          env.encodeLenInt64InPlace header.WalletID ++ DecToBin header.StateID 1 ++
          EncodeLengthPlusData signed ++ blockDataTx).length : Int) ≤ env.maxBlockSize := by
        rw [← hm] at hsize
        simp only [List.length_append, hv1] at hsize ⊢
        push_cast at hsize ⊢
        omega
      have hhead := ParseBlockHeader_marshalled env header signed blockDataTx hver hstate hid
        htime hwallet hsl (fun h1 => hse (hfirst h1)) hsize2
      obtain ⟨allKeys, hkeys⟩ := htables
      obtain ⟨ps, s1, hps, hmap, -⟩ := parseTransactions_framed env
        { BlockID := header.BlockID, Time := header.Time, WalletID := header.WalletID,
          StateID := header.StateID, Sign := signed, Hash := [], Version := header.Version }
        allKeys trData blockDataTx.length s [] [] ms (by rw [hbody]) hlen hacc hf
      rw [← hbody] at hps
      have hpb : parseBlock env s data = (Res.ok
          { Header := { BlockID := header.BlockID, Time := header.Time,
                        WalletID := header.WalletID, StateID := header.StateID, Sign := signed,
                        Hash := [], Version := header.Version },
            PrevHeader := none,
            MrklRoot := env.merkleTreeRoot
              (if ([] ++ ms).length = 0 then ([] ++ ms) ++ [strBytes "0"] else [] ++ ms),
            BinData := [], Parsers := [] ++ ps }, s1) := by
        unfold parseBlock
        rw [← hm, hhead]
        simp only [hkeys, hps]
      exact ⟨_, s1, signed, mrklArray, blockDataTx, hpb, rfl, hmt, hm.symm, hse, hsk,
        by simpa using hmap⟩

set_option maxRecDepth 4000 in
/-- The amended C1 at a second block with a struct, a contract and a regular frame,
signed with the key `k`: the block parsed back carries the signature `[24, 198]` that
the key gives on the sign-string, and the three frames. -/
theorem C1_marshall_parse_roundtrip_witness :
    MarshallBlock Demo.env Demo.secondHeader Demo.frames [7] "k" = .ok Demo.secondPayload ∧
      Demo.env.sign "k" (forSignString 2 [7] 1400000005 5 1
        (Demo.env.merkleTreeRoot
          (Demo.frames.map (fun f => BinToHex (Demo.digest (Demo.digest f)))))) =
        .ok [24, 198] ∧
      ∃ block s1,
        parseBlock Demo.env Demo.store0 Demo.secondPayload = (Res.ok block, s1) ∧
        block.Header = { Demo.secondHeader with Sign := [24, 198], Hash := [] } ∧
        block.Parsers.map (fun p => p.TxFullData) = Demo.frames := by
  obtain ⟨block, s1, signed, mrklArray, body, h1, h2, h3, -, -, h6, h7⟩ :=
    C1_marshall_parse_roundtrip Demo.env Demo.store0 Demo.secondHeader Demo.frames [7] "k"
      Demo.secondPayload
      (by decide) (by decide) (by decide) (by decide) (by decide)
      (fun rest => by
        have h : Demo.env.encodeLenInt64InPlace Demo.secondHeader.WalletID = [1, 5] := by decide
        rw [h]
        simp [Demo.env, Demo.decodeLenInt64, Demo.secondHeader, beValue, wrapInt64]
        decide)
      (by decide)
      (fun msg sig h => by
        simp only [Demo.env, Except.ok.injEq] at h
        rw [← h]; simp [Demo.digest])
      (by
        intro tx htx st
        simp only [Demo.frames, List.mem_cons, List.mem_singleton, List.not_mem_nil,
          or_false] at htx
        rcases htx with rfl | rfl | rfl
        · exact ⟨_, _, rfl⟩
        · exact ⟨_, _, rfl⟩
        · exact ⟨_, _, rfl⟩)
      (by decide) (by decide) ⟨_, rfl⟩
  have hm : marshallTransactions Demo.env Demo.frames [] [] =
      .ok (Demo.frames.map (fun f => BinToHex (Demo.digest (Demo.digest f))),
        (Demo.frames.map EncodeLengthPlusData).flatten) := by decide
  rw [hm] at h3
  simp only [Except.ok.injEq, Prod.mk.injEq] at h3
  have hs := h6 (by decide)
  rw [← h3.1] at hs
  have hsig : Demo.env.sign "k" (forSignString 2 [7] 1400000005 5 1
      (Demo.env.merkleTreeRoot
        (Demo.frames.map (fun f => BinToHex (Demo.digest (Demo.digest f)))))) =
      .ok [24, 198] := by decide
  have hsigned : signed = [24, 198] := by
    have e : Demo.env.sign "k" (forSignString Demo.secondHeader.BlockID [7]
        Demo.secondHeader.Time Demo.secondHeader.WalletID Demo.secondHeader.StateID
        (Demo.env.merkleTreeRoot
          (if (Demo.frames.map (fun f => BinToHex (Demo.digest (Demo.digest f)))).length = 0
            then Demo.frames.map (fun f => BinToHex (Demo.digest (Demo.digest f))) ++
              [strBytes "0"]
            else Demo.frames.map (fun f => BinToHex (Demo.digest (Demo.digest f)))))) =
        .ok [24, 198] := by decide
    rw [e] at hs
    simpa using hs.symm
  rw [hsigned] at h2
  exact ⟨by decide, hsig, block, s1, h1, h2, h7⟩

/-! ## C2: the Merkle root of a parsed block -/

/-- What the transaction loop adds when it ends well: one record per frame and, for
each, the hex of the double hash of its frame, in the same order. -/
theorem parseTransactions_leaves (env : Env) (header : BlockData)
    (allKeys : List (String × String)) :
    ∀ (fuel : Nat) (s s1 : Store) (buf : Bytes) (parsers ps : List Parser)
      (mrkl ms : List Bytes),
      parseTransactions env header allKeys fuel s buf parsers mrkl = (Res.ok (ps, ms), s1) →
      ∃ new hashes, ps = parsers ++ new ∧ ms = mrkl ++ hashes.map BinToHex ∧
        List.Forall₂ (fun p h => env.doubleHash p.TxFullData = .ok h) new hashes := by
  intro fuel
  induction fuel with
  | zero =>
    intro s s1 buf parsers ps mrkl ms h
    unfold parseTransactions at h
    split at h
    · simp only [Prod.mk.injEq, Res.ok.injEq] at h
      exact ⟨[], [], by simp [h.1.1], by simp [h.1.2], List.Forall₂.nil⟩
    · simp at h
  | succ fuel ih =>
    intro s s1 buf parsers ps mrkl ms h
    unfold parseTransactions at h
    split at h
    · simp only [Prod.mk.injEq, Res.ok.injEq] at h
      exact ⟨[], [], by simp [h.1.1], by simp [h.1.2], List.Forall₂.nil⟩
    · dsimp only at h
      split at h
      · simp at h
      · rename_i transactionSize buf1 hdec
        split at h
        · simp at h
        · split at h
          · simp at h
          · split at h
            · simp at h
            · simp at h
            · simp at h
            · rename_i p s2 hp
              obtain ⟨hne, hfull, -⟩ := ParseTransaction_record _ _ _ _ _ _ hp
              have hpos : p.TxFullData.length > 0 := by
                rw [hfull]; exact List.length_pos.mpr hne
              simp only [hpos, if_true] at h
              split at h
              · simp at h
              · rename_i dh hdh
                obtain ⟨new, hashes, h1, h2, h3⟩ := ih _ _ _ _ _ _ _ h
                refine ⟨{ p with BlockData := some header, AllPkeys := allKeys } :: new,
                  dh :: hashes, by simp [h1], by simp [h2], ?_⟩
                exact List.Forall₂.cons hdh h3

/-- The demo payload parses. -/
theorem Demo.parseBlock_secondPayload :
    ∃ block s1, parseBlock Demo.env Demo.store0 Demo.secondPayload = (Res.ok block, s1) := by
  have h : (match (parseBlock Demo.env Demo.store0 Demo.secondPayload).1 with
      | Res.ok _ => true
      | _ => false) = true := by decide!
  generalize parseBlock Demo.env Demo.store0 Demo.secondPayload = r at h
  obtain ⟨r1, r2⟩ := r
  cases r1 <;> simp at h
  exact ⟨_, _, rfl⟩

/-- Parsing a well-framed body: the records appended by the loop carry, in order, the
frames of the body as the specification cuts them. -/
theorem parseTransactions_frames (env : Env) (header : BlockData)
    (allKeys : List (String × String)) :
    ∀ (fuel : Nat) (s s1 : Store) (buf : Bytes) (parsers ps : List Parser)
      (mrkl ms : List Bytes),
      parseTransactions env header allKeys fuel s buf parsers mrkl = (Res.ok (ps, ms), s1) →
      ∃ new, ps = parsers ++ new ∧
        splitFrames fuel buf = some (new.map (fun p => p.TxFullData)) := by
  intro fuel
  induction fuel with
  | zero =>
    intro s s1 buf parsers ps mrkl ms h
    unfold parseTransactions at h
    split at h
    · rename_i hlen
      simp only [Prod.mk.injEq, Res.ok.injEq] at h
      have hnil : buf = [] := List.length_eq_zero.mp hlen
      subst hnil
      exact ⟨[], by simp [h.1.1], by simp [splitFrames]⟩
    · simp at h
  | succ fuel ih =>
    intro s s1 buf parsers ps mrkl ms h
    unfold parseTransactions at h
    split at h
    · rename_i hlen
      simp only [Prod.mk.injEq, Res.ok.injEq] at h
      have hnil : buf = [] := List.length_eq_zero.mp hlen
      subst hnil
      exact ⟨[], by simp [h.1.1], by simp [splitFrames]⟩
    · rename_i hlen
      dsimp only at h
      split at h
      · simp at h
      · rename_i transactionSize buf1 hdec
        split at h
        · simp at h
        · rename_i hbig
          split at h
          · simp at h
          · rename_i hzero
            split at h
            · simp at h
            · simp at h
            · simp at h
            · rename_i p s2 hp
              obtain ⟨hne, hfull, -⟩ := ParseTransaction_record _ _ _ _ _ _ hp
              have hpos : p.TxFullData.length > 0 := by
                rw [hfull]; exact List.length_pos.mpr hne
              simp only [hpos, if_true] at h
              split at h
              · simp at h
              · rename_i dh hdh
                obtain ⟨new, h1, h2⟩ := ih _ _ _ _ _ _ _ h
                refine ⟨{ p with BlockData := some header, AllPkeys := allKeys } :: new,
                  by simp [h1], ?_⟩
                cases buf with
                | nil => simp at hlen
                | cons b rest =>
                  simp only [splitFrames, hdec, hbig, hzero, if_false, h2, List.map_cons,
                    hfull]

/-- A payload `parseBlock` accepts has a well-framed body, and the records of the block
carry its frames: as many records as frames, in the order of the body, each frame
exactly the bytes its length prefix declares, and nothing of the body left over. -/
theorem parseBlock_frames (env : Env) (s s1 : Store) (payload : Bytes) (block : Block)
    (h : parseBlock env s payload = (Res.ok block, s1)) :
    ∃ body, ParseBlockHeader env payload = .ok (block.Header, body) ∧
      splitFrames body.length body = some (block.Parsers.map (fun p => p.TxFullData)) := by
  unfold parseBlock at h
  split at h
  · simp at h
  · rename_i header body hh
    split at h
    · simp at h
    · rename_i allKeys hk
      split at h
      · simp at h
      · simp at h
      · rename_i parsers mrklSlice s2 hpt
        simp only [Prod.mk.injEq, Res.ok.injEq] at h
        obtain ⟨hb, -⟩ := h
        subst hb
        obtain ⟨new, h1, h2⟩ := parseTransactions_frames _ _ _ _ _ _ _ _ _ _ _ hpt
        simp only [List.nil_append] at h1
        subst h1
        exact ⟨body, hh, h2⟩

/-- A decoded length prefix is a non-empty front part of the buffer. -/
theorem DecodeLengthBuf_front (buf rest : Bytes) (n : Nat)
    (h : DecodeLengthBuf buf = .ok (n, rest)) : ∃ front, front ≠ [] ∧ buf = front ++ rest := by
  unfold DecodeLengthBuf at h
  split at h
  · simp at h
  · rename_i b tl
    dsimp only at h
    split at h
    · simp only [Except.ok.injEq, Prod.mk.injEq] at h
      exact ⟨[b], by simp, by simp [h.2]⟩
    · split at h
      · simp at h
      · simp only [Except.ok.injEq, Prod.mk.injEq] at h
        refine ⟨b :: tl.take (b.val % 128), by simp, ?_⟩
        rw [← h.2]
        simp

/-- A well-framed body is its length prefixes and frames, one after the other, with
nothing left, and no frame is empty. -/
theorem splitFrames_body :
    ∀ (fuel : Nat) (buf : Bytes) (frames : List Bytes), splitFrames fuel buf = some frames →
      (∀ f ∈ frames, f ≠ []) ∧
        ∃ fronts : List Bytes, fronts.length = frames.length ∧ (∀ a ∈ fronts, a ≠ []) ∧
          buf = (List.zipWith (fun a f => a ++ f) fronts frames).flatten := by
  intro fuel
  induction fuel with
  | zero =>
    intro buf frames h
    cases buf with
    | nil =>
      simp only [splitFrames, Option.some.injEq] at h
      subst h
      exact ⟨by simp, [], by simp⟩
    | cons b rest => simp [splitFrames] at h
  | succ fuel ih =>
    intro buf frames h
    cases buf with
    | nil =>
      simp only [splitFrames, Option.some.injEq] at h
      subst h
      exact ⟨by simp, [], by simp⟩
    | cons b rest =>
      simp only [splitFrames] at h
      split at h
      · simp at h
      · rename_i size buf1 hdec
        split at h
        · simp at h
        · rename_i hbig
          split at h
          · simp at h
          · rename_i hzero
            split at h
            · simp at h
            · rename_i tl htl
              simp only [Option.some.injEq] at h
              subst h
              obtain ⟨hne, fronts, hl, hf, hb⟩ := ih _ _ htl
              obtain ⟨front, hfront, hbuf⟩ := DecodeLengthBuf_front _ _ _ hdec
              have htake : buf1.take size ≠ [] := by
                intro hc
                have : (buf1.take size).length = 0 := by rw [hc]; rfl
                simp only [List.length_take] at this
                omega
              refine ⟨?_, front :: fronts, by simp [hl], ?_, ?_⟩
              · intro f hfm
                rcases List.mem_cons.mp hfm with h1 | h1
                · rw [h1]; exact htake
                · exact hne f h1
              · intro a ha
                rcases List.mem_cons.mp ha with h1 | h1
                · rw [h1]; exact hfront
                · exact hf a h1
              · rw [hbuf]
                simp only [List.zipWith_cons_cons, List.flatten_cons, List.append_assoc]
                rw [← hb, List.take_append_drop]

/-- C2: for every payload `parseBlock` accepts, the body that follows the header is well
framed, the records of the block carry the frames of the body in payload order, the
double hash of every frame is defined, and `MrklRoot` is `MerkleTreeRoot` of the list of
the hex double hashes of the frames of the payload, in payload order; it is
`MerkleTreeRoot(["0"])` when the body holds no transaction. -/
theorem C2_merkle_root (env : Env) (s s1 : Store) (payload : Bytes) (block : Block)
    (h : parseBlock env s payload = (Res.ok block, s1)) :
    ∃ (body : Bytes) (frames fronts hashes : List Bytes),
      ParseBlockHeader env payload = .ok (block.Header, body) ∧
      splitFrames body.length body = some frames ∧
      fronts.length = frames.length ∧
      body = (List.zipWith (fun a f => a ++ f) fronts frames).flatten ∧
      block.Parsers.map (fun p => p.TxFullData) = frames ∧
      List.Forall₂ (fun f d => env.doubleHash f = .ok d) frames hashes ∧
      block.MrklRoot = env.merkleTreeRoot
        (if frames = [] then [strBytes "0"] else hashes.map BinToHex) ∧
      (body = [] → block.MrklRoot = env.merkleTreeRoot [strBytes "0"]) := by
  have hleaves : ∃ hashes,
      List.Forall₂ (fun p d => env.doubleHash p.TxFullData = .ok d) block.Parsers hashes ∧
      block.MrklRoot = env.merkleTreeRoot
        (if block.Parsers = [] then [strBytes "0"] else hashes.map BinToHex) := by
    have h0 := h
    unfold parseBlock at h0
    split at h0
    · simp at h0
    · rename_i header body hh
      split at h0
      · simp at h0
      · rename_i allKeys hk
        split at h0
        · simp at h0
        · simp at h0
        · rename_i parsers mrklSlice s2 hpt
          obtain ⟨new, hashes, h1, h2, h3⟩ := parseTransactions_leaves _ _ _ _ _ _ _ _ _ _ _ hpt
          simp only [List.nil_append] at h1 h2
          subst h1 h2
          simp only [Prod.mk.injEq, Res.ok.injEq] at h0
          obtain ⟨hb, -⟩ := h0
          subst hb
          refine ⟨hashes, h3, ?_⟩
          dsimp only
          cases h3 with
          | nil => simp
          | cons a b => simp
  obtain ⟨hashes, hf, hroot⟩ := hleaves
  obtain ⟨body, hh, hsplit⟩ := parseBlock_frames env s s1 payload block h
  obtain ⟨-, fronts, hlen, -, hbody⟩ := splitFrames_body _ _ _ hsplit
  have hnil : (block.Parsers.map (fun p => p.TxFullData) = []) ↔ block.Parsers = [] := by
    simp
  have hroot2 : block.MrklRoot = env.merkleTreeRoot
      (if block.Parsers.map (fun p => p.TxFullData) = [] then [strBytes "0"]
        else hashes.map BinToHex) := by
    rw [hroot]
    by_cases hp : block.Parsers = []
    · simp [hp]
    · have hp2 : ¬ block.Parsers.map (fun p => p.TxFullData) = [] := fun hc => hp (hnil.mp hc)
      simp only [hp, hp2, if_false]
  refine ⟨body, block.Parsers.map (fun p => p.TxFullData), fronts, hashes, hh, hsplit, hlen,
    hbody, rfl, ?_, hroot2, ?_⟩
  · exact (List.forall₂_map_left_iff).mpr hf
  · intro hb
    rw [hb] at hsplit
    simp only [List.length_nil, splitFrames, Option.some.injEq] at hsplit
    rw [hroot2, ← hsplit]
    simp

/-- C2 at the payload of a second block with three frames: the records carry the three
frames of the payload and the root is that of their three hex double hashes. -/
theorem C2_merkle_root_witness :
    (parseBlock Demo.env Demo.store0 Demo.secondPayload).1 =
        Res.ok (Demo.parsed Demo.secondPayload) ∧
      (∃ (body : Bytes) (frames fronts hashes : List Bytes),
        ParseBlockHeader Demo.env Demo.secondPayload =
          .ok ((Demo.parsed Demo.secondPayload).Header, body) ∧
        splitFrames body.length body = some frames ∧
        fronts.length = frames.length ∧
        body = (List.zipWith (fun a f => a ++ f) fronts frames).flatten ∧
        (Demo.parsed Demo.secondPayload).Parsers.map (fun p => p.TxFullData) = frames ∧
        List.Forall₂ (fun f d => Demo.env.doubleHash f = .ok d) frames hashes ∧
        (Demo.parsed Demo.secondPayload).MrklRoot = Demo.env.merkleTreeRoot
          (if frames = [] then [strBytes "0"] else hashes.map BinToHex) ∧
        (body = [] →
          (Demo.parsed Demo.secondPayload).MrklRoot =
            Demo.env.merkleTreeRoot [strBytes "0"])) ∧
      splitFrames 18 [4, 1, 2, 3, 4, 5, 129, 2, 7, 9, 0, 6, 5, 9, 9, 1, 1, 1] =
        some Demo.frames ∧
      (Demo.parsed Demo.secondPayload).Parsers.map (fun p => p.TxFullData) = Demo.frames ∧
      (Demo.parsed Demo.secondPayload).MrklRoot =
        Demo.env.merkleTreeRoot
          (Demo.frames.map (fun f => BinToHex (Demo.digest (Demo.digest f)))) :=
  ⟨by decide!,
    C2_merkle_root Demo.env Demo.store0 (parseBlock Demo.env Demo.store0 Demo.secondPayload).2
      Demo.secondPayload (Demo.parsed Demo.secondPayload) (by decide!),
    by decide, by decide!, by decide!⟩

/-! ## C3, C4: the signature check -/

/-- C3, as stated, fails: a block with id 2 and no previous header attached passes
`CheckBlock` although its signature does not verify under the node key. -/
theorem C3_unverified_block_without_previous_header_passes :
    Demo.orphanBlock.Header.BlockID > 1 ∧
    Demo.env.getNodePublicKeyWalletOrCB Demo.store0 Demo.orphanBlock.Header.WalletID
      Demo.orphanBlock.Header.StateID = .ok [1] ∧
    Demo.env.checkSign [[1]]
      (forSignString Demo.orphanBlock.Header.BlockID [] Demo.orphanBlock.Header.Time
        Demo.orphanBlock.Header.WalletID Demo.orphanBlock.Header.StateID
        Demo.orphanBlock.MrklRoot)
      Demo.orphanBlock.Header.Sign true = .ok false ∧
    Demo.orphanBlock.CheckBlock Demo.env Demo.store0 = none := by
  refine ⟨by decide, by decide, by decide, by decide⟩

/-- C3, amended: for every block with block_id > 1 and a previous header attached, if
`check_sign` answers false on the header signature under the node public key over
the canonical sign-string, `CheckBlock` returns an error, whatever the other
fields of the block are. -/
theorem C3_signature_mismatch_fatal (env : Env) (s : Store) (block : Block) (prev : BlockData)
    (hid : block.Header.BlockID > 1) (hprev : block.PrevHeader = some prev)
    (hbad : ∀ nodeKey,
      env.getNodePublicKeyWalletOrCB s block.Header.WalletID block.Header.StateID = .ok nodeKey →
      env.checkSign [nodeKey]
        (forSignString block.Header.BlockID prev.Hash block.Header.Time block.Header.WalletID
          block.Header.StateID block.MrklRoot) block.Header.Sign true = .ok false) :
    ∃ e, block.CheckBlock env s = some e := by
  have hne : block.Header.BlockID ≠ 1 := by omega
  have hhash : block.CheckHash env s ≠ (true, none) := by
    unfold Block.CheckHash
    rw [if_neg hne, hprev]
    dsimp only
    split
    · simp
    · rename_i nodeKey hk
      split
      · simp
      · rw [hbad nodeKey hk]
        simp
  unfold Block.CheckBlock
  dsimp only
  split
  · exact ⟨_, rfl⟩
  · split
    · exact ⟨_, rfl⟩
    · split
      · exact ⟨_, rfl⟩
      · exact ⟨_, rfl⟩
      · rename_i hc
        exact absurd hc hhash

/-- The amended C3 at a block with id 2 whose signature is not the node's. -/
theorem C3_signature_mismatch_fatal_witness :
    ∃ e, Demo.forgedBlock.CheckBlock Demo.env Demo.store0 = some e :=
  C3_signature_mismatch_fatal Demo.env Demo.store0 Demo.forgedBlock
    { BlockData.zero with BlockID := 1, Time := 1400000000, Hash := [7] }
    (by decide) rfl
    (fun nodeKey hk => by
      simp only [Demo.env, Except.ok.injEq] at hk
      subst hk
      decide)

/-- The sign-string of the source is the seven fields joined by commas. -/
theorem forSignString_eq_join (blockID : Int) (prevHash : Bytes) (time walletID stateID : Int)
    (mrklRoot : Bytes) :
    forSignString blockID prevHash time walletID stateID mrklRoot =
      joinBytes (strBytes ",")
        [strBytes "0", fmtInt blockID, prevHash, fmtInt time, fmtInt walletID, fmtInt stateID,
         mrklRoot] := by
  have h : strBytes "0," = strBytes "0" ++ strBytes "," := by decide
  simp only [forSignString, joinBytes, h, List.append_assoc]

/-- C4: `CheckHash` is its reference definition: on block 1 it is `(true, nil)` and no
collaborator is asked (the answer is the same in every environment and storage);
on a block with id > 1 and a previous header it is an error when the node key
lookup fails or gives an empty key, and otherwise the answer of `check_sign` on
`[node_key]`, the seven fields `0, block_id, prev.hash, time, wallet_id, state_id,
mrkl_root` joined by commas, and the header signature. -/
theorem C4_CheckHash_reference (env : Env) (s : Store) (block : Block)
    (h : block.Header.BlockID = 1 ∨ (block.Header.BlockID > 1 ∧ block.PrevHeader.isSome)) :
    block.CheckHash env s = CheckHashRef env s block ∧
    (block.Header.BlockID = 1 → ∀ env1 s1, block.CheckHash env1 s1 = (true, none)) := by
  constructor
  · unfold Block.CheckHash CheckHashRef
    rcases h with h1 | ⟨h1, h2⟩
    · simp [h1]
    · have hne : block.Header.BlockID ≠ 1 := by omega
      rw [if_neg hne, if_neg hne, if_pos h1]
      cases hp : block.PrevHeader with
      | none => simp [hp] at h2
      | some prev =>
        dsimp only
        rw [forSignString_eq_join]
        split
        · rfl
        · rename_i nodeKey hk
          by_cases hempty : nodeKey = []
          · simp [hempty]
          · have hl : ¬ nodeKey.length = 0 := by
              intro hl
              exact hempty (List.length_eq_zero.mp hl)
            rw [if_neg hl, if_neg hempty]
            cases env.checkSign [nodeKey]
              (joinBytes (strBytes ",")
                [strBytes "0", fmtInt block.Header.BlockID, prev.Hash, fmtInt block.Header.Time,
                 fmtInt block.Header.WalletID, fmtInt block.Header.StateID, block.MrklRoot])
              block.Header.Sign true <;> rfl
  · intro h1 env1 s1
    unfold Block.CheckHash
    simp [h1]

/-- C4 at the demo block with id 2 and a previous header. -/
theorem C4_CheckHash_reference_witness :
    Demo.forgedBlock.CheckHash Demo.env Demo.store0 =
      CheckHashRef Demo.env Demo.store0 Demo.forgedBlock ∧
    (Demo.forgedBlock.Header.BlockID = 1 →
      ∀ env1 s1, Demo.forgedBlock.CheckHash env1 s1 = (true, none)) :=
  C4_CheckHash_reference Demo.env Demo.store0 Demo.forgedBlock (Or.inr ⟨by decide, rfl⟩)

/-! ## Executor lemmas -/

theorem rowsVia_append (h : Handle) (a b : List (Op × Bool)) :
    rowsVia h (a ++ b) = rowsVia h a ++ rowsVia h b := by
  simp [rowsVia]

theorem Store.Extends.refl (s : Store) : s.Extends s [] := by
  simp [Store.Extends, rowsVia]

theorem Store.Extends.trans {s s1 s2 : Store} {d1 d2 : List (Op × Bool)}
    (h1 : s.Extends s1 d1) (h2 : s1.Extends s2 d2) : s.Extends s2 (d1 ++ d2) := by
  obtain ⟨a1, a2, a3⟩ := h1
  obtain ⟨b1, b2, b3⟩ := h2
  refine ⟨?_, ?_, ?_⟩
  · rw [b1, a1, List.append_assoc]
  · rw [b2, a2, rowsVia_append, List.append_assoc]
  · rw [b3, a3, rowsVia_append, List.append_assoc]

/-- A storage call extends the storage by its record, provided the rows it is
modelled to write are the rows of the record. -/
theorem Store.exec_extends (s : Store) (h : Handle) (op : Op) (res : Option Err)
    (rows : List Row) (hh : op.handle = h) (hr : op.rows true = rows)
    (hf : op.rows false = []) :
    s.Extends (s.exec h op res rows).2 [(op, res.isNone)] ∧ (s.exec h op res rows).1 = res := by
  cases res with
  | some e =>
    refine ⟨⟨rfl, ?_, ?_⟩, rfl⟩ <;>
      simp [Store.exec, Store.call, rowsVia, hf]
  | none =>
    cases h with
    | nil =>
      refine ⟨⟨rfl, ?_, ?_⟩, rfl⟩ <;>
        simp [Store.exec, Store.call, Store.write, rowsVia, hh, hr]
    | tx =>
      refine ⟨⟨rfl, ?_, ?_⟩, rfl⟩ <;>
        simp [Store.exec, Store.call, Store.write, rowsVia, hh, hr]

theorem MarkTransactionUsed_extends (env : Env) (s : Store) (h : Handle) (hash : Bytes) :
    s.Extends (MarkTransactionUsed env s h hash).2
      [(Op.markUsed h hash, (MarkTransactionUsed env s h hash).1.isNone)] := by
  have := Store.exec_extends s h (Op.markUsed h hash) (env.markTransactionUsed s h hash)
    [Row.used hash] rfl rfl rfl
  unfold MarkTransactionUsed
  rw [this.2]
  exact this.1

theorem UpdateBlockID_extends (env : Env) (s : Store) (h : Handle) (blockID : Int)
    (hash : Bytes) :
    s.Extends (UpdateBlockID env s h blockID hash).2
      [(Op.updateBlockID h blockID hash, (UpdateBlockID env s h blockID hash).1.isNone)] := by
  have := Store.exec_extends s h (Op.updateBlockID h blockID hash)
    (env.updateBlockID s h blockID hash) [Row.status blockID hash] rfl rfl rfl
  unfold UpdateBlockID
  rw [this.2]
  exact this.1

theorem InsertInLogTx_extends (env : Env) (s : Store) (h : Handle) (data : Bytes) (time : Int) :
    s.Extends (InsertInLogTx env s h data time).2
      [(Op.insertLog h data time, (InsertInLogTx env s h data time).1.isNone)] := by
  have := Store.exec_extends s h (Op.insertLog h data time)
    (env.insertInLogTx s h data time) [Row.log data time] rfl rfl rfl
  unfold InsertInLogTx
  rw [this.2]
  exact this.1

theorem DeleteUsedTransactions_extends (env : Env) (s : Store) (h : Handle) :
    s.Extends (DeleteUsedTransactions env s h).2
      [(Op.deleteUsed h, (DeleteUsedTransactions env s h).1.isNone)] := by
  have := Store.exec_extends s h (Op.deleteUsed h)
    (env.deleteUsedTransactions s h) [Row.usedCleared] rfl rfl rfl
  unfold DeleteUsedTransactions
  rw [this.2]
  exact this.1

theorem processBadTransaction_extends (env : Env) (s : Store) (p : Parser) (hash : Bytes)
    (errText : Err) :
    s.Extends (p.processBadTransaction env s hash errText).2
      [(Op.badTx p.DbTransaction hash errText,
        (p.processBadTransaction env s hash errText).1.isNone)] := by
  have := Store.exec_extends s p.DbTransaction (Op.badTx p.DbTransaction hash errText)
    (env.processBadTransaction s p.DbTransaction hash errText) [Row.bad hash errText] rfl rfl rfl
  unfold Parser.processBadTransaction
  rw [this.2]
  exact this.1

/-- What `playTransaction` does to the storage: at most one executor call, of the
record, whose flag says whether the execution succeeded. -/
theorem playTransaction_extends (env : Env) (s : Store) (p : Parser) :
    ∃ calls, s.Extends (playTransaction env s p).2 calls ∧
      ((playTransaction env s p).1 = none →
        ∃ c, calls = [c] ∧ isExecCall p c = true ∧ c.2 = true) ∧
      ((playTransaction env s p).1 ≠ none →
        (calls = [] ∧ p.TxContract.isNone = true ∧ p.txParser.isNone = true) ∨
        ∃ c, calls = [c] ∧ isExecCall p c = true ∧ c.2 = false) := by
  unfold playTransaction
  cases hc : p.TxContract with
  | some contract =>
    simp only [Option.isSome_some, if_true]
    have hext : s.Extends (p.CallContract env s playFlags).2
        [(Op.callContract p.DbTransaction p.TxHash playFlags (env.callContract s p playFlags).1,
          (env.callContract s p playFlags).2.isNone)] := by
      cases hd : p.DbTransaction <;>
        refine ⟨?_, ?_, ?_⟩ <;>
        simp [Parser.CallContract, Store.call, Store.write, rowsVia, hd, Op.handle, Op.rows]
    have hres : (p.CallContract env s playFlags).1 = (env.callContract s p playFlags).2 := rfl
    refine ⟨[(Op.callContract p.DbTransaction p.TxHash playFlags
      (env.callContract s p playFlags).1, (env.callContract s p playFlags).2.isNone)], ?_, ?_, ?_⟩
    · show s.Extends (match p.CallContract env s playFlags with
        | (some e, s1) => (some (ErrInfo e), s1)
        | (none, s1) => (none, s1)).2 _
      have : (match p.CallContract env s playFlags with
        | (some e, s1) => ((some (ErrInfo e) : Option Err), s1)
        | (none, s1) => (none, s1)).2 = (p.CallContract env s playFlags).2 := by
        rcases hp : p.CallContract env s playFlags with ⟨_ | e, s1⟩ <;> rfl
      rw [this]
      exact hext
    · intro hnone
      refine ⟨_, rfl, ?_, ?_⟩
      · simp [isExecCall, hc]
      · show (env.callContract s p playFlags).2.isNone = true
        rw [← hres]
        change (match p.CallContract env s playFlags with
          | (some e, s1) => ((some (ErrInfo e) : Option Err), s1)
          | (none, s1) => (none, s1)).1 = none at hnone
        rcases hp : p.CallContract env s playFlags with ⟨_ | e, s1⟩
        · rfl
        · rw [hp] at hnone; simp at hnone
    · intro hsome
      right
      refine ⟨_, rfl, ?_, ?_⟩
      · simp [isExecCall, hc]
      · show (env.callContract s p playFlags).2.isNone = false
        rw [← hres]
        change (match p.CallContract env s playFlags with
          | (some e, s1) => ((some (ErrInfo e) : Option Err), s1)
          | (none, s1) => (none, s1)).1 ≠ none at hsome
        rcases hp : p.CallContract env s playFlags with ⟨_ | e, s1⟩
        · rw [hp] at hsome; simp at hsome
        · rfl
  | none =>
    simp only [Option.isSome_none, Bool.false_eq_true, if_false]
    cases ht : p.txParser with
    | none =>
      refine ⟨[], Store.Extends.refl s, ?_, ?_⟩
      · intro h; simp at h
      · intro _; left; simp
    | some name =>
      dsimp only
      have hext : s.Extends (p.Action env s).2
          [(Op.action p.DbTransaction p.TxHash (env.parserAction s p).1,
            (env.parserAction s p).2.isNone)] := by
        cases hd : p.DbTransaction <;>
          refine ⟨?_, ?_, ?_⟩ <;>
          simp [Parser.Action, Store.call, Store.write, rowsVia, hd, Op.handle, Op.rows]
      have hres : (p.Action env s).1 = (env.parserAction s p).2 := rfl
      refine ⟨[(Op.action p.DbTransaction p.TxHash (env.parserAction s p).1,
        (env.parserAction s p).2.isNone)], ?_, ?_, ?_⟩
      · have : (match p.Action env s with
          | (some e, s1) => ((some (ErrInfo e) : Option Err), s1)
          | (none, s1) => (none, s1)).2 = (p.Action env s).2 := by
          rcases hp : p.Action env s with ⟨_ | e, s1⟩ <;> rfl
        rw [this]
        exact hext
      · intro hnone
        refine ⟨_, rfl, ?_, ?_⟩
        · simp [isExecCall, hc, ht]
        · show (env.parserAction s p).2.isNone = true
          rw [← hres]
          rcases hp : p.Action env s with ⟨_ | e, s1⟩
          · rfl
          · rw [hp] at hnone; simp at hnone
      · intro hsome
        right
        refine ⟨_, rfl, ?_, ?_⟩
        · simp [isExecCall, hc, ht]
        · show (env.parserAction s p).2.isNone = false
          rw [← hres]
          rcases hp : p.Action env s with ⟨_ | e, s1⟩
          · rw [hp] at hsome; simp at hsome
          · rfl

/-- The run of the loop of `playBlock` under T: the calls fall into one group per
record, in order, each the group of a failed or of a played transaction, followed,
when the loop stops with an error, by the calls of the record it stopped at. -/
theorem playParsers_run (env : Env) (blockID : Int) :
    ∀ (parsers : List Parser) (s : Store) (done : List Parser),
      ∃ groups tail, s.Extends (playParsers env blockID Handle.tx parsers s done).2.1
          (groups.flatten ++ tail) ∧
        List.Forall₂ (fun p g => isFailedGroup p g = true ∨ isPlayedGroup blockID p g = true)
          ((parsers.take groups.length).map (Parser.attach Handle.tx)) groups ∧
        ((playParsers env blockID Handle.tx parsers s done).1 = none →
          tail = [] ∧ groups.length = parsers.length ∧
          (playParsers env blockID Handle.tx parsers s done).2.2 =
            done ++ parsers.map (Parser.attach Handle.tx)) ∧
        ((playParsers env blockID Handle.tx parsers s done).1 ≠ none →
          ∃ p0, parsers.get? groups.length = some p0 ∧
            isStoppedGroup blockID (Parser.attach Handle.tx p0) tail = true) := by
  intro parsers
  induction parsers with
  | nil =>
    intro s done
    refine ⟨[], [], ?_, ?_, ?_, ?_⟩
    · simpa [playParsers] using Store.Extends.refl s
    · simp
    · intro _; simp [playParsers]
    · intro h; simp [playParsers] at h
  | cons p0 rest ih =>
    intro s done
    obtain ⟨calls, hext1, hok, hfail⟩ := playTransaction_extends env s (Parser.attach Handle.tx p0)
    have hdb : (Parser.attach Handle.tx p0).DbTransaction = Handle.tx := rfl
    rcases hpt : playTransaction env s (Parser.attach Handle.tx p0) with ⟨_ | e, s1⟩
    · -- the execution succeeded
      rw [hpt] at hext1 hok hfail
      obtain ⟨c, hc, hcexec, hcok⟩ := hok rfl
      have hm := MarkTransactionUsed_extends env s1 Handle.tx (Parser.attach Handle.tx p0).TxHash
      rcases hmr : MarkTransactionUsed env s1 Handle.tx (Parser.attach Handle.tx p0).TxHash
        with ⟨_ | e2, s2⟩
      · rw [hmr] at hm
        have hu := UpdateBlockID_extends env s2 Handle.tx blockID
          (Parser.attach Handle.tx p0).TxHash
        rcases hur : UpdateBlockID env s2 Handle.tx blockID (Parser.attach Handle.tx p0).TxHash
          with ⟨_ | e3, s3⟩
        · rw [hur] at hu
          have hl := InsertInLogTx_extends env s3 Handle.tx
            (Parser.attach Handle.tx p0).TxFullData (Parser.attach Handle.tx p0).TxTime
          rcases hlr : InsertInLogTx env s3 Handle.tx (Parser.attach Handle.tx p0).TxFullData
            (Parser.attach Handle.tx p0).TxTime with ⟨_ | e4, s4⟩
          · rw [hlr] at hl
            obtain ⟨groups, tail, hext, hgroups, hnone, hsome⟩ :=
              ih s4 (done ++ [Parser.attach Handle.tx p0])
            have hstep : playParsers env blockID Handle.tx (p0 :: rest) s done =
                playParsers env blockID Handle.tx rest s4 (done ++ [Parser.attach Handle.tx p0]) := by
              simp only [playParsers, hpt, hdb, hmr, hur, hlr]
            rw [hstep]
            refine ⟨(calls ++ [(Op.markUsed Handle.tx (Parser.attach Handle.tx p0).TxHash, true),
              (Op.updateBlockID Handle.tx blockID (Parser.attach Handle.tx p0).TxHash, true),
              (Op.insertLog Handle.tx (Parser.attach Handle.tx p0).TxFullData
                (Parser.attach Handle.tx p0).TxTime, true)]) :: groups, tail, ?_, ?_, ?_, ?_⟩
            · have := ((hext1.trans hm).trans hu).trans hl |>.trans hext
              simpa [List.append_assoc] using this
            · simp only [List.length_cons, List.take_succ_cons, List.map_cons]
              refine List.Forall₂.cons ?_ hgroups
              right
              subst hc
              simp [isPlayedGroup, hcexec, hcok, hdb]
            · intro h
              obtain ⟨h1, h2, h3⟩ := hnone h
              exact ⟨h1, by simp [h2], by simp [h3]⟩
            · exact hsome
          · -- the log entry failed
            rw [hlr] at hl
            have hstep : playParsers env blockID Handle.tx (p0 :: rest) s done =
                (some (ErrInfo e4), s4, done ++ Parser.attach Handle.tx p0 :: rest) := by
              simp only [playParsers, hpt, hdb, hmr, hur, hlr]
            rw [hstep]
            refine ⟨[], calls ++ [(Op.markUsed Handle.tx (Parser.attach Handle.tx p0).TxHash, true),
              (Op.updateBlockID Handle.tx blockID (Parser.attach Handle.tx p0).TxHash, true),
              (Op.insertLog Handle.tx (Parser.attach Handle.tx p0).TxFullData
                (Parser.attach Handle.tx p0).TxTime, false)], ?_, ?_, ?_, ?_⟩
            · have := ((hext1.trans hm).trans hu).trans hl
              simpa [List.append_assoc] using this
            · simp
            · intro h; simp at h
            · intro _
              refine ⟨p0, by simp, ?_⟩
              subst hc
              simp [isStoppedGroup, hcexec, hcok, hdb]
        · -- the status update failed
          rw [hur] at hu
          have hstep : playParsers env blockID Handle.tx (p0 :: rest) s done =
              (some e3, s3, done ++ Parser.attach Handle.tx p0 :: rest) := by
            simp only [playParsers, hpt, hdb, hmr, hur]
          rw [hstep]
          refine ⟨[], calls ++ [(Op.markUsed Handle.tx (Parser.attach Handle.tx p0).TxHash, true),
            (Op.updateBlockID Handle.tx blockID (Parser.attach Handle.tx p0).TxHash, false)],
            ?_, ?_, ?_, ?_⟩
          · have := (hext1.trans hm).trans hu
            simpa [List.append_assoc] using this
          · simp
          · intro h; simp at h
          · intro _
            refine ⟨p0, by simp, ?_⟩
            subst hc
            simp [isStoppedGroup, hcexec, hcok, hdb]
      · -- the used-marker failed
        rw [hmr] at hm
        have hstep : playParsers env blockID Handle.tx (p0 :: rest) s done =
            (some e2, s2, done ++ Parser.attach Handle.tx p0 :: rest) := by
          simp only [playParsers, hpt, hdb, hmr]
        rw [hstep]
        refine ⟨[], calls ++
          [(Op.markUsed Handle.tx (Parser.attach Handle.tx p0).TxHash, false)], ?_, ?_, ?_, ?_⟩
        · have := hext1.trans hm
          simpa [List.append_assoc] using this
        · simp
        · intro h; simp at h
        · intro _
          refine ⟨p0, by simp, ?_⟩
          subst hc
          simp [isStoppedGroup, hcexec, hcok, hdb]
    · -- the execution failed: mark used outside T, record the bad transaction, go on
      rw [hpt] at hext1 hok hfail
      have hm := MarkTransactionUsed_extends env s1 Handle.nil (Parser.attach Handle.tx p0).TxHash
      have hb := processBadTransaction_extends env
        (MarkTransactionUsed env s1 Handle.nil (Parser.attach Handle.tx p0).TxHash).2
        (Parser.attach Handle.tx p0) (Parser.attach Handle.tx p0).TxHash e
      obtain ⟨groups, tail, hext, hgroups, hnone, hsome⟩ :=
        ih ((Parser.attach Handle.tx p0).processBadTransaction env
          (MarkTransactionUsed env s1 Handle.nil (Parser.attach Handle.tx p0).TxHash).2
          (Parser.attach Handle.tx p0).TxHash e).2 (done ++ [Parser.attach Handle.tx p0])
      have hstep : playParsers env blockID Handle.tx (p0 :: rest) s done =
          playParsers env blockID Handle.tx rest
            ((Parser.attach Handle.tx p0).processBadTransaction env
              (MarkTransactionUsed env s1 Handle.nil (Parser.attach Handle.tx p0).TxHash).2
              (Parser.attach Handle.tx p0).TxHash e).2 (done ++ [Parser.attach Handle.tx p0]) := by
        simp only [playParsers, hpt]
      rw [hstep]
      refine ⟨(calls ++ [(Op.markUsed Handle.nil (Parser.attach Handle.tx p0).TxHash,
          (MarkTransactionUsed env s1 Handle.nil (Parser.attach Handle.tx p0).TxHash).1.isNone),
        (Op.badTx Handle.tx (Parser.attach Handle.tx p0).TxHash e,
          ((Parser.attach Handle.tx p0).processBadTransaction env
            (MarkTransactionUsed env s1 Handle.nil (Parser.attach Handle.tx p0).TxHash).2
            (Parser.attach Handle.tx p0).TxHash e).1.isNone)]) :: groups, tail,
        ?_, ?_, ?_, ?_⟩
      · have := ((hext1.trans hm).trans hb).trans hext
        simpa [List.append_assoc, hdb] using this
      · simp only [List.length_cons, List.take_succ_cons, List.map_cons]
        refine List.Forall₂.cons ?_ hgroups
        left
        rcases hfail (by simp) with ⟨h1, h2, h3⟩ | ⟨c, h1, h2, h3⟩
        · subst h1
          simp [isFailedGroup, h2, h3, hdb]
        · subst h1
          simp [isFailedGroup, h2, h3, hdb]
      · intro h
        obtain ⟨h1, h2, h3⟩ := hnone h
        exact ⟨h1, by simp [h2], by simp [h3]⟩
      · exact hsome

/-! ## The groups of calls -/

/-- A stopped group holds a failed bookkeeping call. -/
theorem isStoppedGroup_failed (blockID : Int) (p : Parser) (g : List (Op × Bool))
    (hp : p.DbTransaction = Handle.tx) (h : isStoppedGroup blockID p g = true) :
    ∃ op, (op, false) ∈ g ∧ op.isBookkeeping = true := by
  unfold isStoppedGroup at h
  split at h
  · simp only [Bool.and_eq_true, beq_iff_eq] at h
    obtain ⟨-, hm⟩ := h
    exact ⟨Op.markUsed p.DbTransaction p.TxHash, by rw [hm]; simp,
      by simp [hp, Op.isBookkeeping]⟩
  · simp only [Bool.and_eq_true, beq_iff_eq] at h
    obtain ⟨-, hu⟩ := h
    exact ⟨Op.updateBlockID p.DbTransaction blockID p.TxHash, by rw [hu]; simp,
      by simp [hp, Op.isBookkeeping]⟩
  · simp only [Bool.and_eq_true, beq_iff_eq] at h
    obtain ⟨-, hl⟩ := h
    exact ⟨Op.insertLog p.DbTransaction p.TxFullData p.TxTime, by rw [hl]; simp,
      by simp [hp, Op.isBookkeeping]⟩
  · simp at h


theorem Block.playBlock_run (env : Env) (s : Store) (block : Block) :
    ∃ delta, s.Extends (block.playBlock env s Handle.tx).2.1 delta ∧
      ((block.playBlock env s Handle.tx).1 = none →
        (block.playBlock env s Handle.tx).2.2.Parsers =
          block.Parsers.map (Parser.attach Handle.tx) ∧
        ∃ groups, delta = (Op.deleteUsed Handle.tx, true) :: groups.flatten ∧
          List.Forall₂ (fun p g => isFailedGroup p g = true ∨
              isPlayedGroup block.Header.BlockID p g = true)
            (block.Parsers.map (Parser.attach Handle.tx)) groups) ∧
      ((block.playBlock env s Handle.tx).1 ≠ none →
        delta = [(Op.deleteUsed Handle.tx, false)] ∨
        ∃ groups tail p0,
          delta = (Op.deleteUsed Handle.tx, true) :: (groups.flatten ++ tail) ∧
          block.Parsers.get? groups.length = some p0 ∧
          isStoppedGroup block.Header.BlockID (Parser.attach Handle.tx p0) tail = true ∧
          List.Forall₂ (fun p g => isFailedGroup p g = true ∨
              isPlayedGroup block.Header.BlockID p g = true)
            ((block.Parsers.take groups.length).map (Parser.attach Handle.tx)) groups) := by
  have hd := DeleteUsedTransactions_extends env s Handle.tx
  rcases hdr : DeleteUsedTransactions env s Handle.tx with ⟨_ | e, s1⟩
  · rw [hdr] at hd
    obtain ⟨groups, tail, hext, hgroups, hnone, hsome⟩ :=
      playParsers_run env block.Header.BlockID block.Parsers s1 []
    have hpb : block.playBlock env s Handle.tx =
        ((playParsers env block.Header.BlockID Handle.tx block.Parsers s1 []).1,
         (playParsers env block.Header.BlockID Handle.tx block.Parsers s1 []).2.1,
         { block with Parsers :=
            (playParsers env block.Header.BlockID Handle.tx block.Parsers s1 []).2.2 }) := by
      simp only [Block.playBlock, hdr]
    rw [hpb]
    refine ⟨[(Op.deleteUsed Handle.tx, true)] ++ (groups.flatten ++ tail), hd.trans hext, ?_, ?_⟩
    · intro h
      obtain ⟨h1, h2, h3⟩ := hnone h
      subst h1
      rw [h2, List.take_length] at hgroups
      exact ⟨by simpa using h3, groups, by simp, hgroups⟩
    · intro h
      obtain ⟨p0, h1, h2⟩ := hsome h
      right
      exact ⟨groups, tail, p0, by simp, h1, h2, hgroups⟩
  · rw [hdr] at hd
    have hpb : block.playBlock env s Handle.tx = (some e, s1, block) := by
      simp only [Block.playBlock, hdr]
    rw [hpb]
    refine ⟨[(Op.deleteUsed Handle.tx, false)], hd, ?_, ?_⟩
    · intro h; simp at h
    · intro _
      left; rfl

/-! ## C5: a bad transaction does not stop the block -/

/-- C5: when every bookkeeping call `playBlock` makes under T succeeds (the used-table
deletion and, for each transaction whose execution succeeded, its used-marker,
status update and log entry), `playBlock` returns nil having gone through every
transaction: the calls after the deletion fall into one group per record, in block
order; a record whose execution failed has the failed execution, the used-marker
with the nil handle and the bad-transaction record, and no status update or log
entry; a record whose execution succeeded has its three bookkeeping calls. -/
theorem C5_bad_transaction_isolated (env : Env) (s : Store) (block : Block)
    (hbook : ∀ c ∈ (block.playBlock env s Handle.tx).2.1.trace.drop s.trace.length,
      c.1.isBookkeeping = true → c.2 = true) :
    (block.playBlock env s Handle.tx).1 = none ∧
    (block.playBlock env s Handle.tx).2.2.Parsers =
      block.Parsers.map (Parser.attach Handle.tx) ∧
    ∃ groups,
      (block.playBlock env s Handle.tx).2.1.trace =
        s.trace ++ (Op.deleteUsed Handle.tx, true) :: groups.flatten ∧
      List.Forall₂ (fun p g => isFailedGroup p g = true ∨
          isPlayedGroup block.Header.BlockID p g = true)
        (block.Parsers.map (Parser.attach Handle.tx)) groups := by
  obtain ⟨delta, hext, hnone, hsome⟩ := Block.playBlock_run env s block
  have htrace := hext.1
  rw [htrace, List.drop_left] at hbook
  have hres : (block.playBlock env s Handle.tx).1 = none := by
    by_contra hne
    rcases hsome hne with h1 | ⟨groups, tail, p0, h1, -, h2, -⟩
    · have := hbook (Op.deleteUsed Handle.tx, false) (by simp [h1]) rfl
      simp at this
    · obtain ⟨op, hmem, hop⟩ := isStoppedGroup_failed _ _ _ rfl h2
      have := hbook (op, false) (by simp [h1, hmem]) hop
      simp at this
  obtain ⟨hp, groups, hd, hg⟩ := hnone hres
  exact ⟨hres, hp, groups, by rw [htrace, hd], hg⟩

/-- C5 at a block of three transactions whose second one fails when executed. -/
theorem C5_bad_transaction_isolated_witness :
    (Demo.badMiddleBlock.playBlock Demo.env Demo.store0 Handle.tx).1 = none ∧
    (Demo.badMiddleBlock.playBlock Demo.env Demo.store0 Handle.tx).2.2.Parsers =
      Demo.badMiddleBlock.Parsers.map (Parser.attach Handle.tx) ∧
    ∃ groups,
      (Demo.badMiddleBlock.playBlock Demo.env Demo.store0 Handle.tx).2.1.trace =
        Demo.store0.trace ++ (Op.deleteUsed Handle.tx, true) :: groups.flatten ∧
      List.Forall₂ (fun p g => isFailedGroup p g = true ∨
          isPlayedGroup Demo.badMiddleBlock.Header.BlockID p g = true)
        (Demo.badMiddleBlock.Parsers.map (Parser.attach Handle.tx)) groups :=
  C5_bad_transaction_isolated Demo.env Demo.store0 Demo.badMiddleBlock (by decide!)

/-! ## What the groups write -/

theorem rowsVia_cons (h : Handle) (c : Op × Bool) (rest : List (Op × Bool)) :
    rowsVia h (c :: rest) = (if c.1.handle = h then c.1.rows c.2 else []) ++ rowsVia h rest := by
  simp [rowsVia]

theorem parseContractTransaction_handle (env : Env) (p q : Parser) (buf : Bytes)
    (h : parseContractTransaction env p buf = .ok q) : q.DbTransaction = p.DbTransaction := by
  unfold parseContractTransaction at h
  split at h
  · simp at h
  · dsimp only at h
    split at h
    · simp at h
    · split at h
      · simp only [Except.ok.injEq] at h
        subst h
        rfl
      · split at h
        · simp at h
        · simp only [Except.ok.injEq] at h
          subst h
          rfl

theorem parseStructTransaction_handle (env : Env) (p q : Parser) (buf : Bytes) (txType : Int)
    (h : parseStructTransaction env p buf txType = .ok q) :
    q.DbTransaction = p.DbTransaction := by
  unfold parseStructTransaction at h
  split at h
  · simp at h
  · dsimp only at h
    split at h
    · simp at h
    · simp only [Except.ok.injEq] at h
      subst h
      rfl

theorem parseRegularTransaction_handle (env : Env) (s : Store) (p : Parser) (txType : Int) :
    (parseRegularTransaction env s p txType).1.DbTransaction = p.DbTransaction := by
  unfold parseRegularTransaction
  split
  · rfl
  · dsimp only
    split
    · rfl
    · split
      · rfl
      · split <;> rfl

theorem isParseCall_rows (delta : List (Op × Bool)) (h : ∀ c ∈ delta, isParseCall c = true) :
    rowsVia Handle.tx delta = [] ∧ (∀ r ∈ rowsVia Handle.nil delta, isParseRow r = true) ∧
    (∀ c ∈ delta, c.1.handle = Handle.nil) := by
  induction delta with
  | nil => simp [rowsVia]
  | cons c rest ih =>
    obtain ⟨i1, i2, i3⟩ := ih (fun x hx => h x (by simp [hx]))
    have hc := h c (by simp)
    obtain ⟨op, b⟩ := c
    have hop : op.handle = Handle.nil ∧ ∀ r ∈ op.rows b, isParseRow r = true := by
      cases op <;> simp [isParseCall] at hc
      · rename_i hd hash reason
        cases hd <;> simp at hc
        refine ⟨rfl, ?_⟩
        cases b <;> simp [Op.rows, isParseRow]
      · rename_i hd hash flags writes
        cases hd <;> simp at hc
        refine ⟨rfl, ?_⟩
        simp [Op.rows, isParseRow]
    refine ⟨?_, ?_, ?_⟩
    · rw [rowsVia_cons, i1]
      simp [hop.1]
    · intro r hr
      rw [rowsVia_cons] at hr
      simp only [hop.1, if_true, List.mem_append] at hr
      rcases hr with hr | hr
      · exact hop.2 r hr
      · exact i2 r hr
    · intro x hx
      simp only [List.mem_cons] at hx
      rcases hx with rfl | hx
      · exact hop.1
      · exact i3 x hx

/-- The function `ParseTransaction` makes at most the interpreter call with the nil handle, and the
record it returns has no storage transaction attached. -/
theorem ParseTransaction_extends (env : Env) (s : Store) (buffer : Bytes) :
    ∃ delta, s.Extends (ParseTransaction env s buffer).2.2 delta ∧
      (∀ c ∈ delta, isParseCall c = true) ∧
      (∀ p, (ParseTransaction env s buffer).1 = some p → p.DbTransaction = Handle.nil) := by
  unfold ParseTransaction
  split
  · exact ⟨[], Store.Extends.refl s, by simp, by simp⟩
  · rename_i b rest
    split
    · exact ⟨[], Store.Extends.refl s, by simp, by simp⟩
    · rename_i hash hh
      dsimp only
      split
      · split
        · exact ⟨[], Store.Extends.refl s, by simp, by simp⟩
        · rename_i p2 hp2
          have hd : p2.DbTransaction = Handle.nil := by
            rw [parseContractTransaction_handle _ _ _ _ hp2]; rfl
          have hext : s.Extends (p2.CallContract env s parseFlags).2
              [(Op.callContract Handle.nil p2.TxHash parseFlags (env.callContract s p2 parseFlags).1,
                (env.callContract s p2 parseFlags).2.isNone)] := by
            refine ⟨?_, ?_, ?_⟩ <;>
              simp [Parser.CallContract, Store.call, Store.write, rowsVia, hd, Op.handle, Op.rows]
          have hcall : ∀ c ∈ [(Op.callContract Handle.nil p2.TxHash parseFlags
              (env.callContract s p2 parseFlags).1, (env.callContract s p2 parseFlags).2.isNone)],
              isParseCall c = true := by
            intro c hc
            simp only [List.mem_singleton] at hc
            subst hc
            simp [isParseCall]
          rcases hcc : p2.CallContract env s parseFlags with ⟨_ | e, s1⟩
          · rw [hcc] at hext
            have : p2.CallContract env s { init := true, condition := true, action := false } =
                (none, s1) := hcc
            simp only [this]
            exact ⟨_, hext, hcall, by intro p hp; simp at hp; rw [← hp]; exact hd⟩
          · rw [hcc] at hext
            have : p2.CallContract env s { init := true, condition := true, action := false } =
                (some e, s1) := hcc
            simp only [this]
            exact ⟨_, hext, hcall, by simp⟩
      · split
        · split
          · exact ⟨[], Store.Extends.refl s, by simp, by simp⟩
          · rename_i p2 hp2
            refine ⟨[], Store.Extends.refl s, by simp, ?_⟩
            intro p hp
            simp only [Option.some.injEq] at hp
            rw [← hp, parseStructTransaction_handle _ _ _ _ _ hp2]
            rfl
        · have hk := parseRegularTransaction_handle env s
            { Parser.new with TxHash := hash, TxFullData := b :: rest, dataType := (b.val : Int),
                              TxBinaryData := rest } (b.val : Int)
          split
          · rename_i p2 e heq
            rw [heq] at hk
            exact ⟨[], Store.Extends.refl s, by simp, by intro p hp; simp at hp; rw [← hp]; exact hk⟩
          · rename_i p2 heq
            rw [heq] at hk
            exact ⟨[], Store.Extends.refl s, by simp, by intro p hp; simp at hp; rw [← hp]; exact hk⟩

theorem parseTransactions_extends (env : Env) (header : BlockData)
    (allKeys : List (String × String)) :
    ∀ (fuel : Nat) (s : Store) (buf : Bytes) (parsers : List Parser) (mrkl : List Bytes),
      ∃ delta, s.Extends (parseTransactions env header allKeys fuel s buf parsers mrkl).2 delta ∧
        ∀ c ∈ delta, isParseCall c = true := by
  intro fuel
  induction fuel with
  | zero =>
    intro s buf parsers mrkl
    unfold parseTransactions
    split <;> exact ⟨[], Store.Extends.refl s, by simp⟩
  | succ fuel ih =>
    intro s buf parsers mrkl
    unfold parseTransactions
    split
    · exact ⟨[], Store.Extends.refl s, by simp⟩
    · dsimp only
      split
      · exact ⟨[], Store.Extends.refl s, by simp⟩
      · rename_i transactionSize buf1 hdec
        split
        · exact ⟨[], Store.Extends.refl s, by simp⟩
        · split
          · exact ⟨[], Store.Extends.refl s, by simp⟩
          · obtain ⟨d1, hext1, hc1, hnil⟩ :=
              ParseTransaction_extends env s (buf1.take transactionSize)
            split
            · rename_i e s1 hp
              rw [hp] at hext1
              exact ⟨d1, hext1, hc1⟩
            · rename_i p e s1 hp
              rw [hp] at hext1 hnil
              have hd : p.DbTransaction = Handle.nil := hnil p rfl
              dsimp only
              split
              · have hb := processBadTransaction_extends env s1 p p.TxHash e
                rw [hd] at hb
                refine ⟨d1 ++ [(Op.badTx Handle.nil p.TxHash e,
                  (p.processBadTransaction env s1 p.TxHash e).1.isNone)], hext1.trans hb, ?_⟩
                intro c hc
                simp only [List.mem_append, List.mem_singleton] at hc
                rcases hc with hc | hc
                · exact hc1 c hc
                · subst hc; rfl
              · exact ⟨d1, hext1, hc1⟩
            · rename_i s1 hp
              rw [hp] at hext1
              exact ⟨d1, hext1, hc1⟩
            · rename_i p s1 hp
              rw [hp] at hext1
              split
              · split
                · exact ⟨d1, hext1, hc1⟩
                · obtain ⟨d2, hext2, hc2⟩ := ih s1 (buf1.drop transactionSize)
                    (parsers ++ [{ p with BlockData := some header, AllPkeys := allKeys }])
                    (mrkl ++ [BinToHex ‹Bytes›])
                  refine ⟨d1 ++ d2, hext1.trans hext2, ?_⟩
                  intro c hc
                  simp only [List.mem_append] at hc
                  rcases hc with hc | hc
                  · exact hc1 c hc
                  · exact hc2 c hc
              · obtain ⟨d2, hext2, hc2⟩ := ih s1 (buf1.drop transactionSize)
                  (parsers ++ [{ p with BlockData := some header, AllPkeys := allKeys }]) mrkl
                refine ⟨d1 ++ d2, hext1.trans hext2, ?_⟩
                intro c hc
                simp only [List.mem_append] at hc
                rcases hc with hc | hc
                · exact hc1 c hc
                · exact hc2 c hc

theorem ProcessBlock_extends (env : Env) (s : Store) (data : Bytes) :
    ∃ delta, s.Extends (ProcessBlock env s data).2 delta ∧
      ∀ c ∈ delta, isParseCall c = true := by
  have hpb : ∃ delta, s.Extends (parseBlock env s data).2 delta ∧
      ∀ c ∈ delta, isParseCall c = true := by
    unfold parseBlock
    split
    · exact ⟨[], Store.Extends.refl s, by simp⟩
    · rename_i header body hh
      split
      · exact ⟨[], Store.Extends.refl s, by simp⟩
      · rename_i allKeys hk
        obtain ⟨d, hext, hc⟩ := parseTransactions_extends env header allKeys body.length s body [] []
        split
        · rename_i e s1 hp
          rw [hp] at hext
          exact ⟨d, hext, hc⟩
        · rename_i e s1 hp
          rw [hp] at hext
          exact ⟨d, hext, hc⟩
        · rename_i parsers mrkl s1 hp
          rw [hp] at hext
          exact ⟨d, hext, hc⟩
  unfold ProcessBlock
  split
  · exact ⟨[], Store.Extends.refl s, by simp⟩
  · split
    · exact ⟨[], Store.Extends.refl s, by simp⟩
    · obtain ⟨d, hext, hc⟩ := hpb
      split
      · rename_i e s1 hp
        rw [hp] at hext
        exact ⟨d, hext, hc⟩
      · rename_i e s1 hp
        rw [hp] at hext
        exact ⟨d, hext, hc⟩
      · rename_i block s1 hp
        rw [hp] at hext
        split <;> exact ⟨d, hext, hc⟩

/-- C9, as stated, fails: on a payload whose only transaction, of the regular dialect,
fails validation, `InsertBlock` returns the parsing error, and a bad-transaction
record has been written, durably. -/
theorem C9_parse_error_writes_bad_record :
    InsertBlock Demo.env Demo.store0
        [1, 0, 0, 0, 2, 83, 114, 78, 5, 1, 5, 1, 2, 24, 38, 4, 5, 9, 9, 1] =
      (Res.error "parse transaction error(validation failed)",
       { durable := [Row.bad [4, 24] "validation failed"], pending := [],
         trace := [(Op.badTx Handle.nil [4, 24] "validation failed", true)] }) := by
  decide!

/-- C9, amended: when parsing (`ProcessBlock`) or validation (`CheckBlock`) returns an
error, `InsertBlock` returns that error; no storage transaction is begun and no
used-marker, status row or log entry is written: the only calls made are, with
the nil handle, the interpreter runs of `ParseTransaction` on contract
transactions and the bad-transaction record of `parseBlock` for a transaction
that failed to parse; nothing is pending, and the rows added are rows of
contract state and bad-transaction records. -/
theorem C9_rejected_block_effects (env : Env) (s s1 : Store) (data : Bytes) (e : Err)
    (h : ProcessBlock env s data = (Res.error e, s1) ∨
      ∃ block, ProcessBlock env s data = (Res.ok block, s1) ∧ block.CheckBlock env s1 = some e) :
    InsertBlock env s data = (Res.error e, s1) ∧
    ∃ delta, s.Extends s1 delta ∧ (∀ c ∈ delta, isParseCall c = true) ∧
      s1.pending = s.pending ∧ (∀ r ∈ rowsVia Handle.nil delta, isParseRow r = true) := by
  obtain ⟨delta, hext, hc⟩ := ProcessBlock_extends env s data
  obtain ⟨r1, r2, -⟩ := isParseCall_rows delta hc
  have hs1 : (ProcessBlock env s data).2 = s1 := by
    rcases h with h | ⟨block, h, -⟩ <;> rw [h]
  rw [hs1] at hext
  refine ⟨?_, delta, hext, hc, ?_, r2⟩
  · rcases h with h | ⟨block, h, hcb⟩
    · simp only [InsertBlock, h]
    · simp only [InsertBlock, h, hcb]
  · rw [hext.2.2, r1]; simp

/-- The amended C9 at the payload whose only transaction fails validation. -/
theorem C9_rejected_block_effects_witness :
    InsertBlock Demo.env Demo.store0
        [1, 0, 0, 0, 2, 83, 114, 78, 5, 1, 5, 1, 2, 24, 38, 4, 5, 9, 9, 1] =
      (Res.error "parse transaction error(validation failed)",
       { durable := [Row.bad [4, 24] "validation failed"], pending := [],
         trace := [(Op.badTx Handle.nil [4, 24] "validation failed", true)] }) ∧
    ∃ delta, Demo.store0.Extends
        { durable := [Row.bad [4, 24] "validation failed"], pending := [],
          trace := [(Op.badTx Handle.nil [4, 24] "validation failed", true)] } delta ∧
      (∀ c ∈ delta, isParseCall c = true) ∧
      ({ durable := [Row.bad [4, 24] "validation failed"], pending := [],
         trace := [(Op.badTx Handle.nil [4, 24] "validation failed", true)] } : Store).pending =
        Demo.store0.pending ∧
      (∀ r ∈ rowsVia Handle.nil delta, isParseRow r = true) :=
  C9_rejected_block_effects Demo.env Demo.store0 _
    [1, 0, 0, 0, 2, 83, 114, 78, 5, 1, 5, 1, 2, 24, 38, 4, 5, 9, 9, 1] _
    (Or.inl (by decide!))

/-! ## C10: the hash of a transaction that fails to parse -/

/-- C10 at the failing inputs: a contract-dialect frame whose envelope does not decode
and a struct-dialect frame whose record does not decode both have a hash, and
`ParseTransaction` returns the error and no record for them; a regular-dialect
frame that fails validation comes back with its record and hash. -/
theorem C10_failed_parse_returns_no_record :
    Demo.env.hash [129] = .ok [1, 129] ∧
    ParseTransaction Demo.env Demo.store0 [129] =
      (none, some "msgpack: unexpected end of input", Demo.store0) ∧
    Demo.env.hash [1] = .ok [1, 1] ∧
    ParseTransaction Demo.env Demo.store0 [1] =
      (none, some "input slice is short", Demo.store0) ∧
    (ParseTransaction Demo.env Demo.store0 [5, 9, 9, 1]).2.1 = some "validation failed" ∧
    (ParseTransaction Demo.env Demo.store0 [5, 9, 9, 1]).1.map (fun p => p.TxHash) =
      some [4, 24] := by
  refine ⟨by decide, by decide!, by decide, by decide!, by decide!, by decide!⟩

/-! ## C11: a header that ends before the padding byte -/

/-- What a successful `ParseBlockHeader` has read: nine bytes, the wallet, the state
byte and, for an id above 1, a length prefix and a signature of exactly that length.
For an id of at most 1 nothing is required after the state byte. -/
theorem ParseBlockHeader_reads (env : Env) (binaryBlock rest : Bytes) (h : BlockData)
    (hp : ParseBlockHeader env binaryBlock = .ok (h, rest)) :
    9 ≤ binaryBlock.length ∧
      ∃ b4, env.decodeLenInt64Buf (binaryBlock.drop 9) = .ok (h.WalletID, b4) ∧
        1 ≤ b4.length ∧
        (h.BlockID > 1 → ∃ n b6, DecodeLengthBuf (b4.drop 1) = .ok (n, b6) ∧
          n ≤ b6.length ∧ h.Sign = b6.take n ∧ rest = b6.drop n) ∧
        (¬ h.BlockID > 1 → rest = b4.drop 2) := by
  unfold ParseBlockHeader at hp
  split at hp
  · simp at hp
  · rename_i hlen
    dsimp only at hp
    split at hp
    · simp at hp
    · split at hp
      · simp at hp
      · rename_i walletID b4 hw
        simp only [List.drop_drop] at hw
        split at hp
        · simp at hp
        · rename_i hb4
          split at hp
          · rename_i hid
            split at hp
            · simp at hp
            · rename_i signSize b6 hd
              split at hp
              · simp at hp
              · rename_i hs
                simp only [Except.ok.injEq, Prod.mk.injEq] at hp
                obtain ⟨h1, h2⟩ := hp
                subst h1
                refine ⟨by omega, b4, hw, by omega, ?_, ?_⟩
                · intro _
                  exact ⟨signSize, b6, hd, by omega, rfl, h2.symm⟩
                · intro hn
                  exact absurd hid hn
          · rename_i hid
            simp only [Except.ok.injEq, Prod.mk.injEq] at hp
            obtain ⟨h1, h2⟩ := hp
            subst h1
            refine ⟨by omega, b4, hw, by omega, ?_, ?_⟩
            · intro hn
              exact absurd hn hid
            · intro _
              rw [← h2, List.drop_drop]

/-- Claim C11, at the failing input: `ParseBlockHeader` returns a header and no error on
the eleven bytes of `Demo.truncatedFirst`, a header of block 1 that ends after the state
byte, before the padding byte; `InsertBlock` then accepts these bytes as a block. -/
theorem C11_first_block_without_padding_accepted :
    ParseBlockHeader Demo.env Demo.truncatedFirst =
        .ok ({ BlockData.zero with BlockID := 1, Time := 1400000005, WalletID := 0,
                                   StateID := 1, Version := 1 }, []) ∧
      Demo.truncatedFirst.length = 11 ∧
      (InsertBlock Demo.env Demo.store0 Demo.truncatedFirst).1 = Res.ok () := by
  refine ⟨by decide, by decide, by decide!⟩

/-! ## C12: the frames of the body -/

/-- A payload whose body is not well framed is never accepted: `parseBlock` returns an
error or stops at the nil record of an earlier frame. -/
theorem parseBlock_malformed (env : Env) (s : Store) (payload body : Bytes)
    (header : BlockData) (hh : ParseBlockHeader env payload = .ok (header, body))
    (hbad : splitFrames body.length body = none) :
    (∃ e, (parseBlock env s payload).1 = Res.error e) ∨
      (∃ m, (parseBlock env s payload).1 = Res.panic m) := by
  rcases hr : parseBlock env s payload with ⟨r, s1⟩
  cases r with
  | error e => exact Or.inl ⟨e, rfl⟩
  | panic m => exact Or.inr ⟨m, rfl⟩
  | ok block =>
    obtain ⟨body1, h1, h2⟩ := parseBlock_frames _ _ _ _ _ hr
    rw [hh] at h1
    simp only [Except.ok.injEq, Prod.mk.injEq] at h1
    rw [← h1.2, hbad] at h2
    simp at h2

/-- When the loop stands at a length prefix that decodes to zero or to more than the
bytes that remain, it returns an error and leaves the storage as it is. -/
theorem parseTransactions_bad_prefix (env : Env) (header : BlockData)
    (allKeys : List (String × String)) (fuel : Nat) (s : Store) (buf buf1 : Bytes)
    (size : Nat) (parsers : List Parser) (mrkl : List Bytes)
    (hdec : DecodeLengthBuf buf = .ok (size, buf1)) (hbad : size = 0 ∨ buf1.length < size) :
    ∃ e, parseTransactions env header allKeys (fuel + 1) s buf parsers mrkl =
      (Res.error e, s) := by
  have hne : ¬ buf.length = 0 := by
    have := DecodeLengthBuf_shorter _ _ _ hdec
    omega
  unfold parseTransactions
  simp only [hne, if_false, hdec]
  by_cases hbig : buf1.length < size
  · simp only [hbig, if_true]
    exact ⟨_, rfl⟩
  · have hz : size = 0 := by
      rcases hbad with h | h
      · exact h
      · exact absurd h hbig
    simp only [hbig, if_false, hz, if_true]
    exact ⟨_, rfl⟩

/-- Claim C12, at the failing input: the body of `Demo.zeroAfterBadFrame` is a frame of
one byte followed by a length prefix of zero, so it is not well framed, and
`parseBlock` does not return an error on it: it stops at the nil record
`ParseTransaction` returned for the first frame, before it reaches the prefix. -/
theorem C12_zero_prefix_after_unparsed_frame :
    ParseBlockHeader Demo.env Demo.zeroAfterBadFrame =
        .ok ({ Demo.secondHeader with Sign := [24, 198] }, [1, 129, 0]) ∧
      DecodeLengthBuf [0] = .ok (0, []) ∧
      splitFrames 3 [1, 129, 0] = none ∧
      (parseBlock Demo.env Demo.store0 Demo.zeroAfterBadFrame).1 =
        Res.panic "nil pointer dereference: p.TxHash" := by
  refine ⟨by decide, by decide, by decide, by decide!⟩

/-! ## C13: distinct transaction hashes -/

/-- The two stages of `CheckBlock`. -/
theorem Block.CheckBlock_stages (env : Env) (s : Store) (block : Block) :
    block.CheckBlock env s =
      match block.checkSequence env s with
      | some e => some e
      | none => block.checkTransactionsAndHash env s := rfl

/-- The loop of `CheckBlock` ends without error only when no hash, written in
hexadecimal, is in the map already or occurs twice. -/
theorem checkParsers_none (env : Env) (s : Store) (block : Block) :
    ∀ (ps : List Parser) (txCounter : List (Int × Int)) (txHashes : List Bytes),
      checkParsers env s block ps txCounter txHashes = none →
      (∀ p ∈ ps, BinToHex p.TxHash ∉ txHashes) ∧
        (ps.map (fun p => BinToHex p.TxHash)).Nodup := by
  intro ps
  induction ps with
  | nil => intro _ _ _; exact ⟨by simp, by simp⟩
  | cons p rest ih =>
    intro txCounter txHashes h
    unfold checkParsers at h
    dsimp only at h
    split at h
    · simp at h
    · rename_i hnot
      split at h
      · simp at h
      · split at h
        · simp at h
        · obtain ⟨h1, h2⟩ := ih _ _ h
          have hp : BinToHex p.TxHash ∉ txHashes := by
            intro hc
            exact hnot (by simpa using hc)
          refine ⟨?_, ?_⟩
          · intro q hq
            rcases List.mem_cons.mp hq with hq | hq
            · rw [hq]; exact hp
            · intro hc
              exact h1 q hq (List.mem_cons_of_mem _ hc)
          · simp only [List.map_cons, List.nodup_cons]
            refine ⟨?_, h2⟩
            intro hc
            obtain ⟨q, hq, hqe⟩ := List.mem_map.mp hc
            exact h1 q hq (by rw [hqe]; exact List.mem_cons_self _ _)

/-- Claim C13: a block `CheckBlock` accepts has pairwise distinct transaction hashes;
a block in which two transactions have the same `TxHash` gets an error. -/
theorem C13_accepted_block_has_distinct_hashes (env : Env) (s : Store) (block : Block) :
    (block.CheckBlock env s = none → (block.Parsers.map (fun p => p.TxHash)).Nodup) ∧
      (¬ (block.Parsers.map (fun p => p.TxHash)).Nodup →
        ∃ e, block.CheckBlock env s = some e) := by
  have key : block.CheckBlock env s = none →
      (block.Parsers.map (fun p => p.TxHash)).Nodup := by
    intro h
    rw [Block.CheckBlock_stages] at h
    split at h
    · simp at h
    · unfold Block.checkTransactionsAndHash at h
      split at h
      · simp at h
      · rename_i hcp
        obtain ⟨-, hnd⟩ := checkParsers_none _ _ _ _ _ _ hcp
        have hm : block.Parsers.map (fun p => BinToHex p.TxHash) =
            (block.Parsers.map (fun p => p.TxHash)).map BinToHex := by
          simp [List.map_map, Function.comp_def]
        rw [hm] at hnd
        exact List.Nodup.of_map _ hnd
  refine ⟨key, ?_⟩
  intro hdup
  cases hr : block.CheckBlock env s with
  | none => exact absurd (key hr) hdup
  | some e => exact ⟨e, rfl⟩

/-- Witness for C13: the two transactions of `Demo.pairBlock`, which is accepted, have
different hashes, and `Demo.twinBlock`, whose two transactions share a hash, gets an
error. -/
theorem C13_accepted_block_has_distinct_hashes_witness :
    Demo.pairBlock.CheckBlock Demo.env Demo.store0 = none ∧
      (Demo.pairBlock.Parsers.map (fun p => p.TxHash)).Nodup ∧
      ¬ (Demo.twinBlock.Parsers.map (fun p => p.TxHash)).Nodup ∧
      ∃ e, Demo.twinBlock.CheckBlock Demo.env Demo.store0 = some e :=
  ⟨by decide!,
    (C13_accepted_block_has_distinct_hashes Demo.env Demo.store0 Demo.pairBlock).1 (by decide!),
    by decide,
    (C13_accepted_block_has_distinct_hashes Demo.env Demo.store0 Demo.twinBlock).2 (by decide)⟩

/-! ## C14: the quota -/

theorem counterGet_counterIncr_same (m : List (Int × Int)) (k : Int) :
    counterGet (counterIncr m k) k = counterGet m k + 1 := by
  induction m with
  | nil => simp [counterIncr, counterGet]
  | cons a rest ih =>
    obtain ⟨k1, v⟩ := a
    unfold counterIncr
    by_cases h : k1 = k
    · simp [counterGet, h]
    · simp [counterGet, h, ih]

theorem counterGet_counterIncr_other (m : List (Int × Int)) (k u : Int) (hne : u ≠ k) :
    counterGet (counterIncr m k) u = counterGet m u := by
  have hku : ¬ k = u := fun h => hne h.symm
  induction m with
  | nil => simp [counterIncr, counterGet, hku]
  | cons a rest ih =>
    obtain ⟨k1, v⟩ := a
    unfold counterIncr
    by_cases h : k1 = k
    · subst h
      simp [counterGet, hku]
    · by_cases h2 : k1 = u
      · subst h2
        simp [counterGet, h]
      · simp [counterGet, h, h2, ih]

/-- Two hexadecimal digits determine the byte. -/
theorem hexDigits_injective (a b : Byte)
    (h1 : (if a.val / 16 < 10 then (Fin.ofNat (48 + a.val / 16) : Byte)
            else Fin.ofNat (87 + a.val / 16)) =
          (if b.val / 16 < 10 then (Fin.ofNat (48 + b.val / 16) : Byte)
            else Fin.ofNat (87 + b.val / 16)))
    (h2 : (if a.val % 16 < 10 then (Fin.ofNat (48 + a.val % 16) : Byte)
            else Fin.ofNat (87 + a.val % 16)) =
          (if b.val % 16 < 10 then (Fin.ofNat (48 + b.val % 16) : Byte)
            else Fin.ofNat (87 + b.val % 16))) : a = b := by
  have key : ∀ x y : Fin 16,
      (if x.val < 10 then (Fin.ofNat (48 + x.val) : Byte) else Fin.ofNat (87 + x.val)) =
        (if y.val < 10 then (Fin.ofNat (48 + y.val) : Byte) else Fin.ofNat (87 + y.val)) →
      x = y := by decide
  have ha := a.isLt
  have hb := b.isLt
  have e1 := key ⟨a.val / 16, by omega⟩ ⟨b.val / 16, by omega⟩ h1
  have e2 := key ⟨a.val % 16, by omega⟩ ⟨b.val % 16, by omega⟩ h2
  simp only [Fin.mk.injEq] at e1 e2
  apply Fin.ext
  omega

/-- The hexadecimal form determines the bytes. -/
theorem BinToHex_injective : ∀ x y : Bytes, BinToHex x = BinToHex y → x = y := by
  intro x
  induction x with
  | nil =>
    intro y h
    cases y with
    | nil => rfl
    | cons b bs => simp [BinToHex] at h
  | cons a as ih =>
    intro y h
    cases y with
    | nil => simp [BinToHex] at h
    | cons b bs =>
      simp only [BinToHex, List.flatMap_cons, List.cons_append, List.nil_append,
        List.cons.injEq] at h
      obtain ⟨h1, h2, h3⟩ := h
      have hab := hexDigits_injective a b h1 h2
      have := ih bs (by simpa [BinToHex] using h3)
      rw [hab, this]
theorem userTxCount_cons (u : Int) (p : Parser) (rest : List Parser) :
    userTxCount u (p :: rest) = (if p.TxUserID = u then 1 else 0) + userTxCount u rest := by
  unfold userTxCount
  by_cases h : p.TxUserID = u
  · simp [List.filter_cons, h]; omega
  · simp [List.filter_cons, h]

/-- The loop of `CheckBlock` on transactions with fresh, distinct hashes that pass
`checkTransaction` one by one: when the count of some user, added to what the map
holds for that user, exceeds the quota, the loop returns the quota error. -/
theorem checkParsers_quota (env : Env) (s : Store) (block : Block) :
    ∀ (ps : List Parser) (txCounter : List (Int × Int)) (txHashes : List Bytes),
      (∀ p ∈ ps, BinToHex p.TxHash ∉ txHashes) →
      (ps.map (fun p => BinToHex p.TxHash)).Nodup →
      (∀ p ∈ ps, checkTransaction env s p block.Header.Time false = none) →
      (∃ u, 0 < userTxCount u ps ∧
        counterGet txCounter u + (userTxCount u ps : Int) > env.maxBlockUserTx) →
      checkParsers env s block ps txCounter txHashes =
        some (ErrInfo "max_block_user_transactions") := by
  intro ps
  induction ps with
  | nil =>
    intro _ _ _ _ _ hu
    obtain ⟨u, h1, -⟩ := hu
    simp [userTxCount] at h1
  | cons p rest ih =>
    intro txCounter txHashes hfresh hnd hcheck hu
    obtain ⟨u, hpos, hgt⟩ := hu
    have hp : ¬ txHashes.contains (BinToHex p.TxHash) = true := by
      have := hfresh p (List.mem_cons_self _ _)
      simpa using this
    unfold checkParsers
    simp only [hp, if_false, Bool.false_eq_true]
    by_cases hq : counterGet (counterIncr txCounter p.TxUserID) p.TxUserID > env.maxBlockUserTx
    · simp only [hq, if_true]
    · simp only [hq, if_false, hcheck p (List.mem_cons_self _ _)]
      simp only [List.map_cons, List.nodup_cons] at hnd
      apply ih
      · intro q hqm hc
        rcases List.mem_cons.mp hc with h1 | h1
        · exact hnd.1 (List.mem_map.mpr ⟨q, hqm, h1⟩)
        · exact hfresh q (List.mem_cons_of_mem _ hqm) h1
      · exact hnd.2
      · intro q hqm
        exact hcheck q (List.mem_cons_of_mem _ hqm)
      · rw [userTxCount_cons] at hpos hgt
        by_cases hpu : p.TxUserID = u
        · subst hpu
          simp only [if_true] at hpos hgt
          rw [counterGet_counterIncr_same] at hq
          refine ⟨p.TxUserID, ?_, ?_⟩
          · by_contra hz
            have hz0 : userTxCount p.TxUserID rest = 0 := by omega
            rw [hz0] at hgt
            push_cast at hgt
            omega
          · rw [counterGet_counterIncr_same]
            push_cast at hgt
            omega
        · simp only [hpu, if_false] at hpos hgt
          have hne : u ≠ p.TxUserID := fun h => hpu h.symm
          refine ⟨u, by omega, ?_⟩
          rw [counterGet_counterIncr_other _ _ _ hne]
          push_cast at hgt
          omega

/-- Claim C14: a block that passes the sequence and inter-block time tests, whose
transactions have pairwise distinct hashes and pass `checkTransaction` one by one, and
in which one user has at least `max_block_user_tx + 1` transactions (the quota not being
negative), gets the quota error from `CheckBlock`; `InsertBlock` then returns this error
with the storage as parsing left it, in which every call made is one of parsing: nothing
was executed. -/
theorem C14_quota_exceeded_rejected (env : Env) (s : Store) (block : Block) (user : Int)
    (hseq : block.checkSequence env s = none)
    (hdistinct : (block.Parsers.map (fun p => p.TxHash)).Nodup)
    (hcheck : ∀ p ∈ block.Parsers, checkTransaction env s p block.Header.Time false = none)
    (hmax : 0 ≤ env.maxBlockUserTx)
    (hcount : (userTxCount user block.Parsers : Int) ≥ env.maxBlockUserTx + 1) :
    block.CheckBlock env s = some (ErrInfo "max_block_user_transactions") ∧
      ∀ s0 data, ProcessBlock env s0 data = (Res.ok block, s) →
        InsertBlock env s0 data = (Res.error (ErrInfo "max_block_user_transactions"), s) ∧
        ∃ delta, s0.Extends s delta ∧ (∀ c ∈ delta, isParseCall c = true) ∧
          ∀ c ∈ delta, ∀ p, isExecCall p c = false := by
  have hcb : block.CheckBlock env s = some (ErrInfo "max_block_user_transactions") := by
    rw [Block.CheckBlock_stages, hseq]
    simp only [Block.checkTransactionsAndHash]
    have hq := checkParsers_quota env s block block.Parsers [] [] (by simp)
      (by
        have hm : block.Parsers.map (fun p => BinToHex p.TxHash) =
            (block.Parsers.map (fun p => p.TxHash)).map BinToHex := by
          simp [List.map_map, Function.comp_def]
        rw [hm]
        exact List.Nodup.map (fun x y h => BinToHex_injective x y h) hdistinct)
      hcheck ⟨user, by omega, by simp only [counterGet]; omega⟩
    rw [hq]
  refine ⟨hcb, ?_⟩
  intro s0 data hpb
  refine ⟨?_, ?_⟩
  · unfold InsertBlock
    rw [hpb]
    simp only [hcb]
  · obtain ⟨delta, hext, hparse⟩ := ProcessBlock_extends env s0 data
    rw [hpb] at hext
    refine ⟨delta, hext, hparse, ?_⟩
    intro c hc p
    have h1 := hparse c hc
    obtain ⟨op, ok⟩ := c
    cases op with
    | callContract h txHash flags writes =>
      cases h with
      | nil =>
        simp only [isParseCall, beq_iff_eq] at h1
        subst h1
        simp [isExecCall, parseFlags, playFlags]
      | tx => simp [isParseCall] at h1
    | action h txHash writes => simp [isParseCall] at h1
    | _ => simp [isExecCall]
/-- Witness for C14: the first block `Demo.sameAuthor` carries three transactions of
user 9 where the quota is 2; `InsertBlock` returns the quota error and leaves the
storage as `ProcessBlock` left it. -/
theorem C14_quota_exceeded_rejected_witness :
    userTxCount 9 (Demo.processed Demo.sameAuthor).Parsers = 3 ∧
      Demo.env.maxBlockUserTx = 2 ∧
      (Demo.processed Demo.sameAuthor).CheckBlock Demo.env
          (ProcessBlock Demo.env Demo.store0 Demo.sameAuthor).2 =
        some "max_block_user_transactions" ∧
      InsertBlock Demo.env Demo.store0 Demo.sameAuthor =
        (Res.error "max_block_user_transactions",
          (ProcessBlock Demo.env Demo.store0 Demo.sameAuthor).2) :=
  have h := C14_quota_exceeded_rejected Demo.env
    (ProcessBlock Demo.env Demo.store0 Demo.sameAuthor).2 (Demo.processed Demo.sameAuthor) 9
    (by decide!) (by decide!) (by decide!) (by decide) (by decide!)
  ⟨by decide!, by decide, h.1, (h.2 Demo.store0 Demo.sameAuthor (by decide!)).1⟩

/-! ## C15: the key of the quota counter -/

theorem parseContractTransaction_user (env : Env) (p q : Parser) (buf : Bytes)
    (h : parseContractTransaction env p buf = .ok q) : q.TxUserID = p.TxUserID := by
  unfold parseContractTransaction at h
  split at h
  · simp at h
  · dsimp only at h
    split at h
    · simp at h
    · split at h
      · simp only [Except.ok.injEq] at h
        subst h
        rfl
      · split at h
        · simp at h
        · simp only [Except.ok.injEq] at h
          subst h
          rfl

/-- A record of the contract dialect leaves `ParseTransaction` with `TxUserID` 0,
whatever user its envelope names. -/
theorem ParseTransaction_contract_user (env : Env) (s s1 : Store) (b : Byte) (rest : Bytes)
    (p : Parser) (hc : IsContractTransaction b.val = true)
    (h : ParseTransaction env s (b :: rest) = (some p, none, s1)) : p.TxUserID = 0 := by
  unfold ParseTransaction at h
  split at h
  · simp at h
  · rename_i b1 rest1 heq
    simp only [List.cons.injEq] at heq
    obtain ⟨hb, hr⟩ := heq
    subst hb
    subst hr
    split at h
    · simp at h
    · dsimp only at h
      simp only [hc, if_true] at h
      split at h
      · simp at h
      · rename_i p2 hp2
        split at h
        · simp at h
        · simp only [Prod.mk.injEq, Option.some.injEq] at h
          rw [← h.1, parseContractTransaction_user _ _ _ _ hp2]
          rfl

/-- Claim C15, at the failing input: the three transactions of `Demo.threeAuthors` are
of the contract dialect and their envelopes name the users 1, 2 and 3; `parseBlock`
leaves `TxUserID` 0 on each, so where the quota is 2 `CheckBlock` counts three
transactions for user 0 and returns the quota error, and `InsertBlock` rejects the
block. -/
theorem C15_distinct_authors_rejected_for_quota :
    (parseBlock Demo.env Demo.store0 Demo.threeAuthors).1 =
        Res.ok (Demo.parsed Demo.threeAuthors) ∧
      (Demo.parsed Demo.threeAuthors).Parsers.map
          (fun p => p.TxSmart.map (fun c => c.Header.UserID)) = [some 1, some 2, some 3] ∧
      (Demo.parsed Demo.threeAuthors).Parsers.map (fun p => p.TxUserID) = [0, 0, 0] ∧
      Demo.env.maxBlockUserTx = 2 ∧
      (Demo.parsed Demo.threeAuthors).CheckBlock Demo.env
          (parseBlock Demo.env Demo.store0 Demo.threeAuthors).2 =
        some "max_block_user_transactions" ∧
      (InsertBlock Demo.earlyEnv Demo.store0 Demo.threeAuthors).1 =
        Res.error "max_block_user_transactions" := by
  refine ⟨by decide!, by decide!, by decide!, by decide, by decide!, by decide!⟩

/-! ## C16, C17, C18: sequence, time between blocks, wall clock -/

/-- A value in the signed 64-bit range is not changed by the wraparound. -/
theorem wrapInt64_of_range (x : Int) (h1 : -9223372036854775808 ≤ x)
    (h2 : x < 9223372036854775808) : wrapInt64 x = x := by
  unfold wrapInt64
  omega

/-- Claim C16: for a block with a previous header whose id is the successor of the
previous id, and with `sleepTime` the answer of the scheduler, `CheckBlock` returns the
too-early error exactly when `prev.time + sleepTime - block.time`, computed as the source
computes it in signed 64-bit arithmetic, is greater than `ERROR_TIME`; otherwise the
first stage passes and the answer is that of the remaining tests. Where neither the sum
nor the difference leaves the signed 64-bit range the computed value is the integer
`prev.time + sleepTime - block.time`, so a difference equal to `ERROR_TIME` passes and a
difference of `ERROR_TIME + 1` is rejected. -/
theorem C16_block_time_boundary (env : Env) (s : Store) (block : Block) (prev : BlockData)
    (sleepTime : Int) (hprev : block.PrevHeader = some prev)
    (hid : block.Header.BlockID = wrapInt64 (prev.BlockID + 1))
    (hsleep : env.getSleepTime s block.Header.WalletID block.Header.StateID prev.StateID
      prev.WalletID = .ok sleepTime) :
    (wrapInt64 (wrapInt64 (prev.Time + sleepTime) - block.Header.Time) > env.ERROR_TIME →
        block.CheckBlock env s = some (ErrInfo "incorrect block time")) ∧
      (¬ wrapInt64 (wrapInt64 (prev.Time + sleepTime) - block.Header.Time) > env.ERROR_TIME →
        block.checkSequence env s = none ∧
        block.CheckBlock env s = block.checkTransactionsAndHash env s) ∧
      (-9223372036854775808 ≤ prev.Time + sleepTime ∧
        prev.Time + sleepTime < 9223372036854775808 ∧
        -9223372036854775808 ≤ prev.Time + sleepTime - block.Header.Time ∧
        prev.Time + sleepTime - block.Header.Time < 9223372036854775808 →
        wrapInt64 (wrapInt64 (prev.Time + sleepTime) - block.Header.Time) =
            prev.Time + sleepTime - block.Header.Time ∧
          (prev.Time + sleepTime - block.Header.Time = env.ERROR_TIME →
            block.CheckBlock env s = block.checkTransactionsAndHash env s) ∧
          (prev.Time + sleepTime - block.Header.Time = env.ERROR_TIME + 1 →
            block.CheckBlock env s = some (ErrInfo "incorrect block time"))) := by
  have hbig : wrapInt64 (wrapInt64 (prev.Time + sleepTime) - block.Header.Time) >
      env.ERROR_TIME → block.CheckBlock env s = some (ErrInfo "incorrect block time") := by
    intro h
    rw [Block.CheckBlock_stages]
    simp only [Block.checkSequence, hprev, hid, hsleep, h, ne_eq, not_true_eq_false, if_false,
      if_true]
  have hsmall : ¬ wrapInt64 (wrapInt64 (prev.Time + sleepTime) - block.Header.Time) >
      env.ERROR_TIME → block.checkSequence env s = none ∧
        block.CheckBlock env s = block.checkTransactionsAndHash env s := by
    intro h
    have hs : block.checkSequence env s = none := by
      simp only [Block.checkSequence, hprev, hid, hsleep, h, ne_eq, not_true_eq_false,
        if_false]
    exact ⟨hs, by rw [Block.CheckBlock_stages, hs]⟩
  refine ⟨hbig, hsmall, ?_⟩
  rintro ⟨h1, h2, h3, h4⟩
  have hw : wrapInt64 (wrapInt64 (prev.Time + sleepTime) - block.Header.Time) =
      prev.Time + sleepTime - block.Header.Time := by
    rw [wrapInt64_of_range _ h1 h2, wrapInt64_of_range _ h3 h4]
  refine ⟨hw, ?_, ?_⟩
  · intro he
    exact (hsmall (by rw [hw, he]; omega)).2
  · intro he
    exact hbig (by rw [hw, he]; omega)

/-- Witness for C16: `Demo.onTimeBlock`, at a difference of 1 where the allowed error is
1, passes the first stage, and `Demo.earlyBlock`, at a difference of 2, gets the
too-early error. -/
theorem C16_block_time_boundary_witness :
    Demo.env.ERROR_TIME = 1 ∧
      Demo.onTimeBlock.checkSequence Demo.env Demo.store0 = none ∧
      Demo.earlyBlock.CheckBlock Demo.env Demo.store0 = some "incorrect block time" :=
  ⟨rfl,
    ((C16_block_time_boundary Demo.env Demo.store0 Demo.onTimeBlock
      { BlockData.zero with BlockID := 1, Time := 1400000000, Hash := [7] } 1 rfl
      (by decide) rfl).2.1 (by decide)).1,
    (C16_block_time_boundary Demo.env Demo.store0 Demo.earlyBlock
      { BlockData.zero with BlockID := 1, Time := 1400000000, Hash := [7] } 1 rfl
      (by decide) rfl).1 (by decide)⟩

/-- Claim C17: a block with a previous header whose id differs from the successor of
the previous id, as the source computes it in signed 64-bit arithmetic, gets the
sequence error from `CheckBlock`, whatever the environment and the storage: the
scheduler, the node key store and the signature check are not consulted. -/
theorem C17_sequence_gap_rejected (env : Env) (s : Store) (block : Block) (prev : BlockData)
    (hprev : block.PrevHeader = some prev)
    (hgap : block.Header.BlockID ≠ wrapInt64 (prev.BlockID + 1)) :
    block.CheckBlock env s =
        some (ErrInfo ("incorrect block_id " ++ toString block.Header.BlockID ++ " != " ++
          toString prev.BlockID ++ " +1")) ∧
      ∀ (env1 : Env) (s1 : Store), block.CheckBlock env1 s1 = block.CheckBlock env s := by
  have h : ∀ (env1 : Env) (s1 : Store), block.CheckBlock env1 s1 =
      some (ErrInfo ("incorrect block_id " ++ toString block.Header.BlockID ++ " != " ++
        toString prev.BlockID ++ " +1")) := by
    intro env1 s1
    rw [Block.CheckBlock_stages]
    simp only [Block.checkSequence, hprev, hgap, ne_eq, not_false_eq_true, if_true]
  exact ⟨h env s, fun env1 s1 => by rw [h env1 s1, h env s]⟩

/-- Witness for C17: `Demo.gapBlock` has id 5 after a previous header of id 1. -/
theorem C17_sequence_gap_rejected_witness :
    Demo.gapBlock.CheckBlock Demo.env Demo.store0 = some "incorrect block_id 5 != 1 +1" :=
  (C17_sequence_gap_rejected Demo.env Demo.store0 Demo.gapBlock
    { BlockData.zero with BlockID := 1, Time := 1400000000, Hash := [7] } rfl
    (by decide)).1

theorem checkParsers_now (env : Env) (s : Store) (block : Block) (now : Int) :
    ∀ (ps : List Parser) (txCounter : List (Int × Int)) (txHashes : List Bytes),
      checkParsers { env with now := now } s block ps txCounter txHashes =
        checkParsers env s block ps txCounter txHashes := by
  intro ps
  induction ps with
  | nil => intro _ _; rfl
  | cons p rest ih =>
    intro txCounter txHashes
    unfold checkParsers
    simp only [ih]
    rfl

/-- Claim C18: the answer of `CheckBlock` does not depend on the wall clock: for every
block, environment and storage, and any two values of `now()`, it is the same; a header
time later than `now()` changes nothing. -/
theorem C18_wall_clock_not_enforced (env : Env) (s : Store) (block : Block)
    (now1 now2 : Int) :
    block.CheckBlock { env with now := now1 } s = block.CheckBlock { env with now := now2 } s := by
  have h : ∀ now : Int, block.CheckBlock { env with now := now } s = block.CheckBlock env s := by
    intro now
    rw [Block.CheckBlock_stages, Block.CheckBlock_stages]
    have h1 : Block.checkSequence { env with now := now } s block =
        Block.checkSequence env s block := rfl
    have h2 : Block.checkTransactionsAndHash { env with now := now } s block =
        Block.checkTransactionsAndHash env s block := by
      unfold Block.checkTransactionsAndHash
      rw [checkParsers_now]
      rfl
    rw [h1, h2]
  rw [h now1, h now2]

/-! ## C19, C20: the tests of `checkTransaction` -/

/-- Counterexample to C19 as stated: with both constants at the largest signed 64-bit
value the time -5 lies inside the window around the block time 1400000005, and
`checkTransaction` rejects it as too big: `tx.time - MAX_TX_FORW` wraps around. -/
theorem C19_time_inside_window_rejected :
    0 < Demo.wideEnv.MAX_TX_FORW ∧ 0 < Demo.wideEnv.MAX_TX_BACK ∧
      (1400000005 - Demo.wideEnv.MAX_TX_BACK ≤ (-5 : Int) ∧
        (-5 : Int) ≤ 1400000005 + Demo.wideEnv.MAX_TX_FORW) ∧
      Demo.wideEnv.checkLogTx Demo.store0 [5, 9, 9, 1, 1] false false = none ∧
      checkTransaction Demo.wideEnv Demo.store0
          { Demo.regularRecord [1] [5, 9, 9, 1, 1] with TxTime := -5 } 1400000005 false =
        some "transaction time is too big" := by
  refine ⟨by decide, by decide, by decide, by decide, by decide⟩

/-- Claim C19, amended: for a signed 64-bit transaction time, a block time in the u32
range and positive signed 64-bit constants, a transaction that passed the log test and
whose time lies outside the window `block.time - MAX_TX_BACK <= tx.time <=
block.time + MAX_TX_FORW`, taken over the integers, gets one of the two time errors:
wraparound lets no such time through. A time inside the window passes both time tests
(the answer is that of the author test) when `MAX_TX_FORW + MAX_TX_BACK` is at most
2^63. -/
theorem C19_time_window (env : Env) (s : Store) (p : Parser) (checkTime : Int) (dup : Bool)
    (hlog : env.checkLogTx s p.TxFullData dup false = none)
    (htx : -9223372036854775808 ≤ p.TxTime ∧ p.TxTime < 9223372036854775808)
    (hblock : 0 ≤ checkTime ∧ checkTime < 4294967296)
    (hforw : 0 < env.MAX_TX_FORW ∧ env.MAX_TX_FORW < 9223372036854775808)
    (hback : 0 < env.MAX_TX_BACK ∧ env.MAX_TX_BACK < 9223372036854775808) :
    (¬ (checkTime - env.MAX_TX_BACK ≤ p.TxTime ∧ p.TxTime ≤ checkTime + env.MAX_TX_FORW) →
        checkTransaction env s p checkTime dup = some (ErrInfo "transaction time is too big") ∨
        checkTransaction env s p checkTime dup = some (ErrInfo "incorrect transaction time")) ∧
      (env.MAX_TX_FORW + env.MAX_TX_BACK ≤ 9223372036854775808 →
        checkTime - env.MAX_TX_BACK ≤ p.TxTime ∧ p.TxTime ≤ checkTime + env.MAX_TX_FORW →
        checkTransaction env s p checkTime dup = checkAuthor p) := by
  have hw2 : wrapInt64 (checkTime - env.MAX_TX_BACK) = checkTime - env.MAX_TX_BACK :=
    wrapInt64_of_range _ (by omega) (by omega)
  refine ⟨?_, ?_⟩
  · intro hout
    by_cases c1 : wrapInt64 (p.TxTime - env.MAX_TX_FORW) > checkTime
    · left
      simp only [checkTransaction, hlog, c1, if_true]
    · right
      have c2 : p.TxTime < wrapInt64 (checkTime - env.MAX_TX_BACK) := by
        rw [hw2]
        unfold wrapInt64 at c1
        omega
      simp only [checkTransaction, hlog, c1, c2, if_true, if_false]
  · intro hsum hin
    have c1 : ¬ wrapInt64 (p.TxTime - env.MAX_TX_FORW) > checkTime := by
      rw [wrapInt64_of_range _ (by omega) (by omega)]
      omega
    have c2 : ¬ p.TxTime < wrapInt64 (checkTime - env.MAX_TX_BACK) := by
      rw [hw2]
      omega
    simp only [checkTransaction, hlog, c1, c2, if_false, checkAuthor]

/-- Witness for C19: with 600 seconds forward and 86400 back, the time 1400000001 of
`Demo.regularRecord` lies inside the window around the block time 1400000005 and passes
the time tests; the time 1400001000 lies outside and gets a time error. -/
theorem C19_time_window_witness :
    checkTransaction Demo.forwardEnv Demo.store0 (Demo.regularRecord [1] [5, 9, 9, 1, 1])
        1400000005 false = checkAuthor (Demo.regularRecord [1] [5, 9, 9, 1, 1]) ∧
      (checkTransaction Demo.forwardEnv Demo.store0
          { Demo.regularRecord [1] [5, 9, 9, 1, 1] with TxTime := 1400001000 }
          1400000005 false = some (ErrInfo "transaction time is too big") ∨
        checkTransaction Demo.forwardEnv Demo.store0
          { Demo.regularRecord [1] [5, 9, 9, 1, 1] with TxTime := 1400001000 }
          1400000005 false = some (ErrInfo "incorrect transaction time")) :=
  ⟨(C19_time_window Demo.forwardEnv Demo.store0 (Demo.regularRecord [1] [5, 9, 9, 1, 1])
      1400000005 false rfl (by decide) (by decide) (by decide) (by decide)).2
      (by decide) (by decide),
    (C19_time_window Demo.forwardEnv Demo.store0
      { Demo.regularRecord [1] [5, 9, 9, 1, 1] with TxTime := 1400001000 }
      1400000005 false rfl (by decide) (by decide) (by decide) (by decide)).1 (by decide)⟩

theorem parseContractTransaction_block (env : Env) (p q : Parser) (buf : Bytes)
    (h : parseContractTransaction env p buf = .ok q) : q.BlockData = p.BlockData := by
  unfold parseContractTransaction at h
  split at h
  · simp at h
  · dsimp only at h
    split at h
    · simp at h
    · split at h
      · simp only [Except.ok.injEq] at h
        subst h
        rfl
      · split at h
        · simp at h
        · simp only [Except.ok.injEq] at h
          subst h
          rfl

theorem parseStructTransaction_block (env : Env) (p q : Parser) (buf : Bytes) (txType : Int)
    (h : parseStructTransaction env p buf txType = .ok q) : q.BlockData = p.BlockData := by
  unfold parseStructTransaction at h
  split at h
  · simp at h
  · dsimp only at h
    split at h
    · simp at h
    · simp only [Except.ok.injEq] at h
      subst h
      rfl

theorem parseRegularTransaction_block (env : Env) (s : Store) (p : Parser) (txType : Int) :
    (parseRegularTransaction env s p txType).1.BlockData = p.BlockData := by
  unfold parseRegularTransaction
  split
  · rfl
  · dsimp only
    split
    · rfl
    · split
      · rfl
      · split <;> rfl

/-- A record `ParseTransaction` returns has no block attached. -/
theorem ParseTransaction_no_block (env : Env) (s s1 : Store) (buffer : Bytes) (p : Parser)
    (e : Option Err) (h : ParseTransaction env s buffer = (some p, e, s1)) :
    p.BlockData = none := by
  unfold ParseTransaction at h
  split at h
  · simp at h
  · split at h
    · simp at h
    · dsimp only at h
      split at h
      · split at h
        · simp at h
        · rename_i p2 hp2
          split at h
          · simp at h
          · simp only [Prod.mk.injEq, Option.some.injEq] at h
            rw [← h.1, parseContractTransaction_block _ _ _ _ hp2]
            rfl
      · split at h
        · split at h
          · simp at h
          · rename_i p2 hp2
            simp only [Prod.mk.injEq, Option.some.injEq] at h
            rw [← h.1, parseStructTransaction_block _ _ _ _ _ hp2]
            rfl
        · split at h
          · rename_i p2 e2 hp2
            simp only [Prod.mk.injEq, Option.some.injEq] at h
            have hb := congrArg (fun r => r.1.BlockData) hp2
            simp only [parseRegularTransaction_block] at hb
            rw [← h.1, ← hb]
            rfl
          · rename_i p2 hp2
            simp only [Prod.mk.injEq, Option.some.injEq] at h
            have hb := congrArg (fun r => r.1.BlockData) hp2
            simp only [parseRegularTransaction_block] at hb
            rw [← h.1, ← hb]
            rfl

/-- Claim C20: for a transaction that passes the log test and the two time tests, the
answer of `checkTransaction` is that of the author test. With no resolved contract and
a block attached whose id is not 1, it is an error exactly when `TxUserID` is 0; with a
resolved contract, with block 1 attached, or with no block attached it is never an
error, and the record `CheckTransaction` checks, the one `ParseTransaction` returned,
has no block attached. -/
theorem C20_empty_author (env : Env) (s : Store) (p : Parser) (checkTime : Int) (dup : Bool)
    (hlog : env.checkLogTx s p.TxFullData dup false = none)
    (hforw : ¬ wrapInt64 (p.TxTime - env.MAX_TX_FORW) > checkTime)
    (hback : ¬ p.TxTime < wrapInt64 (checkTime - env.MAX_TX_BACK)) :
    (∀ blockData, p.TxContract = none → p.BlockData = some blockData →
        blockData.BlockID ≠ 1 →
        ((∃ e, checkTransaction env s p checkTime dup = some e) ↔ p.TxUserID = 0) ∧
        (p.TxUserID = 0 →
          checkTransaction env s p checkTime dup = some (ErrInfo "emtpy user id"))) ∧
      (p.TxContract ≠ none → checkTransaction env s p checkTime dup = none) ∧
      (∀ blockData, p.BlockData = some blockData → blockData.BlockID = 1 →
        checkTransaction env s p checkTime dup = none) ∧
      (p.BlockData = none → checkTransaction env s p checkTime dup = none) ∧
      (∀ (s0 s1 : Store) (data : Bytes) (e : Option Err),
        ParseTransaction env s0 data = (some p, e, s1) → p.BlockData = none) := by
  have hct : checkTransaction env s p checkTime dup = checkAuthor p := by
    simp only [checkTransaction, hlog, hforw, hback, if_false, checkAuthor]
  rw [hct]
  refine ⟨?_, ?_, ?_, ?_, ?_⟩
  · intro blockData hc hb hid
    by_cases hu : p.TxUserID = 0
    · simp [checkAuthor, hc, hb, hid, hu]
    · simp [checkAuthor, hc, hb, hid, hu]
  · intro hc
    cases hcc : p.TxContract with
    | none => exact absurd hcc hc
    | some c => simp [checkAuthor, hcc]
  · intro blockData hb hid
    cases hcc : p.TxContract <;> simp [checkAuthor, hcc, hb, hid]
  · intro hb
    cases hcc : p.TxContract <;> simp [checkAuthor, hcc, hb]
  · intro s0 s1 data e h
    exact ParseTransaction_no_block _ _ _ _ _ _ h

/-- Witness for C20: `Demo.regularRecord` has no resolved contract and block 2
attached; with `TxUserID` 0 it is rejected for the empty author. -/
theorem C20_empty_author_witness :
    checkTransaction Demo.env Demo.store0
        { Demo.regularRecord [1] [5, 9, 9, 1, 1] with TxUserID := 0 } 1400000005 false =
      some (ErrInfo "emtpy user id") :=
  ((C20_empty_author Demo.env Demo.store0
    { Demo.regularRecord [1] [5, 9, 9, 1, 1] with TxUserID := 0 } 1400000005 false rfl
    (by decide) (by decide)).1 Demo.secondHeader rfl rfl (by decide)).2 rfl

/-! ## C21: the parameters of a contract transaction -/

theorem getKey_setKey_same {α : Type} (m : List (String × α)) (key : String) (v : α) :
    getKey (setKey m key v) key = some v := by
  induction m with
  | nil => simp [setKey, getKey]
  | cons a rest ih =>
    obtain ⟨k, w⟩ := a
    unfold setKey
    by_cases h : k = key
    · simp [getKey, h]
    · simp [getKey, h, ih]

theorem getKey_setKey_other {α : Type} (m : List (String × α)) (key other : String) (v : α)
    (hne : other ≠ key) : getKey (setKey m key v) other = getKey m other := by
  induction m with
  | nil =>
    have : ¬ key = other := fun h => hne h.symm
    simp [setKey, getKey, this]
  | cons a rest ih =>
    obtain ⟨k, w⟩ := a
    unfold setKey
    by_cases h : k = key
    · subst h
      have : ¬ k = other := fun h => hne h.symm
      simp [getKey, this]
    · by_cases h2 : k = other
      · subst h2
        simp [getKey, h]
      · simp [getKey, h, h2, ih]

/-- Where the reference decodes a parameter, the loop decodes the same value with no
pending error, and what it appends to the sign-string is the reference rendering. -/
theorem decodeField_of_decodeParam (env : Env) (fitem : FieldInfo) (input rest : Bytes)
    (v : Value) (h : decodeParam env fitem input = .ok (v, rest)) :
    ∃ forv, decodeField env fitem input = .ok (v, none, forv, rest) ∧
      (match forv with
        | some f => f
        | none => fmtValue env v) = renderValue env v := by
  unfold decodeParam at h
  unfold decodeField
  split at h
  · rename_i ht
    simp only [ht, if_true]
    split at h
    · simp at h
    · rename_i val r hr
      simp only [Except.ok.injEq, Prod.mk.injEq] at h
      obtain ⟨h1, h2⟩ := h
      subst h1; subst h2
      exact ⟨none, by simp [hr], rfl⟩
  · rename_i ht1
    simp only [ht1, if_false]
    split at h
    · rename_i ht
      simp only [ht, if_true]
      split at h
      · simp at h
      · rename_i val r hr
        simp only [Except.ok.injEq, Prod.mk.injEq] at h
        obtain ⟨h1, h2⟩ := h
        subst h1; subst h2
        exact ⟨none, by simp [hr], rfl⟩
    · rename_i ht2
      simp only [ht2, if_false]
      split at h
      · rename_i ht
        simp only [ht, if_true]
        split at h
        · simp at h
        · rename_i val r hr
          simp only [Except.ok.injEq, Prod.mk.injEq] at h
          obtain ⟨h1, h2⟩ := h
          subst h1; subst h2
          exact ⟨none, by simp [hr], rfl⟩
      · rename_i ht3
        simp only [ht3, if_false]
        split at h
        · rename_i ht
          simp only [ht, if_true]
          split at h
          · simp at h
          · rename_i str r hr
            split at h
            · simp at h
            · rename_i d hd
              simp only [Except.ok.injEq, Prod.mk.injEq] at h
              obtain ⟨h1, h2⟩ := h
              subst h1; subst h2
              exact ⟨none, by simp [hr, hd], rfl⟩
        · rename_i ht4
          simp only [ht4, if_false]
          split at h
          · rename_i ht
            simp only [ht, if_true]
            split at h
            · simp at h
            · rename_i str r hr
              simp only [Except.ok.injEq, Prod.mk.injEq] at h
              obtain ⟨h1, h2⟩ := h
              subst h1; subst h2
              exact ⟨none, by simp [hr], rfl⟩
          · rename_i ht5
            simp only [ht5, if_false]
            split at h
            · rename_i ht
              simp only [ht, if_true]
              split at h
              · simp at h
              · rename_i b r hr
                simp only [Except.ok.injEq, Prod.mk.injEq] at h
                obtain ⟨h1, h2⟩ := h
                subst h1; subst h2
                exact ⟨none, by simp [hr], rfl⟩
            · rename_i ht6
              simp only [ht6, if_false]
              split at h
              · rename_i ht
                simp only [ht, if_true]
                split at h
                · simp at h
                · rename_i count input1 hc
                  split at h
                  · simp at h
                  · rename_i list r hr
                    simp only [Except.ok.injEq, Prod.mk.injEq] at h
                    obtain ⟨h1, h2⟩ := h
                    subst h1; subst h2
                    exact ⟨some (joinBytes (strBytes ",") list), by simp [hc, hr], rfl⟩
              · simp at h

/-- The field loop against the reference: where the reference decodes the region, the
loop returns the map with every value stored in declaration order and the sign-string
extended by the renderings of the parameters not tagged `image`. -/
theorem parseFields_of_decodeParams (env : Env) :
    ∀ (fields : List FieldInfo) (input rest : Bytes) (values : List Value)
      (txData : List (String × Value)) (forsign : Bytes),
      decodeParams env fields input = .ok (values, rest) →
      parseFields env fields input txData forsign =
        .ok ((fields.zip values).foldl (fun m fv => setKey m fv.1.Name fv.2) txData,
          signString env forsign fields values) := by
  intro fields
  induction fields with
  | nil =>
    intro input rest values txData forsign h
    simp only [decodeParams, Except.ok.injEq, Prod.mk.injEq] at h
    simp [parseFields, signString, ← h.1]
  | cons fitem tl ih =>
    intro input rest values txData forsign h
    simp only [decodeParams] at h
    split at h
    · simp at h
    · rename_i v input1 hv
      split at h
      · simp at h
      · rename_i vs input2 hvs
        simp only [Except.ok.injEq, Prod.mk.injEq] at h
        obtain ⟨h1, h2⟩ := h
        subst h1
        obtain ⟨forv, hf, hshown⟩ := decodeField_of_decodeParam env fitem input input1 v hv
        unfold parseFields
        simp only [hf]
        by_cases himg : containsStr fitem.Tags "image" = true
        · simp only [himg, if_true]
          rw [ih input1 input2 vs _ _ hvs]
          simp [signString, List.zip_cons_cons, List.filter_cons, himg]
        · simp only [himg, if_false, Bool.false_eq_true]
          rw [hshown, ih input1 input2 vs _ _ hvs]
          simp [signString, List.zip_cons_cons, List.filter_cons, himg, List.append_assoc]
theorem decodeParams_length (env : Env) :
    ∀ (fields : List FieldInfo) (input rest : Bytes) (values : List Value),
      decodeParams env fields input = .ok (values, rest) → values.length = fields.length := by
  intro fields
  induction fields with
  | nil =>
    intro input rest values h
    simp only [decodeParams, Except.ok.injEq, Prod.mk.injEq] at h
    simp [← h.1]
  | cons fitem tl ih =>
    intro input rest values h
    simp only [decodeParams] at h
    split at h
    · simp at h
    · split at h
      · simp at h
      · rename_i vs input2 hvs
        simp only [Except.ok.injEq, Prod.mk.injEq] at h
        rw [← h.1]
        simp [ih _ _ _ hvs]

/-- Storing under other names leaves a key as it was. -/
theorem getKey_foldl_other (key : String) :
    ∀ (pairs : List (FieldInfo × Value)) (m : List (String × Value)),
      (∀ fv ∈ pairs, fv.1.Name ≠ key) →
      getKey (pairs.foldl (fun m fv => setKey m fv.1.Name fv.2) m) key = getKey m key := by
  intro pairs
  induction pairs with
  | nil => intro m _; rfl
  | cons a tl ih =>
    intro m h
    simp only [List.foldl_cons]
    rw [ih _ (fun fv hfv => h fv (List.mem_cons_of_mem _ hfv))]
    exact getKey_setKey_other _ _ _ _ (fun hc => h a (List.mem_cons_self _ _) hc.symm)

/-- With pairwise distinct names every parameter is found under its name. -/
theorem getKey_foldl_mem :
    ∀ (pairs : List (FieldInfo × Value)) (m : List (String × Value)),
      (pairs.map (fun fv => fv.1.Name)).Nodup →
      ∀ fv ∈ pairs, getKey (pairs.foldl (fun m fv => setKey m fv.1.Name fv.2) m) fv.1.Name =
        some fv.2 := by
  intro pairs
  induction pairs with
  | nil => intro m _ fv hfv; simp at hfv
  | cons a tl ih =>
    intro m hnd fv hfv
    simp only [List.map_cons, List.nodup_cons] at hnd
    simp only [List.foldl_cons]
    rcases List.mem_cons.mp hfv with h1 | h1
    · subst h1
      rw [getKey_foldl_other]
      · exact getKey_setKey_same _ _ _
      · intro gw hgw hc
        exact hnd.1 (List.mem_map.mpr ⟨gw, hgw, hc⟩)
    · exact ih _ hnd.2 fv h1

/-- Claim C21: for a contract with declared parameters and a data region the reference
decodes, `parseContractTransaction` succeeds and leaves as `TxData` the map in which
every decoded value was stored under the name of its parameter, in declaration order,
image parameters included and a list as a list, and then, under `forsign`, the string
`smartTx.ForSign()` followed by a comma and the rendering of the value for every
parameter not tagged `image`, in declaration order. With pairwise distinct names other
than `forsign`, every parameter is found under its name. -/
theorem C21_contract_parameters (env : Env) (p : Parser) (buf rest : Bytes)
    (smartTx : SmartContract) (contract : Contract) (values : List Value)
    (hmsg : env.msgpackUnmarshal buf = .ok smartTx)
    (hcontract : env.getContractByID (toInt32 smartTx.Header.Typ) = some contract)
    (hdec : decodeParams env (contract.Tx.getD []) smartTx.Data = .ok (values, rest)) :
    ∃ q, parseContractTransaction env p buf = .ok q ∧
      q.TxData = setKey (storeParams (contract.Tx.getD []) values) "forsign"
        (Value.str (signString env (env.smartForSign smartTx) (contract.Tx.getD []) values)) ∧
      getKey q.TxData "forsign" =
        some (Value.str
          (signString env (env.smartForSign smartTx) (contract.Tx.getD []) values)) ∧
      values.length = (contract.Tx.getD []).length ∧
      (((contract.Tx.getD []).map (fun f => f.Name)).Nodup →
        "forsign" ∉ (contract.Tx.getD []).map (fun f => f.Name) →
        ∀ fv ∈ (contract.Tx.getD []).zip values, getKey q.TxData fv.1.Name = some fv.2) := by
  have hlen := decodeParams_length env _ _ _ _ hdec
  have hq : ∃ q, parseContractTransaction env p buf = .ok q ∧
      q.TxData = setKey (storeParams (contract.Tx.getD []) values) "forsign"
        (Value.str (signString env (env.smartForSign smartTx) (contract.Tx.getD []) values)) := by
    unfold parseContractTransaction
    simp only [hmsg, hcontract]
    cases hTx : contract.Tx with
    | none =>
      rw [hTx] at hdec
      simp only [Option.getD_none, decodeParams, Except.ok.injEq, Prod.mk.injEq] at hdec
      refine ⟨_, rfl, ?_⟩
      simp [storeParams, signString, ← hdec.1]
    | some fields =>
      rw [hTx] at hdec
      simp only [Option.getD_some] at hdec
      simp only [parseFields_of_decodeParams env fields _ _ _ _ _ hdec]
      exact ⟨_, rfl, rfl⟩
  obtain ⟨q, hq1, hq2⟩ := hq
  refine ⟨q, hq1, hq2, ?_, hlen, ?_⟩
  · rw [hq2]
    exact getKey_setKey_same _ _ _
  · intro hnd hfs fv hfv
    rw [hq2]
    have hmem : fv.1 ∈ contract.Tx.getD [] := (List.of_mem_zip hfv).1
    have hne : fv.1.Name ≠ "forsign" := by
      intro hc
      exact hfs (List.mem_map.mpr ⟨fv.1, hmem, hc⟩)
    rw [getKey_setKey_other _ _ _ _ hne]
    unfold storeParams
    apply getKey_foldl_mem _ _ _ fv hfv
    have hm : ((contract.Tx.getD []).zip values).map (fun fv => fv.1.Name) =
        (contract.Tx.getD []).map (fun f => f.Name) := by
      have h1 : ((contract.Tx.getD []).zip values).map (fun fv => fv.1.Name) =
          (((contract.Tx.getD []).zip values).map Prod.fst).map (fun f => f.Name) := by
        simp [List.map_map, Function.comp_def]
      rw [h1, List.map_fst_zip]
      omega
    rw [hm]
    exact hnd

/-- Witness for C21: the envelope `Demo.paramEnvelope` of a contract with a number, bytes
tagged `image`, a text and a list. The sign-string is `3,7` followed by `42`, `hi` and
`a,b`; the bytes are stored under `Photo` as hexadecimal text and are not signed. -/
theorem C21_contract_parameters_witness :
    ∃ q, parseContractTransaction Demo.paramEnv Parser.new Demo.paramEnvelope = .ok q ∧
      getKey q.TxData "forsign" = some (Value.str (strBytes "3,7,42,hi,a,b")) ∧
      getKey q.TxData "Amount" = some (Value.uint64 42) ∧
      getKey q.TxData "Photo" = some (Value.str (strBytes "abcd")) ∧
      getKey q.TxData "Note" = some (Value.str (strBytes "hi")) ∧
      getKey q.TxData "Items" = some (Value.list [strBytes "a", strBytes "b"]) := by
  obtain ⟨q, h1, -, h3, -, h5⟩ := C21_contract_parameters Demo.paramEnv Parser.new
    Demo.paramEnvelope []
    { Header := { Typ := 3, Time := 7, UserID := 9, StateID := 0, PublicKey := [],
                  BinSignatures := [] },
      Data := [0, 0, 0, 0, 0, 0, 0, 42, 2, 171, 205, 2, 104, 105, 2, 1, 97, 1, 98] }
    Demo.paramContract
    [Value.uint64 42, Value.str (strBytes "abcd"), Value.str (strBytes "hi"),
      Value.list [strBytes "a", strBytes "b"]]
    (by decide) (by decide) (by decide)
  have hnd := h5 (by decide) (by decide)
  refine ⟨q, h1, ?_, ?_, ?_, ?_, ?_⟩
  · rw [h3]; decide
  · exact hnd ({ Name := "Amount", Typ := "uint64", Tags := "" }, Value.uint64 42) (by decide)
  · exact hnd ({ Name := "Photo", Typ := "[]uint8", Tags := "image" },
      Value.str (strBytes "abcd")) (by decide)
  · exact hnd ({ Name := "Note", Typ := "string", Tags := "optional" },
      Value.str (strBytes "hi")) (by decide)
  · exact hnd ({ Name := "Items", Typ := "[]interface {}", Tags := "" },
      Value.list [strBytes "a", strBytes "b"]) (by decide)

/-! ## C22: a data region that ends early -/

/-- Where the reference fails on a parameter whose type is neither `uint64` nor
`float64`, the loop fails on it with the same error, at once or after storing the
value. -/
theorem decodeField_of_decodeParam_error (env : Env) (fitem : FieldInfo) (input : Bytes)
    (e : Err) (h : decodeParam env fitem input = .error e)
    (h1 : fitem.Typ ≠ "uint64") (h2 : fitem.Typ ≠ "float64")
    (hs : fitem.Typ = "int64" ∨ fitem.Typ = env.scriptDecimal ∨ fitem.Typ = "string" ∨
      fitem.Typ = "[]uint8" ∨ fitem.Typ = "[]interface {}") :
    decodeField env fitem input = .error e ∨
      ∃ v forv rest, decodeField env fitem input = .ok (v, some e, forv, rest) := by
  unfold decodeParam at h
  unfold decodeField
  simp only [h1, h2, if_false] at h ⊢
  split at h
  · rename_i ht
    simp only [ht, if_true]
    split at h
    · rename_i e1 he
      simp only [Except.error.injEq] at h
      subst h
      right
      exact ⟨Value.int64 0, none, input, by simp [he]⟩
    · simp at h
  · rename_i ht3
    simp only [ht3, if_false]
    split at h
    · rename_i ht
      simp only [ht, if_true]
      split at h
      · rename_i e1 he
        simp only [Except.error.injEq] at h
        subst h
        left
        simp [he]
      · rename_i str r hr
        split at h
        · rename_i e1 he
          simp only [Except.error.injEq] at h
          subst h
          right
          exact ⟨Value.decimal (strBytes "0"), none, r, by simp [hr, he]⟩
        · simp at h
    · rename_i ht4
      simp only [ht4, if_false]
      split at h
      · rename_i ht
        simp only [ht, if_true]
        split at h
        · rename_i e1 he
          simp only [Except.error.injEq] at h
          subst h
          left
          simp [he]
        · simp at h
      · rename_i ht5
        simp only [ht5, if_false]
        split at h
        · rename_i ht
          simp only [ht, if_true]
          split at h
          · rename_i e1 he
            simp only [Except.error.injEq] at h
            subst h
            left
            simp [he]
          · simp at h
        · rename_i ht6
          simp only [ht6, if_false]
          split at h
          · rename_i ht
            simp only [ht, if_true]
            split at h
            · rename_i e1 he
              simp only [Except.error.injEq] at h
              subst h
              left
              simp [he]
            · rename_i count input1 hc
              split at h
              · rename_i e1 he
                simp only [Except.error.injEq] at h
                subst h
                left
                simp [hc, he]
              · simp at h
          · rename_i ht7
            rcases hs with hs | hs | hs | hs | hs
            · exact absurd hs ht3
            · exact absurd hs ht4
            · exact absurd hs ht5
            · exact absurd hs ht6
            · exact absurd hs ht7

/-- For parameters of the types `int64`, decimal, `string`, bytes and list, a data region
the reference cannot decode makes the field loop return the error. -/
theorem parseFields_of_decodeParams_error (env : Env) :
    ∀ (fields : List FieldInfo) (input : Bytes) (txData : List (String × Value))
      (forsign : Bytes) (e : Err),
      (∀ f ∈ fields, f.Typ ≠ "uint64" ∧ f.Typ ≠ "float64" ∧
        (f.Typ = "int64" ∨ f.Typ = env.scriptDecimal ∨ f.Typ = "string" ∨
          f.Typ = "[]uint8" ∨ f.Typ = "[]interface {}")) →
      decodeParams env fields input = .error e →
      parseFields env fields input txData forsign = .error e := by
  intro fields
  induction fields with
  | nil =>
    intro input txData forsign e _ h
    simp [decodeParams] at h
  | cons fitem tl ih =>
    intro input txData forsign e hty h
    obtain ⟨t1, t2, t3⟩ := hty fitem (List.mem_cons_self _ _)
    simp only [decodeParams] at h
    split at h
    · rename_i e1 he
      simp only [Except.error.injEq] at h
      subst h
      unfold parseFields
      rcases decodeField_of_decodeParam_error env fitem input e1 he t1 t2 t3 with hf | hf
      · simp only [hf]
      · obtain ⟨v, forv, rest, hf⟩ := hf
        simp only [hf]
    · rename_i v input1 hv
      split at h
      · rename_i e1 he
        simp only [Except.error.injEq] at h
        subst h
        obtain ⟨forv, hf, -⟩ := decodeField_of_decodeParam env fitem input input1 v hv
        have htl := fun td fs => ih input1 td fs e1
          (fun f hf => hty f (List.mem_cons_of_mem _ hf)) he
        unfold parseFields
        simp only [hf]
        split
        · exact htl _ _
        · exact htl _ _
      · simp at h

/-- Claim C22, at the failing input: the envelope `Demo.emptyRegion` names contract 1,
whose one parameter `Amount` has the type `uint64`, and its data region is empty: the
reader of `uint64` fails on it, and `parseContractTransaction` returns no error but a
map in which `Amount` is 0 and the sign-string ends in `,0`. -/
theorem C22_short_uint64_region_accepted :
    Demo.env.getContractByID 1 =
        some { ID := 1, Tx := some [{ Name := "Amount", Typ := "uint64", Tags := "" }] } ∧
      Demo.env.binUnmarshalUint64 [] = .error "input slice is short" ∧
      (parseContractTransaction Demo.env Parser.new Demo.emptyRegion).map (fun q => q.TxData) =
        .ok [("Amount", Value.uint64 0), ("forsign", Value.str (strBytes "1,7,0"))] := by
  refine ⟨by decide, by decide, by decide⟩

/-! ## C23: the old transaction parser -/

theorem dropLastEmpty_cons_nonempty (x : Bytes) (fs : List Bytes) (hx : x ≠ []) :
    dropLastEmpty (x :: fs) = x :: dropLastEmpty fs := by
  cases fs with
  | nil =>
    have : ¬ x = [] := hx
    simp [dropLastEmpty, this]
  | cons y ys =>
    unfold dropLastEmpty
    simp only [List.getLast?_cons_cons, List.dropLast_cons₂]
    split <;> rfl

theorem dropLastEmpty_cons_cons (x y : Bytes) (fs : List Bytes) :
    dropLastEmpty (x :: y :: fs) = x :: dropLastEmpty (y :: fs) := by
  unfold dropLastEmpty
  simp only [List.getLast?_cons_cons, List.dropLast_cons₂]
  split <;> rfl

/-- A well-framed non-empty input has at least one field. -/
theorem oldFields_ne_nil (maxSize : Int) (fuel : Nat) (b : Byte) (rest : Bytes)
    (fs : List Bytes) (h : oldFields maxSize fuel (b :: rest) = some fs) : fs ≠ [] := by
  cases fuel with
  | zero => simp [oldFields] at h
  | succ fuel =>
    simp only [oldFields] at h
    split at h
    · simp at h
    · split at h
      · simp at h
      · split at h
        · simp at h
        · split at h
          · simp at h
          · simp only [Option.some.injEq] at h
            rw [← h]
            simp

/-- The loop of `ParseOldTransaction` against the reference: when it succeeds the input
is well framed, and it has appended the fields, less the last one when that is empty. -/
theorem parseOldFields_ok (env : Env) :
    ∀ (fuel : Nat) (buf : Bytes) (ts r : List Bytes),
      parseOldFields env fuel buf ts = .ok r →
      ∃ fs, oldFields env.MAX_TX_SIZE fuel buf = some fs ∧ r = ts ++ dropLastEmpty fs := by
  intro fuel
  induction fuel with
  | zero =>
    intro buf ts r h
    unfold parseOldFields at h
    split at h
    · rename_i hlen
      have hnil : buf = [] := List.length_eq_zero.mp hlen
      subst hnil
      simp only [Except.ok.injEq] at h
      exact ⟨[], by simp [oldFields], by simp [dropLastEmpty, h]⟩
    · simp at h
  | succ fuel ih =>
    intro buf ts r h
    unfold parseOldFields at h
    split at h
    · rename_i hlen
      have hnil : buf = [] := List.length_eq_zero.mp hlen
      subst hnil
      simp only [Except.ok.injEq] at h
      exact ⟨[], by simp [oldFields], by simp [dropLastEmpty, h]⟩
    · rename_i hlen
      cases buf with
      | nil => simp at hlen
      | cons b rest =>
        dsimp only at h
        split at h
        · simp at h
        · rename_i length buf1 hdec
          split at h
          · simp at h
          · rename_i hbad
            have hb1 : ¬ buf1.length < length := by
              intro hc; exact hbad (Or.inl hc)
            have hb2 : ¬ (length : Int) > env.MAX_TX_SIZE := by
              intro hc; exact hbad (Or.inr hc)
            split at h
            · rename_i hpos
              obtain ⟨fs, h1, h2⟩ := ih _ _ _ h
              have hne : buf1.take length ≠ [] := by
                intro hc
                have : (buf1.take length).length = 0 := by rw [hc]; rfl
                simp only [List.length_take] at this
                omega
              refine ⟨buf1.take length :: fs, ?_, ?_⟩
              · simp only [oldFields, hdec, hb1, hb2, if_false, h1]
              · rw [h2, dropLastEmpty_cons_nonempty _ _ hne]
                simp
            · rename_i hzero
              have hz : length = 0 := by omega
              subst hz
              split at h
              · rename_i hmore
                obtain ⟨fs, h1, h2⟩ := ih _ _ _ h
                cases buf1 with
                | nil => simp at hmore
                | cons c cs =>
                  have hfs := oldFields_ne_nil _ _ _ _ _ h1
                  cases fs with
                  | nil => exact absurd rfl hfs
                  | cons y ys =>
                    refine ⟨[] :: y :: ys, ?_, ?_⟩
                    · simp only [oldFields, hdec, hb1, hb2, if_false, List.drop_zero, h1,
                        List.take_zero]
                    · rw [h2, dropLastEmpty_cons_cons]
                      simp
              · rename_i hnone
                have hnil : buf1 = [] := by
                  cases buf1 with
                  | nil => rfl
                  | cons c cs => simp at hnone
                subst hnil
                simp only [Except.ok.injEq] at h
                refine ⟨[[]], ?_, ?_⟩
                · simp [oldFields, hdec]
                  simpa using hb2
                · simp [dropLastEmpty, h]
/-- The loop of `ParseOldTransaction` on a well-framed input returns the fields, less
the last one when that is empty. -/
theorem parseOldFields_of_oldFields (env : Env) :
    ∀ (fuel : Nat) (buf : Bytes) (ts fs : List Bytes),
      oldFields env.MAX_TX_SIZE fuel buf = some fs →
      parseOldFields env fuel buf ts = .ok (ts ++ dropLastEmpty fs) := by
  intro fuel
  induction fuel with
  | zero =>
    intro buf ts fs h
    cases buf with
    | nil =>
      simp only [oldFields, Option.some.injEq] at h
      subst h
      simp [parseOldFields, dropLastEmpty]
    | cons b rest => simp [oldFields] at h
  | succ fuel ih =>
    intro buf ts fs h
    cases buf with
    | nil =>
      simp only [oldFields, Option.some.injEq] at h
      subst h
      simp [parseOldFields, dropLastEmpty]
    | cons b rest =>
      simp only [oldFields] at h
      split at h
      · simp at h
      · rename_i size buf1 hdec
        split at h
        · simp at h
        · rename_i hb1
          split at h
          · simp at h
          · rename_i hb2
            split at h
            · simp at h
            · rename_i tl htl
              simp only [Option.some.injEq] at h
              subst h
              have hbad : ¬ (size > buf1.length ∨ (size : Int) > env.MAX_TX_SIZE) := by
                intro hc
                rcases hc with hc | hc
                · exact hb1 hc
                · exact hb2 hc
              unfold parseOldFields
              simp only [List.length_cons, Nat.add_one_ne_zero, if_false, hdec, hbad]
              by_cases hpos : size > 0
              · simp only [hpos, if_true]
                rw [ih _ _ _ htl]
                have hne : buf1.take size ≠ [] := by
                  intro hc
                  have : (buf1.take size).length = 0 := by rw [hc]; rfl
                  simp only [List.length_take] at this
                  omega
                rw [dropLastEmpty_cons_nonempty _ _ hne]
                simp
              · have hz : size = 0 := by omega
                subst hz
                simp only [List.drop_zero] at htl
                simp only [hpos, if_false, List.take_zero]
                cases buf1 with
                | nil =>
                  simp only [oldFields, Option.some.injEq] at htl
                  subst htl
                  simp [dropLastEmpty]
                | cons c cs =>
                  have hfs := oldFields_ne_nil _ _ _ _ _ htl
                  cases tl with
                  | nil => exact absurd rfl hfs
                  | cons y ys =>
                    simp only [List.length_cons, Nat.zero_lt_succ, if_true, gt_iff_lt]
                    rw [ih _ _ _ htl, dropLastEmpty_cons_cons]
                    simp

/-- The reference framing does not depend on the bound, once the bound is at least the
length of the input. -/
theorem oldFields_fuel (maxSize : Int) :
    ∀ (fuel1 fuel2 : Nat) (buf : Bytes), buf.length ≤ fuel1 → buf.length ≤ fuel2 →
      oldFields maxSize fuel1 buf = oldFields maxSize fuel2 buf := by
  intro fuel1
  induction fuel1 with
  | zero =>
    intro fuel2 buf h1 _
    have hnil : buf = [] := List.length_eq_zero.mp (by omega)
    subst hnil
    cases fuel2 <;> simp [oldFields]
  | succ fuel1 ih =>
    intro fuel2 buf h1 h2
    cases buf with
    | nil => cases fuel2 <;> simp [oldFields]
    | cons b rest =>
      cases fuel2 with
      | zero => simp at h2
      | succ fuel2 =>
        simp only [oldFields]
        split
        · rfl
        · rename_i size buf1 hdec
          have hsh := DecodeLengthBuf_shorter _ _ _ hdec
          simp only [List.length_cons] at h1 h2 hsh
          have hd : (buf1.drop size).length ≤ buf1.length := by
            simp only [List.length_drop]; omega
          rw [ih fuel2 (buf1.drop size) (by omega) (by omega)]
/-- A decoded length prefix is a non-empty front part of the buffer that decodes to the
same length whatever follows it. -/
theorem DecodeLengthBuf_prefix (buf rest : Bytes) (n : Nat)
    (h : DecodeLengthBuf buf = .ok (n, rest)) :
    ∃ front, front ≠ [] ∧ buf = front ++ rest ∧
      ∀ tail, DecodeLengthBuf (front ++ tail) = .ok (n, tail) := by
  unfold DecodeLengthBuf at h
  split at h
  · simp at h
  · rename_i b tl
    dsimp only at h
    split at h
    · rename_i hb
      simp only [Except.ok.injEq, Prod.mk.injEq] at h
      refine ⟨[b], by simp, by simp [h.2], ?_⟩
      intro tail
      show DecodeLengthBuf (b :: tail) = _
      simp only [DecodeLengthBuf, hb, if_true]
      rw [h.1]
    · rename_i hb
      split at h
      · simp at h
      · rename_i hlen
        simp only [Except.ok.injEq, Prod.mk.injEq] at h
        refine ⟨b :: tl.take (b.val % 128), by simp, ?_, ?_⟩
        · rw [← h.2]; simp
        · intro tail
          have hk : (tl.take (b.val % 128)).length = b.val % 128 := by
            simp only [List.length_take]; omega
          have h1 : ¬ (tl.take (b.val % 128) ++ tail).length < b.val % 128 := by
            simp only [List.length_append, hk]; omega
          have h2 : (tl.take (b.val % 128) ++ tail).take (b.val % 128) =
              tl.take (b.val % 128) := by
            rw [List.take_append_of_le_length (by omega)]
            simp
          have h3 : (tl.take (b.val % 128) ++ tail).drop (b.val % 128) = tail := by
            rw [List.drop_append_of_le_length (by omega)]
            simp [List.drop_eq_nil_of_le, hk]
          simp only [List.cons_append, DecodeLengthBuf, hb, if_false, h1, h2, h3, h.1]

/-- After a well-framed input, a length prefix that decodes to more than the bytes that
remain or than the largest size makes the whole input malformed. -/
theorem oldFields_bad_field (maxSize : Int) :
    ∀ (fuel : Nat) (pre : Bytes) (fs : List Bytes), oldFields maxSize fuel pre = some fs →
      ∀ (bad rest : Bytes) (n fuel1 : Nat), DecodeLengthBuf bad = .ok (n, rest) →
        (rest.length < n ∨ (n : Int) > maxSize) → (pre ++ bad).length ≤ fuel1 →
        oldFields maxSize fuel1 (pre ++ bad) = none := by
  intro fuel
  induction fuel with
  | zero =>
    intro pre fs h bad rest n fuel1 hdec hbad hfuel
    cases pre with
    | cons b tl => simp [oldFields] at h
    | nil =>
      have hsh := DecodeLengthBuf_shorter _ _ _ hdec
      cases bad with
      | nil => simp at hsh
      | cons c cs =>
        cases fuel1 with
        | zero => simp at hfuel
        | succ fuel1 =>
          simp only [List.nil_append, oldFields, hdec]
          rcases hbad with hb | hb
          · simp [hb]
          · simp [hb]
  | succ fuel ih =>
    intro pre fs h bad rest n fuel1 hdec hbad hfuel
    cases pre with
    | nil =>
      have hsh := DecodeLengthBuf_shorter _ _ _ hdec
      cases bad with
      | nil => simp at hsh
      | cons c cs =>
        cases fuel1 with
        | zero => simp at hfuel
        | succ fuel1 =>
          simp only [List.nil_append, oldFields, hdec]
          rcases hbad with hb | hb
          · simp [hb]
          · simp [hb]
    | cons b tl =>
      simp only [oldFields] at h
      split at h
      · simp at h
      · rename_i size buf1 hd
        split at h
        · simp at h
        · rename_i hb1
          split at h
          · simp at h
          · rename_i hb2
            split at h
            · simp at h
            · rename_i tl1 htl
              obtain ⟨front, -, hfront, hany⟩ := DecodeLengthBuf_prefix _ _ _ hd
              have hd2 : DecodeLengthBuf (b :: tl ++ bad) = .ok (size, buf1 ++ bad) := by
                rw [hfront, List.append_assoc]
                exact hany _
              have hsh := DecodeLengthBuf_shorter _ _ _ hd2
              cases fuel1 with
              | zero => simp at hfuel
              | succ fuel1 =>
                have hlen : ¬ (buf1 ++ bad).length < size := by
                  simp only [List.length_append]; omega
                have hdrop : (buf1 ++ bad).drop size = buf1.drop size ++ bad := by
                  rw [List.drop_append_of_le_length (by omega)]
                have hrec := ih (buf1.drop size) tl1 htl bad rest n fuel1 hdec hbad (by
                  rw [← hdrop]
                  simp only [List.length_drop]
                  simp only [List.length_append, List.length_cons] at hfuel hsh ⊢
                  omega)
                simp only [List.cons_append] at hd2
                rw [List.cons_append, oldFields, hd2]
                simp only [hlen, hb2, if_false, hdrop, hrec]
/-- A well-framed input is its length prefixes and fields, one after the other, with
nothing left: every field is exactly as long as its prefix says, whatever follows the
prefix, and no longer than the largest size. -/
theorem oldFields_body (maxSize : Int) :
    ∀ (fuel : Nat) (buf : Bytes) (fs : List Bytes), oldFields maxSize fuel buf = some fs →
      (∀ f ∈ fs, (f.length : Int) ≤ maxSize) ∧
        ∃ fronts : List Bytes, buf = (List.zipWith (fun a f => a ++ f) fronts fs).flatten ∧
          List.Forall₂ (fun a f => ∀ tail, DecodeLengthBuf (a ++ tail) = .ok (f.length, tail))
            fronts fs := by
  intro fuel
  induction fuel with
  | zero =>
    intro buf fs h
    cases buf with
    | nil =>
      simp only [oldFields, Option.some.injEq] at h
      subst h
      exact ⟨by simp, [], by simp, List.Forall₂.nil⟩
    | cons b rest => simp [oldFields] at h
  | succ fuel ih =>
    intro buf fs h
    cases buf with
    | nil =>
      simp only [oldFields, Option.some.injEq] at h
      subst h
      exact ⟨by simp, [], by simp, List.Forall₂.nil⟩
    | cons b rest =>
      simp only [oldFields] at h
      split at h
      · simp at h
      · rename_i size buf1 hdec
        split at h
        · simp at h
        · rename_i hb1
          split at h
          · simp at h
          · rename_i hb2
            split at h
            · simp at h
            · rename_i tl htl
              simp only [Option.some.injEq] at h
              subst h
              obtain ⟨hmax, fronts, hbuf, hall⟩ := ih _ _ htl
              obtain ⟨front, -, hfront, hany⟩ := DecodeLengthBuf_prefix _ _ _ hdec
              have hlen : (buf1.take size).length = size := by
                simp only [List.length_take]; omega
              refine ⟨?_, front :: fronts, ?_, ?_⟩
              · intro f hf
                rcases List.mem_cons.mp hf with h1 | h1
                · rw [h1, hlen]; omega
                · exact hmax f h1
              · rw [hfront]
                simp only [List.zipWith_cons_cons, List.flatten_cons, List.append_assoc]
                rw [← hbuf, List.take_append_drop]
              · refine List.Forall₂.cons ?_ hall
                intro tail
                rw [hlen]
                exact hany tail

/-- Claim C23: `ParseOldTransaction` returns an error, and no slice, on every input in
which, after the four bytes of the time and any number of whole fields, a length prefix
decodes to more than the bytes that remain or to more than `MAX_TX_SIZE`. When it
succeeds the input has more than four bytes, what follows the time is well framed,
and the result is two empty placeholders, the decimal text of the big-endian time and
then the fields in input order (less the last field when that is empty), each field a
contiguous slice of the input exactly as long as its prefix decodes to and no longer
than `MAX_TX_SIZE`. It does succeed on every such input. -/
theorem C23_old_transaction_fields (env : Env) (buffer : Bytes) :
    (∀ (time pre bad rest : Bytes) (fs : List Bytes) (n : Nat),
        buffer = time ++ pre ++ bad → time.length = 4 →
        oldFields env.MAX_TX_SIZE pre.length pre = some fs →
        DecodeLengthBuf bad = .ok (n, rest) →
        (rest.length < n ∨ (n : Int) > env.MAX_TX_SIZE) →
        ∃ e, ParseOldTransaction env buffer = (none, some e)) ∧
      (∀ result, ParseOldTransaction env buffer = (some result, none) →
        4 < buffer.length ∧
        ∃ fs fronts, oldFields env.MAX_TX_SIZE (buffer.drop 4).length (buffer.drop 4) = some fs ∧
          result = [[], [], Int64ToByte (BinToDec (buffer.take 4))] ++ dropLastEmpty fs ∧
          buffer = buffer.take 4 ++ (List.zipWith (fun a f => a ++ f) fronts fs).flatten ∧
          List.Forall₂ (fun a f => ∀ tail, DecodeLengthBuf (a ++ tail) = .ok (f.length, tail))
            fronts fs ∧
          ∀ f ∈ fs, (f.length : Int) ≤ env.MAX_TX_SIZE) ∧
      (∀ fs, 4 < buffer.length →
        oldFields env.MAX_TX_SIZE (buffer.drop 4).length (buffer.drop 4) = some fs →
        ParseOldTransaction env buffer =
          (some ([[], [], Int64ToByte (BinToDec (buffer.take 4))] ++ dropLastEmpty fs),
            none)) := by
  refine ⟨?_, ?_, ?_⟩
  · intro time pre bad rest fs n hbuf htime hpre hdec hbad
    have hdrop : buffer.drop 4 = pre ++ bad := by
      rw [hbuf, List.append_assoc, List.drop_append_of_le_length (by omega)]
      simp [List.drop_eq_nil_of_le, htime]
    have hnone := oldFields_bad_field env.MAX_TX_SIZE _ _ _ hpre bad rest n
      (pre ++ bad).length hdec hbad (le_refl _)
    have hsh := DecodeLengthBuf_shorter _ _ _ hdec
    have hne : ¬ (pre ++ bad).length = 0 := by
      simp only [List.length_append]; omega
    unfold ParseOldTransaction
    simp only [hdrop, hne, if_false]
    cases hr : parseOldFields env (pre ++ bad).length (pre ++ bad)
        [[], [], Int64ToByte (BinToDec (buffer.take 4))] with
    | error e => exact ⟨e, rfl⟩
    | ok r =>
      obtain ⟨fs1, h1, -⟩ := parseOldFields_ok env _ _ _ _ hr
      rw [hnone] at h1
      simp at h1
  · intro result h
    unfold ParseOldTransaction at h
    dsimp only at h
    split at h
    · simp at h
    · rename_i hlen
      split at h
      · simp at h
      · rename_i r hr
        simp only [Prod.mk.injEq, Option.some.injEq, and_true] at h
        subst h
        obtain ⟨fs, h1, h2⟩ := parseOldFields_ok env _ _ _ _ hr
        obtain ⟨hmax, fronts, hbody, hall⟩ := oldFields_body _ _ _ _ h1
        refine ⟨?_, fs, fronts, h1, h2, ?_, hall, hmax⟩
        · simp only [List.length_drop] at hlen
          omega
        · rw [← hbody, List.take_append_drop]
  · intro fs hlen h
    have hne : ¬ (buffer.drop 4).length = 0 := by
      simp only [List.length_drop]; omega
    unfold ParseOldTransaction
    simp only [hne, if_false, parseOldFields_of_oldFields env _ _ _ _ h]

/-- Witness for C23: `Demo.oldTx` holds the time 1400000005 and the fields `ab`, empty,
`c`, empty; the result has the two placeholders, the time in decimal and the first
three fields. With a length prefix of 9 after the field `ab` the input is an error. -/
theorem C23_old_transaction_fields_witness :
    ParseOldTransaction Demo.env Demo.oldTx =
        (some [[], [], strBytes "1400000005", strBytes "ab", [], strBytes "c"], none) ∧
      ∃ e, ParseOldTransaction Demo.env [83, 114, 78, 5, 2, 97, 98, 9, 1] = (none, some e) :=
  ⟨(C23_old_transaction_fields Demo.env Demo.oldTx).2.2
      [strBytes "ab", [], strBytes "c", []] (by decide) (by decide),
    (C23_old_transaction_fields Demo.env [83, 114, 78, 5, 2, 97, 98, 9, 1]).1
      [83, 114, 78, 5] [2, 97, 98] [9, 1] [1] [[97, 98]] 9 (by decide) (by decide)
      (by decide) (by decide) (by decide)⟩

/-! ## C24: the order of execution and the log -/

theorem logEntries_append (a b : List (Op × Bool)) :
    logEntries (a ++ b) = logEntries a ++ logEntries b := by
  simp [logEntries]

theorem logEntries_exec (p : Parser) (c : Op × Bool) (h : isExecCall p c = true) :
    logEntries [c] = [] := by
  obtain ⟨op, ok⟩ := c
  cases op <;> simp [isExecCall] at h <;> simp [logEntries]

/-- The log entries of the group of one record under T: its pair of bytes and time when
it was played, nothing when its execution failed. -/
theorem logEntries_group (blockID : Int) (p : Parser) (g : List (Op × Bool))
    (hp : p.DbTransaction = Handle.tx)
    (h : isFailedGroup p g = true ∨ isPlayedGroup blockID p g = true) :
    logEntries g = if isPlayedGroup blockID p g then [(p.TxFullData, p.TxTime)] else [] := by
  rcases h with h | h
  · have hnot : isPlayedGroup blockID p g = false := by
      unfold isFailedGroup at h
      split at h
      · simp [isPlayedGroup]
      · simp [isPlayedGroup]
      · simp at h
    rw [hnot]
    unfold isFailedGroup at h
    split at h
    · rename_i c h1 b1 h2 h3 e b2
      simp only [Bool.and_eq_true, beq_iff_eq, Bool.not_eq_true'] at h
      obtain ⟨⟨⟨⟨hc, -⟩, -⟩, -⟩, -⟩ := h
      have e1 : logEntries [c, (Op.markUsed Handle.nil h1, b1), (Op.badTx h2 h3 e, b2)] =
          logEntries [c] ++ logEntries [(Op.markUsed Handle.nil h1, b1),
            (Op.badTx h2 h3 e, b2)] := by
        rw [← logEntries_append]; rfl
      rw [e1, logEntries_exec p c hc]
      simp [logEntries]
    · simp [logEntries]
    · simp at h
  · rw [h]
    unfold isPlayedGroup at h
    split at h
    · rename_i c m u l
      simp only [Bool.and_eq_true, beq_iff_eq] at h
      obtain ⟨⟨⟨⟨hc, -⟩, hm⟩, hu⟩, hl⟩ := h
      rw [hp] at hm hu hl
      subst hm hu hl
      have e1 : logEntries [c, (Op.markUsed Handle.tx p.TxHash, true),
          (Op.updateBlockID Handle.tx blockID p.TxHash, true),
          (Op.insertLog Handle.tx p.TxFullData p.TxTime, true)] =
          logEntries [c] ++ logEntries [(Op.markUsed Handle.tx p.TxHash, true),
            (Op.updateBlockID Handle.tx blockID p.TxHash, true),
            (Op.insertLog Handle.tx p.TxFullData p.TxTime, true)] := by
        rw [← logEntries_append]; rfl
      rw [e1, logEntries_exec p c hc]
      simp [logEntries]
    · simp at h

/-- The calls of the record the loop stopped at hold no log entry. -/
theorem logEntries_stopped (blockID : Int) (p : Parser) (g : List (Op × Bool))
    (hp : p.DbTransaction = Handle.tx) (h : isStoppedGroup blockID p g = true) :
    logEntries g = [] := by
  unfold isStoppedGroup at h
  split at h
  · rename_i c m
    simp only [Bool.and_eq_true, beq_iff_eq] at h
    obtain ⟨⟨hc, -⟩, hm⟩ := h
    subst hm
    have e1 : logEntries [c, (Op.markUsed p.DbTransaction p.TxHash, false)] =
        logEntries [c] ++ logEntries [(Op.markUsed p.DbTransaction p.TxHash, false)] := by
      rw [← logEntries_append]; rfl
    rw [e1, logEntries_exec p c hc]
    simp [logEntries]
  · rename_i c m u
    simp only [Bool.and_eq_true, beq_iff_eq] at h
    obtain ⟨⟨⟨hc, -⟩, hm⟩, hu⟩ := h
    subst hm hu
    have e1 : logEntries [c, (Op.markUsed p.DbTransaction p.TxHash, true),
        (Op.updateBlockID p.DbTransaction blockID p.TxHash, false)] =
        logEntries [c] ++ logEntries [(Op.markUsed p.DbTransaction p.TxHash, true),
          (Op.updateBlockID p.DbTransaction blockID p.TxHash, false)] := by
      rw [← logEntries_append]; rfl
    rw [e1, logEntries_exec p c hc]
    simp [logEntries]
  · rename_i c m u l
    simp only [Bool.and_eq_true, beq_iff_eq] at h
    obtain ⟨⟨⟨⟨hc, -⟩, hm⟩, hu⟩, hl⟩ := h
    subst hm hu hl
    have e1 : logEntries [c, (Op.markUsed p.DbTransaction p.TxHash, true),
        (Op.updateBlockID p.DbTransaction blockID p.TxHash, true),
        (Op.insertLog p.DbTransaction p.TxFullData p.TxTime, false)] =
        logEntries [c] ++ logEntries [(Op.markUsed p.DbTransaction p.TxHash, true),
          (Op.updateBlockID p.DbTransaction blockID p.TxHash, true),
          (Op.insertLog p.DbTransaction p.TxFullData p.TxTime, false)] := by
      rw [← logEntries_append]; rfl
    rw [e1, logEntries_exec p c hc, hp]
    simp [logEntries]
  · simp at h

/-- The log entries of the groups of a run under T are the pairs of the played records,
in order. -/
theorem logEntries_groups (blockID : Int) :
    ∀ (parsers : List Parser) (groups : List (List (Op × Bool))),
      List.Forall₂ (fun p g => isFailedGroup p g = true ∨ isPlayedGroup blockID p g = true)
        (parsers.map (Parser.attach Handle.tx)) groups →
      logEntries groups.flatten =
        playedEntries blockID (parsers.map (Parser.attach Handle.tx)) groups := by
  intro parsers
  induction parsers with
  | nil =>
    intro groups h
    cases h
    simp [logEntries, playedEntries]
  | cons p rest ih =>
    intro groups h
    simp only [List.map_cons] at h
    cases h with
    | cons hpg hrest =>
      rename_i g gs
      have hg := logEntries_group blockID (Parser.attach Handle.tx p) g rfl hpg
      have hr := ih gs hrest
      simp only [List.flatten_cons, logEntries_append, hg, hr, List.map_cons]
      unfold playedEntries
      simp only [List.zip_cons_cons, List.filter_cons]
      split <;> simp
/-- Counterexample to C24 as stated: on `Demo.stopBlock` the execution of the first
transaction succeeds and its log insertion fails; `playBlock` returns the error, no log
entry is appended for the first transaction, and the second transaction is not run:
the five calls made are those of the deletion and of the first record. -/
theorem C24_stopped_block_skips_transactions :
    Demo.stopBlock.Parsers.map (fun p => p.TxHash) = [[1], [2]] ∧
      (Demo.stopBlock.playBlock Demo.env Demo.store0 Handle.tx).1 = some "log insert failed" ∧
      (Demo.stopBlock.playBlock Demo.env Demo.store0 Handle.tx).2.1.trace =
        [(Op.deleteUsed Handle.tx, true),
         (Op.action Handle.tx [1] [{ table := "keys", payload := [5, 9, 9, 1, 1, 1, 1, 1, 1] }],
           true),
         (Op.markUsed Handle.tx [1], true),
         (Op.updateBlockID Handle.tx 2 [1], true),
         (Op.insertLog Handle.tx [5, 9, 9, 1, 1, 1, 1, 1, 1] 1400000001, false)] ∧
      logEntries (Demo.stopBlock.playBlock Demo.env Demo.store0 Handle.tx).2.1.trace = [] := by
  refine ⟨by decide, by decide!, by decide!, by decide!⟩

/-- Claim C24, amended: when `playBlock` returns nil, its calls after the deletion fall
into one group per transaction, in payload order: the execution of the transaction,
once, followed by its used-marker and bad-transaction record when it failed, or by
its used-marker under T, status update and log entry when it succeeded; the log
entries appended under T are exactly the pairs of bytes and time of the transactions
whose execution succeeded, in that order. When `playBlock` returns an error, either the
deletion failed and nothing was run, or the loop stopped at one transaction after its
execution succeeded: the transactions before it have their groups and log entries as
above, the one it stopped at has no log entry, and those after it were not run. -/
theorem C24_play_order (env : Env) (s : Store) (block : Block) :
    ((block.playBlock env s Handle.tx).1 = none →
        ∃ groups,
          (block.playBlock env s Handle.tx).2.1.trace =
            s.trace ++ (Op.deleteUsed Handle.tx, true) :: groups.flatten ∧
          List.Forall₂ (fun p g => isFailedGroup p g = true ∨
              isPlayedGroup block.Header.BlockID p g = true)
            (block.Parsers.map (Parser.attach Handle.tx)) groups ∧
          logEntries ((block.playBlock env s Handle.tx).2.1.trace.drop s.trace.length) =
            playedEntries block.Header.BlockID (block.Parsers.map (Parser.attach Handle.tx))
              groups) ∧
      ((block.playBlock env s Handle.tx).1 ≠ none →
        (block.playBlock env s Handle.tx).2.1.trace =
            s.trace ++ [(Op.deleteUsed Handle.tx, false)] ∨
        ∃ groups tail p0,
          (block.playBlock env s Handle.tx).2.1.trace =
            s.trace ++ (Op.deleteUsed Handle.tx, true) :: (groups.flatten ++ tail) ∧
          block.Parsers.get? groups.length = some p0 ∧
          isStoppedGroup block.Header.BlockID (Parser.attach Handle.tx p0) tail = true ∧
          List.Forall₂ (fun p g => isFailedGroup p g = true ∨
              isPlayedGroup block.Header.BlockID p g = true)
            ((block.Parsers.take groups.length).map (Parser.attach Handle.tx)) groups ∧
          logEntries ((block.playBlock env s Handle.tx).2.1.trace.drop s.trace.length) =
            playedEntries block.Header.BlockID
              ((block.Parsers.take groups.length).map (Parser.attach Handle.tx)) groups) := by
  obtain ⟨delta, hext, hnone, hsome⟩ := Block.playBlock_run env s block
  have htrace := hext.1
  have hcons : ∀ (ok : Bool) (l : List (Op × Bool)),
      logEntries ((Op.deleteUsed Handle.tx, ok) :: l) = logEntries l := by
    intro ok l
    simp [logEntries]
  refine ⟨?_, ?_⟩
  · intro h
    obtain ⟨-, groups, hd, hg⟩ := hnone h
    refine ⟨groups, by rw [htrace, hd], hg, ?_⟩
    rw [htrace, List.drop_left, hd, hcons]
    exact logEntries_groups _ _ _ hg
  · intro h
    rcases hsome h with h1 | ⟨groups, tail, p0, h1, h2, h3, h4⟩
    · left
      rw [htrace, h1]
    · right
      refine ⟨groups, tail, p0, by rw [htrace, h1], h2, h3, h4, ?_⟩
      rw [htrace, List.drop_left, h1, hcons, logEntries_append,
        logEntries_stopped _ _ _ rfl h3, List.append_nil]
      exact logEntries_groups _ _ _ h4

/-- Witness for C24: `playBlock` returns nil on `Demo.badMiddleBlock`, whose second
transaction fails when executed; the log holds the first and the third. -/
theorem C24_play_order_witness :
    (∃ groups,
      (Demo.badMiddleBlock.playBlock Demo.env Demo.store0 Handle.tx).2.1.trace =
        Demo.store0.trace ++ (Op.deleteUsed Handle.tx, true) :: groups.flatten ∧
      List.Forall₂ (fun p g => isFailedGroup p g = true ∨
          isPlayedGroup Demo.badMiddleBlock.Header.BlockID p g = true)
        (Demo.badMiddleBlock.Parsers.map (Parser.attach Handle.tx)) groups ∧
      logEntries ((Demo.badMiddleBlock.playBlock Demo.env Demo.store0 Handle.tx).2.1.trace.drop
          Demo.store0.trace.length) =
        playedEntries Demo.badMiddleBlock.Header.BlockID
          (Demo.badMiddleBlock.Parsers.map (Parser.attach Handle.tx)) groups) ∧
      logEntries (Demo.badMiddleBlock.playBlock Demo.env Demo.store0 Handle.tx).2.1.trace =
        [([5, 9, 9, 1, 1], 1400000001), ([5, 9, 9, 1, 3], 1400000001)] :=
  ⟨(C24_play_order Demo.env Demo.store0 Demo.badMiddleBlock).1 (by decide!), by decide!⟩

/-! ## C25: the arguments of the scheduler -/

theorem checkParsers_scheduler (env : Env) (s : Store) (block : Block)
    (sched : Store → Int → Int → Int → Int → Except Err Int) :
    ∀ (ps : List Parser) (txCounter : List (Int × Int)) (txHashes : List Bytes),
      checkParsers { env with getSleepTime := sched } s block ps txCounter txHashes =
        checkParsers env s block ps txCounter txHashes := by
  intro ps
  induction ps with
  | nil => intro _ _; rfl
  | cons p rest ih =>
    intro txCounter txHashes
    unfold checkParsers
    simp only [ih]
    rfl

/-- Counterexample to C25 as stated: the previous header of `Demo.orderBlock` has wallet
2 and state 1. The schedulers of `Demo.env` and `Demo.orderEnv` give the same answer on
the arguments of the claim, previous wallet then previous state, and the two
environments differ in nothing else; yet `CheckBlock` accepts the time of the block
under the first and rejects it under the second, which asks for 100 seconds when its
third argument is the previous state and its fourth the previous wallet. -/
theorem C25_previous_state_before_wallet :
    (Demo.orderBlock.PrevHeader.map (fun h => (h.WalletID, h.StateID))) = some (2, 1) ∧
      (∀ s w st, Demo.orderEnv.getSleepTime s w st 2 1 = Demo.env.getSleepTime s w st 2 1) ∧
      Demo.orderBlock.checkSequence Demo.env Demo.store0 = none ∧
      Demo.orderBlock.checkSequence Demo.orderEnv Demo.store0 = some "incorrect block time" ∧
      Demo.orderBlock.CheckBlock Demo.orderEnv Demo.store0 ≠
        Demo.orderBlock.CheckBlock Demo.env Demo.store0 := by
  refine ⟨by decide, ?_, by decide, by decide, by decide!⟩
  intro s w st
  rfl

/-- Claim C25, amended: in the test of the time between blocks `CheckBlock` asks the
scheduler with the four arguments header wallet, header state, previous state,
previous wallet, in this order: its answer is the same under every scheduler that
gives the same answer on these arguments and this storage, and the first stage is
this answer set against the two times. -/
theorem C25_scheduler_arguments (env : Env) (s : Store) (block : Block) (prev : BlockData)
    (sched : Store → Int → Int → Int → Int → Except Err Int)
    (hprev : block.PrevHeader = some prev)
    (hagree : sched s block.Header.WalletID block.Header.StateID prev.StateID prev.WalletID =
      env.getSleepTime s block.Header.WalletID block.Header.StateID prev.StateID
        prev.WalletID) :
    block.CheckBlock { env with getSleepTime := sched } s = block.CheckBlock env s ∧
      (block.Header.BlockID = wrapInt64 (prev.BlockID + 1) →
        block.checkSequence env s =
          match env.getSleepTime s block.Header.WalletID block.Header.StateID prev.StateID
              prev.WalletID with
          | .error e => some (ErrInfo e)
          | .ok sleepTime =>
            if wrapInt64 (wrapInt64 (prev.Time + sleepTime) - block.Header.Time) >
                env.ERROR_TIME then
              some (ErrInfo "incorrect block time")
            else none) := by
  refine ⟨?_, ?_⟩
  · rw [Block.CheckBlock_stages, Block.CheckBlock_stages]
    have h1 : Block.checkSequence { env with getSleepTime := sched } s block =
        Block.checkSequence env s block := by
      simp only [Block.checkSequence, hprev, hagree]
    have h2 : Block.checkTransactionsAndHash { env with getSleepTime := sched } s block =
        Block.checkTransactionsAndHash env s block := by
      unfold Block.checkTransactionsAndHash
      rw [checkParsers_scheduler]
      rfl
    rw [h1, h2]
  · intro hid
    simp only [Block.checkSequence, hprev, hid, ne_eq, not_true_eq_false, if_false]

/-- Witness for C25: on `Demo.orderBlock` a scheduler that gives 1 second on the
arguments previous state 1, previous wallet 2 and 100 seconds on all others leaves the
answer of `CheckBlock` as it is with the scheduler that always gives 1 second. -/
theorem C25_scheduler_arguments_witness :
    Demo.orderBlock.CheckBlock
        { Demo.env with
          getSleepTime := fun _ _ _ a b => if a = 1 ∧ b = 2 then .ok 1 else .ok 100 }
        Demo.store0 =
      Demo.orderBlock.CheckBlock Demo.env Demo.store0 :=
  (C25_scheduler_arguments Demo.env Demo.store0 Demo.orderBlock
    { BlockData.zero with BlockID := 1, Time := 1400000000, Hash := [7], StateID := 1,
                          WalletID := 2 }
    (fun _ _ _ a b => if a = 1 ∧ b = 2 then .ok 1 else .ok 100) rfl (by decide)).1

/-! ## C26: the ranges of the header fields -/

/-- A big-endian number of `n` bytes is below `256 ^ n`. -/
theorem beValue_lt (bs : Bytes) : beValue bs < 256 ^ bs.length := by
  induction bs using List.reverseRecOn with
  | nil => simp [beValue]
  | append_singleton l x ih =>
    have h2 : beValue (l ++ [x]) = beValue l * 256 + x.val := by
      simp [beValue, List.foldl_append]
    have hx := x.isLt
    rw [h2, List.length_append, List.length_singleton, pow_succ]
    nlinarith

/-- Counterexample to C26 as stated: `ParseBlockHeader` returns, without error, the
header of `Demo.zeroIdHeader`, whose block id is 0. -/
theorem C26_block_id_zero_returned :
    ParseBlockHeader Demo.env Demo.zeroIdHeader =
      .ok ({ BlockData.zero with BlockID := 0, Time := 1400000005, WalletID := 0,
                                 StateID := 1, Version := 1 }, []) := by
  decide

/-- Claim C26, amended: every header `ParseBlockHeader` returns without error has its
block id and its time in `0..2^32-1` and its version and state id in `0..255`; the
block id 0 is not refused. -/
theorem C26_header_ranges (env : Env) (binaryBlock rest : Bytes) (h : BlockData)
    (hp : ParseBlockHeader env binaryBlock = .ok (h, rest)) :
    (0 ≤ h.BlockID ∧ h.BlockID < 4294967296) ∧ (0 ≤ h.Version ∧ h.Version < 256) ∧
      (0 ≤ h.StateID ∧ h.StateID < 256) ∧ (0 ≤ h.Time ∧ h.Time < 4294967296) := by
  have hb : ∀ (bs : Bytes) (n : Nat), (0 : Int) ≤ BinToDec (bs.take n) ∧
      BinToDec (bs.take n) < ((256 ^ n : Nat) : Int) := by
    intro bs n
    unfold BinToDec
    have h1 := beValue_lt (bs.take n)
    have h2 : (bs.take n).length ≤ n := by simp [List.length_take]
    have h3 : 256 ^ (bs.take n).length ≤ 256 ^ n := Nat.pow_le_pow_right (by norm_num) h2
    constructor
    · exact Int.ofNat_nonneg _
    · exact_mod_cast lt_of_lt_of_le h1 h3
  unfold ParseBlockHeader at hp
  split at hp
  · simp at hp
  · dsimp only at hp
    split at hp
    · simp at hp
    · split at hp
      · simp at hp
      · rename_i walletID b4 hw
        split at hp
        · simp at hp
        · have r1 := hb binaryBlock 1
          have r2 := hb (binaryBlock.drop 1) 4
          have r3 := hb ((binaryBlock.drop 1).drop 4) 4
          have r4 := hb b4 1
          have q1 : ((256 ^ 1 : Nat) : Int) = 256 := by norm_num
          have q4 : ((256 ^ 4 : Nat) : Int) = 4294967296 := by norm_num
          rw [q1] at r1 r4
          rw [q4] at r2 r3
          split at hp
          · split at hp
            · simp at hp
            · split at hp
              · simp at hp
              · simp only [Except.ok.injEq, Prod.mk.injEq] at hp
                obtain ⟨h1, -⟩ := hp
                subst h1
                dsimp only
                exact ⟨r2, r1, r4, r3⟩
          · simp only [Except.ok.injEq, Prod.mk.injEq] at hp
            obtain ⟨h1, -⟩ := hp
            subst h1
            dsimp only
            exact ⟨r2, r1, r4, r3⟩

/-- Witness for C26: the header of `Demo.secondPayload`, with id 2, version 1, state 1
and time 1400000005. -/
theorem C26_header_ranges_witness :
    ParseBlockHeader Demo.env Demo.secondPayload =
        .ok ({ Demo.secondHeader with Sign := [24, 198] },
          [4, 1, 2, 3, 4, 5, 129, 2, 7, 9, 0, 6, 5, 9, 9, 1, 1, 1]) ∧
      ((0 ≤ (2 : Int) ∧ (2 : Int) < 4294967296) ∧ (0 ≤ (1 : Int) ∧ (1 : Int) < 256) ∧
        (0 ≤ (1 : Int) ∧ (1 : Int) < 256) ∧
        (0 ≤ (1400000005 : Int) ∧ (1400000005 : Int) < 4294967296)) :=
  ⟨by decide,
    C26_header_ranges Demo.env Demo.secondPayload
      [4, 1, 2, 3, 4, 5, 129, 2, 7, 9, 0, 6, 5, 9, 9, 1, 1, 1]
      { Demo.secondHeader with Sign := [24, 198] } (by decide)⟩

/-! ## C27: the nil record in the error branch of `parseBlock` -/

/-- When `ParseTransaction` fails on a frame and returns no record, the loop of
`parseBlock` stops at the read of `p.TxHash`. -/
theorem parseTransactions_nil_record (env : Env) (header : BlockData)
    (allKeys : List (String × String)) (fuel : Nat) (s s1 : Store) (buf buf1 : Bytes)
    (size : Nat) (parsers : List Parser) (mrkl : List Bytes) (e : Err)
    (hdec : DecodeLengthBuf buf = .ok (size, buf1)) (hpos : 0 < size)
    (hlen : size ≤ buf1.length)
    (hp : ParseTransaction env s (buf1.take size) = (none, some e, s1)) :
    parseTransactions env header allKeys (fuel + 1) s buf parsers mrkl =
      (Res.panic "nil pointer dereference: p.TxHash", s1) := by
  have hne : ¬ buf.length = 0 := by
    have := DecodeLengthBuf_shorter _ _ _ hdec
    omega
  have h1 : ¬ buf1.length < size := by omega
  have h2 : ¬ size = 0 := by omega
  unfold parseTransactions
  simp only [hne, if_false, hdec, h1, h2, hp]

/-- Claim C27, at the failing inputs: the one frame of `Demo.badContractFrame` is of the
contract dialect and that of `Demo.badStructFrame` of the struct dialect; on both
`ParseTransaction` fails and returns no record, and `parseBlock` neither returns a
block nor an error: it stops at the read of `p.TxHash` on the nil record. On the same
frame in the regular dialect the record is returned and `parseBlock` returns the
error. -/
theorem C27_nil_record_dereferenced :
    (ParseTransaction Demo.env Demo.store0 [129]).1 = none ∧
      (ParseTransaction Demo.env Demo.store0 [129]).2.1 =
        some "msgpack: unexpected end of input" ∧
      (parseBlock Demo.env Demo.store0 Demo.badContractFrame).1 =
        Res.panic "nil pointer dereference: p.TxHash" ∧
      (ParseTransaction Demo.env Demo.store0 [1]).1 = none ∧
      (ParseTransaction Demo.env Demo.store0 [1]).2.1 = some "input slice is short" ∧
      (parseBlock Demo.env Demo.store0 Demo.badStructFrame).1 =
        Res.panic "nil pointer dereference: p.TxHash" ∧
      (ParseTransaction Demo.env Demo.store0 [5]).1.map (fun p => p.TxHash) = some [1, 5] ∧
      (parseBlock Demo.env Demo.store0
          [1, 0, 0, 0, 2, 83, 114, 78, 5, 1, 5, 1, 2, 24, 198, 1, 5]).1 =
        Res.error "parse transaction error(tx header is nil)" := by
  refine ⟨by decide, by decide, by decide!, by decide, by decide, by decide!, by decide,
    by decide!⟩

/-! ## C28: the message signed and the message checked -/

/-- Counterexample to C28 as stated: the state id of `Demo.wideHeader` is 300.
`MarshallBlock` signs the string with this state id and writes the state id in one
byte; the block parsed back has the state id 44, `CheckHash` verifies the string with
the state id 44 against the signature of the other string, and the check fails
although the key is the node's and the previous hash is the one signed. -/
theorem C28_state_beyond_one_byte_not_verified :
    1 < Demo.wideHeader.BlockID ∧
      MarshallBlock Demo.env Demo.wideHeader Demo.frames [7] "\x01" = .ok Demo.widePayload ∧
      (parseBlock Demo.env Demo.store0 Demo.widePayload).1 =
        Res.ok (Demo.parsed Demo.widePayload) ∧
      (Demo.parsed Demo.widePayload).Header.StateID = 44 ∧
      Demo.env.sign "\x01"
          (forSignString Demo.wideHeader.BlockID [7] Demo.wideHeader.Time
            Demo.wideHeader.WalletID Demo.wideHeader.StateID
            (Demo.parsed Demo.widePayload).MrklRoot) =
        .ok (Demo.parsed Demo.widePayload).Header.Sign ∧
      forSignString (Demo.parsed Demo.widePayload).Header.BlockID Demo.previousHeader.Hash
          (Demo.parsed Demo.widePayload).Header.Time
          (Demo.parsed Demo.widePayload).Header.WalletID
          (Demo.parsed Demo.widePayload).Header.StateID
          (Demo.parsed Demo.widePayload).MrklRoot ≠
        forSignString Demo.wideHeader.BlockID [7] Demo.wideHeader.Time
          Demo.wideHeader.WalletID Demo.wideHeader.StateID
          (Demo.parsed Demo.widePayload).MrklRoot ∧
      Block.CheckHash Demo.env Demo.store0
          { Demo.parsed Demo.widePayload with PrevHeader := some Demo.previousHeader } =
        (false, none) := by
  refine ⟨by decide, by decide!, by decide!, by decide!, by decide!, by decide!, by decide!⟩

/-- Claim C28, amended: for a header with block id above 1 whose fields are in the
ranges of the binary format (version and state in 0..255, id and time in the u32
range, a wallet the varint decodes back), transactions `ParseTransaction` accepts and
a non-empty key, the string `m` that `MarshallBlock` signs (the header fields, the
previous hash and the Merkle root of the hex double hashes) is the string `CheckHash`
builds on the block parsed back, for every previous header whose hash is the previous
hash signed; the signature of the parsed block is `sign(key, m)`, and with a node key
found and not empty `CheckHash` answers what `check_sign` answers on the node key, `m`
and this signature. -/
theorem C28_signed_message_checked (env : Env) (s : Store) (header : BlockData)
    (trData : List Bytes) (prevHash : Bytes) (key : String) (data : Bytes)
    (hver : 0 ≤ header.Version ∧ header.Version < 256)
    (hstate : 0 ≤ header.StateID ∧ header.StateID < 256)
    (hid : 1 < header.BlockID ∧ header.BlockID < 4294967296)
    (htime : 0 ≤ header.Time ∧ header.Time < 4294967296)
    (hkey : key ≠ "")
    (hwallet : ∀ rest, env.decodeLenInt64Buf (env.encodeLenInt64InPlace header.WalletID ++ rest)
      = .ok (header.WalletID, rest))
    (hlen : ∀ tx ∈ trData, tx.length < 2 ^ 64)
    (hsig : ∀ msg sig, env.sign key msg = .ok sig → sig.length < 2 ^ 64)
    (hacc : ∀ tx ∈ trData, ∀ st, ∃ p st1, ParseTransaction env st tx = (some p, none, st1))
    (hm : MarshallBlock env header trData prevHash key = .ok data)
    (hsize : (data.length : Int) - 1 ≤ env.maxBlockSize)
    (htables : ∃ allKeys, getAllTables env s = .ok allKeys) :
    ∃ block s1 m sig mrklArray body,
      parseBlock env s data = (Res.ok block, s1) ∧
      marshallTransactions env trData [] [] = .ok (mrklArray, body) ∧
      m = forSignString header.BlockID prevHash header.Time header.WalletID header.StateID
        (env.merkleTreeRoot
          (if mrklArray.length = 0 then mrklArray ++ [strBytes "0"] else mrklArray)) ∧
      env.sign key m = .ok sig ∧
      block.Header.Sign = sig ∧
      ∀ prev : BlockData, prev.Hash = prevHash →
        forSignString block.Header.BlockID prev.Hash block.Header.Time block.Header.WalletID
          block.Header.StateID block.MrklRoot = m ∧
        ∀ s2, Block.CheckHash env s2 { block with PrevHeader := some prev } =
          match env.getNodePublicKeyWalletOrCB s2 header.WalletID header.StateID with
          | .error e => (false, some (ErrInfo e))
          | .ok nodeKey =>
            if nodeKey.length = 0 then (false, some (ErrInfo "empty nodePublicKey"))
            else
              match env.checkSign [nodeKey] m sig true with
              | .error e =>
                (false, some (ErrInfo ("err: " ++ e ++ " / p.PrevBlock.BlockId: " ++
                  toString prev.BlockID)))
              | .ok verdict => (verdict, none) := by
  unfold MarshallBlock at hm
  split at hm
  · simp at hm
  · rename_i mrklArray blockDataTx hmt
    obtain ⟨hbody, ms, hms, hf⟩ := marshallTransactions_ok env trData [] _ [] _ hmt
    simp only [List.nil_append] at hbody hms
    dsimp only at hm
    split at hm
    · simp at hm
    · rename_i signed hsigned
      simp only [Except.ok.injEq] at hm
      simp only [ne_eq, hkey, not_false_eq_true, if_true] at hsigned
      have hsl : signed.length < 2 ^ 64 := hsig _ _ hsigned
      have hv1 := DecToBin_length header.Version 1
      have hsize2 : ((DecToBin header.BlockID 4 ++ DecToBin header.Time 4 ++
          env.encodeLenInt64InPlace header.WalletID ++ DecToBin header.StateID 1 ++
          EncodeLengthPlusData signed ++ blockDataTx).length : Int) ≤ env.maxBlockSize := by
        rw [← hm] at hsize
        simp only [List.length_append, hv1] at hsize ⊢
        push_cast at hsize ⊢
        omega
      have hhead := ParseBlockHeader_marshalled env header signed blockDataTx hver hstate
        ⟨by omega, hid.2⟩ htime hwallet hsl (fun h1 => by omega) hsize2
      obtain ⟨allKeys, hkeys⟩ := htables
      obtain ⟨ps, s1, hps, -, -⟩ := parseTransactions_framed env
        { BlockID := header.BlockID, Time := header.Time, WalletID := header.WalletID,
          StateID := header.StateID, Sign := signed, Hash := [], Version := header.Version }
        allKeys trData blockDataTx.length s [] [] ms (by rw [hbody]) hlen hacc hf
      rw [← hbody] at hps
      have hpb : parseBlock env s data = (Res.ok
          { Header := { BlockID := header.BlockID, Time := header.Time,
                        WalletID := header.WalletID, StateID := header.StateID, Sign := signed,
                        Hash := [], Version := header.Version },
            PrevHeader := none,
            MrklRoot := env.merkleTreeRoot
              (if ([] ++ ms).length = 0 then ([] ++ ms) ++ [strBytes "0"] else [] ++ ms),
            BinData := [], Parsers := [] ++ ps }, s1) := by
        unfold parseBlock
        rw [← hm, hhead]
        simp only [hkeys, hps]
      have hne1 : ¬ header.BlockID = 1 := by omega
      refine ⟨_, s1, _, signed, mrklArray, blockDataTx, hpb, hmt, rfl, hsigned, rfl, ?_⟩
      intro prev hprev
      refine ⟨?_, ?_⟩
      · simp only [hprev, hms, List.nil_append]
      · intro s2
        simp only [Block.CheckHash, hne1, if_false, hprev, hms, List.nil_append]
set_option maxRecDepth 4000 in
/-- Witness for C28: `Demo.signedPayload` is `MarshallBlock` of `Demo.secondHeader` and
`Demo.frames` under the node key; the block parsed back passes `CheckHash` after a
previous header with the hash signed. -/
theorem C28_signed_message_checked_witness :
    ∃ block s1 m sig,
      parseBlock Demo.env Demo.store0 Demo.signedPayload = (Res.ok block, s1) ∧
      Demo.env.sign "\x01" m = .ok sig ∧
      block.Header.Sign = sig ∧
      forSignString block.Header.BlockID Demo.previousHeader.Hash block.Header.Time
        block.Header.WalletID block.Header.StateID block.MrklRoot = m ∧
      Block.CheckHash Demo.env Demo.store0
        { block with PrevHeader := some Demo.previousHeader } = (true, none) := by
  obtain ⟨block, s1, m, sig, mrkl, body, h1, -, -, h4, h5, h6⟩ :=
    C28_signed_message_checked Demo.env Demo.store0 Demo.secondHeader Demo.frames [7] "\x01"
      Demo.signedPayload
      (by decide) (by decide) (by decide) (by decide) (by decide)
      (fun rest => by
        have h : Demo.env.encodeLenInt64InPlace Demo.secondHeader.WalletID = [1, 5] := by decide
        rw [h]
        simp [Demo.env, Demo.decodeLenInt64, Demo.secondHeader, beValue, wrapInt64]
        decide)
      (by decide)
      (fun msg sig h => by
        simp only [Demo.env, Except.ok.injEq] at h
        rw [← h]; simp [Demo.digest])
      (by
        intro tx htx st
        simp only [Demo.frames, List.mem_cons, List.mem_singleton, List.not_mem_nil,
          or_false] at htx
        rcases htx with rfl | rfl | rfl
        · exact ⟨_, _, rfl⟩
        · exact ⟨_, _, rfl⟩
        · exact ⟨_, _, rfl⟩)
      (by decide!) (by decide) ⟨_, rfl⟩
  obtain ⟨h7, h8⟩ := h6 Demo.previousHeader rfl
  refine ⟨block, s1, m, sig, h1, h4, h5, h7, ?_⟩
  rw [h8]
  have hs : sig = Demo.digest (strBytes "\x01" ++ m) := by
    simp only [Demo.env, Except.ok.injEq] at h4
    exact h4.symm
  have hk : strBytes "\x01" = [1] := by decide
  rw [hk] at hs
  simp [Demo.env, hs]

/-! ## C29: the result of the commit -/

theorem playParsers_commit (env : Env) (blockID : Int) (h : Handle)
    (commit : Store → Option Err) :
    ∀ (parsers : List Parser) (s : Store) (done : List Parser),
      playParsers { env with commit := commit } blockID h parsers s done =
        playParsers env blockID h parsers s done := by
  intro parsers
  induction parsers with
  | nil => intro _ _; rfl
  | cons p rest ih =>
    intro s done
    unfold playParsers
    simp only [ih]
    rfl

/-- The error `PlayBlockSafe` returns does not depend on what the commit answers. -/
theorem PlayBlockSafe_commit_ignored (env : Env) (s : Store) (block : Block)
    (commit : Store → Option Err) :
    (block.PlayBlockSafe { env with commit := commit } s).1 = (block.PlayBlockSafe env s).1 := by
  unfold Block.PlayBlockSafe
  have hst : ∀ s0, StartTransaction { env with commit := commit } s0 =
      StartTransaction env s0 := fun _ => rfl
  rw [hst]
  rcases StartTransaction env s with ⟨_ | e, s1⟩
  · have hpb1 : Block.playBlock { env with commit := commit } s1 block Handle.tx =
        Block.playBlock env s1 block Handle.tx := by
      unfold Block.playBlock
      simp only [playParsers_commit]
      rfl
    simp only [hpb1]
    rcases Block.playBlock env s1 block Handle.tx with ⟨_ | e, s2, block1⟩
    · have hu : UpdBlockInfo { env with commit := commit } s2 Handle.tx block1 =
          UpdBlockInfo env s2 Handle.tx block1 := rfl
      simp only [hu]
      rcases UpdBlockInfo env s2 Handle.tx block1 with ⟨_ | e, s3⟩
      · have hi : InsertIntoBlockchain { env with commit := commit } s3 Handle.tx block1 =
            InsertIntoBlockchain env s3 Handle.tx block1 := rfl
        simp only [hi]
        rcases InsertIntoBlockchain env s3 Handle.tx block1 with ⟨_ | e, s4⟩
        · rfl
        · rfl
      · rfl
    · rfl
  · rfl

/-- Claim C29, at the failing input: on `Demo.badMiddleBlock`, over a storage layer whose
commit fails, `PlayBlockSafe` returns nil; its last call is the failed commit, and of
all the rows of the block only the used-marker written with the nil handle is in the
durable state, where a commit that succeeds leaves fourteen rows. -/
theorem C29_failed_commit_returns_nil :
    (Demo.badMiddleBlock.PlayBlockSafe Demo.commitFailEnv Demo.store0).1 = none ∧
      (Demo.badMiddleBlock.PlayBlockSafe Demo.commitFailEnv Demo.store0).2.trace.getLast? =
        some (Op.commit, false) ∧
      (Demo.badMiddleBlock.PlayBlockSafe Demo.commitFailEnv Demo.store0).2.durable =
        [Row.used [2]] ∧
      (Demo.badMiddleBlock.PlayBlockSafe Demo.env Demo.store0).2.durable.length = 14 := by
  refine ⟨by decide!, by decide!, by decide!, by decide!⟩

/-! ## C30: struct-dialect transactions have no user id -/

/-- The fields `parseStructTransaction` sets: the parser, the decoded record, and the
citizen, wallet, time and type of the transaction; every other field is as it was. -/
theorem parseStructTransaction_sets (env : Env) (p q : Parser) (buf : Bytes) (txType : Int)
    (h : parseStructTransaction env p buf txType = .ok q) :
    q = { p with txParser := q.txParser, TxPtr := q.TxPtr, TxCitizenID := q.TxCitizenID,
                 TxWalletID := q.TxWalletID, TxTime := q.TxTime, TxType := q.TxType } := by
  unfold parseStructTransaction at h
  split at h
  · simp at h
  · dsimp only at h
    split at h
    · simp at h
    · simp only [Except.ok.injEq] at h
      subst h
      rfl

/-- A record of the struct dialect leaves `ParseTransaction` with `TxUserID` 0 and no
resolved contract. -/
theorem ParseTransaction_struct_user (env : Env) (s s1 : Store) (b : Byte) (rest : Bytes)
    (p : Parser) (hc : IsContractTransaction b.val = false) (hst : env.isStruct b.val = true)
    (h : ParseTransaction env s (b :: rest) = (some p, none, s1)) :
    p.TxUserID = 0 ∧ p.TxContract = none := by
  unfold ParseTransaction at h
  split at h
  · simp at h
  · rename_i b1 rest1 heq
    simp only [List.cons.injEq] at heq
    obtain ⟨hb, hr⟩ := heq
    subst hb
    subst hr
    split at h
    · simp at h
    · dsimp only at h
      simp only [hc, hst, if_true, if_false, Bool.false_eq_true] at h
      split at h
      · simp at h
      · rename_i p2 hp2
        simp only [Prod.mk.injEq, Option.some.injEq] at h
        have hs := parseStructTransaction_sets _ _ _ _ _ hp2
        rw [← h.1, hs]
        exact ⟨rfl, rfl⟩

/-- The records the loop of `parseBlock` appends: each is a record `ParseTransaction`
returned on its own frame, with the header of the block and the table keys attached. -/
theorem parseTransactions_records (env : Env) (header : BlockData)
    (allKeys : List (String × String)) :
    ∀ (fuel : Nat) (s s1 : Store) (buf : Bytes) (parsers ps : List Parser)
      (mrkl ms : List Bytes),
      parseTransactions env header allKeys fuel s buf parsers mrkl = (Res.ok (ps, ms), s1) →
      ∃ new, ps = parsers ++ new ∧
        ∀ q ∈ new, ∃ p st st1, ParseTransaction env st q.TxFullData = (some p, none, st1) ∧
          q = { p with BlockData := some header, AllPkeys := allKeys } := by
  intro fuel
  induction fuel with
  | zero =>
    intro s s1 buf parsers ps mrkl ms h
    unfold parseTransactions at h
    split at h
    · simp only [Prod.mk.injEq, Res.ok.injEq] at h
      exact ⟨[], by simp [h.1.1], by simp⟩
    · simp at h
  | succ fuel ih =>
    intro s s1 buf parsers ps mrkl ms h
    unfold parseTransactions at h
    split at h
    · simp only [Prod.mk.injEq, Res.ok.injEq] at h
      exact ⟨[], by simp [h.1.1], by simp⟩
    · dsimp only at h
      split at h
      · simp at h
      · rename_i transactionSize buf1 hdec
        split at h
        · simp at h
        · split at h
          · simp at h
          · split at h
            · simp at h
            · simp at h
            · simp at h
            · rename_i p s2 hp
              obtain ⟨hne, hfull, -⟩ := ParseTransaction_record _ _ _ _ _ _ hp
              have hpos : p.TxFullData.length > 0 := by
                rw [hfull]; exact List.length_pos.mpr hne
              simp only [hpos, if_true] at h
              split at h
              · simp at h
              · rename_i dh hdh
                obtain ⟨new, h1, h2⟩ := ih _ _ _ _ _ _ _ h
                refine ⟨{ p with BlockData := some header, AllPkeys := allKeys } :: new,
                  by simp [h1], ?_⟩
                intro q hq
                rcases List.mem_cons.mp hq with hq1 | hq1
                · refine ⟨p, s, s2, ?_, hq1⟩
                  rw [hq1]
                  show ParseTransaction env s p.TxFullData = _
                  rw [hfull]
                  exact hp
                · exact h2 q hq1

/-- A transaction with no resolved contract and no user id, attached to a block other
than the first, does not pass `checkTransaction`. -/
theorem checkTransaction_no_author (env : Env) (s : Store) (q : Parser) (checkTime : Int)
    (dup : Bool) (blockData : BlockData) (hc : q.TxContract = none)
    (hb : q.BlockData = some blockData) (hid : blockData.BlockID ≠ 1) (hu : q.TxUserID = 0) :
    ∃ e, checkTransaction env s q checkTime dup = some e := by
  unfold checkTransaction
  split
  · exact ⟨_, rfl⟩
  · split
    · exact ⟨_, rfl⟩
    · split
      · exact ⟨_, rfl⟩
      · simp only [hc, hb, hid, hu, ne_eq, not_false_eq_true, if_true]
        exact ⟨_, rfl⟩

/-- The loop of `CheckBlock` returns an error when one of the transactions does not pass
`checkTransaction`. -/
theorem checkParsers_error_of_mem (env : Env) (s : Store) (block : Block) (q : Parser)
    (hq : ∃ e, checkTransaction env s q block.Header.Time false = some e) :
    ∀ (ps : List Parser) (txCounter : List (Int × Int)) (txHashes : List Bytes),
      q ∈ ps → ∃ e, checkParsers env s block ps txCounter txHashes = some e := by
  intro ps
  induction ps with
  | nil => intro _ _ h; simp at h
  | cons p rest ih =>
    intro txCounter txHashes hmem
    unfold checkParsers
    dsimp only
    split
    · exact ⟨_, rfl⟩
    · split
      · exact ⟨_, rfl⟩
      · split
        · exact ⟨_, rfl⟩
        · rename_i hnone
          rcases List.mem_cons.mp hmem with h1 | h1
          · subst h1
            obtain ⟨e, he⟩ := hq
            rw [he] at hnone
            simp at hnone
          · exact ih _ _ h1
/-- Claim C30: `parseStructTransaction` sets the parser, the decoded record and the
citizen, wallet, time and type of the transaction, and no user id. So in every block
`parseBlock` returns, a transaction whose frame is of the struct dialect has `TxUserID`
0, the key under which `CheckBlock` counts it, and no resolved contract; and when the
id of the block is not 1, `CheckBlock` returns an error on the block, whatever previous
header is attached to it. -/
theorem C30_struct_transaction_rejected (env : Env) (s s1 : Store) (payload : Bytes)
    (block : Block) (q : Parser) (b : Byte) (rest : Bytes)
    (h : parseBlock env s payload = (Res.ok block, s1))
    (hq : q ∈ block.Parsers) (hframe : q.TxFullData = b :: rest)
    (hnc : IsContractTransaction b.val = false) (hst : env.isStruct b.val = true) :
    (∀ (p0 q0 : Parser) (buf : Bytes) (txType : Int),
        parseStructTransaction env p0 buf txType = .ok q0 →
        q0 = { p0 with txParser := q0.txParser, TxPtr := q0.TxPtr,
                       TxCitizenID := q0.TxCitizenID, TxWalletID := q0.TxWalletID,
                       TxTime := q0.TxTime, TxType := q0.TxType }) ∧
      q.TxUserID = 0 ∧ q.TxContract = none ∧
      (block.Header.BlockID ≠ 1 →
        ∀ (s2 : Store) (prev : Option BlockData) (binData : Bytes),
          ∃ e, Block.CheckBlock env s2
            { block with PrevHeader := prev, BinData := binData } = some e) := by
  have hrec : q.BlockData = some block.Header ∧ q.TxUserID = 0 ∧ q.TxContract = none := by
    unfold parseBlock at h
    split at h
    · simp at h
    · rename_i header body hh
      split at h
      · simp at h
      · rename_i allKeys hk
        split at h
        · simp at h
        · simp at h
        · rename_i parsers mrklSlice s2 hpt
          simp only [Prod.mk.injEq, Res.ok.injEq] at h
          obtain ⟨hb, -⟩ := h
          subst hb
          obtain ⟨new, h1, h2⟩ := parseTransactions_records _ _ _ _ _ _ _ _ _ _ _ hpt
          simp only [List.nil_append] at h1
          subst h1
          obtain ⟨p, st, st1, hp, hqp⟩ := h2 q hq
          rw [hframe] at hp
          obtain ⟨hu, hc⟩ := ParseTransaction_struct_user env st st1 b rest p hnc hst hp
          rw [hqp]
          exact ⟨rfl, hu, hc⟩
  obtain ⟨hbd, hu, hc⟩ := hrec
  refine ⟨fun p0 q0 buf txType h0 => parseStructTransaction_sets env p0 q0 buf txType h0,
    hu, hc, ?_⟩
  intro hid s2 prev binData
  have hct : ∃ e, checkTransaction env s2 q block.Header.Time false = some e :=
    checkTransaction_no_author env s2 q _ _ block.Header hc hbd hid hu
  obtain ⟨e, he⟩ := checkParsers_error_of_mem env s2
    { block with PrevHeader := prev, BinData := binData } q hct block.Parsers [] [] hq
  rw [Block.CheckBlock_stages]
  split
  · exact ⟨_, rfl⟩
  · simp only [Block.checkTransactionsAndHash, he]
    exact ⟨_, rfl⟩

/-- Witness for C30: the two transactions of `Demo.structPayload`, a block of id 2, are of
the struct dialect; both have `TxUserID` 0, and `InsertBlock` rejects the block for the
empty user id. -/
theorem C30_struct_transaction_rejected_witness :
    (Demo.parsed Demo.structPayload).Parsers.map (fun p => (p.TxFullData, p.TxUserID)) =
        [([1, 2, 3, 4], 0), ([1, 7, 8, 9], 0)] ∧
      (∃ e, Block.CheckBlock Demo.earlyEnv Demo.store0
        { Demo.parsed Demo.structPayload with
          PrevHeader := some Demo.previousHeader, BinData := Demo.structPayload } = some e) ∧
      (InsertBlock Demo.earlyEnv Demo.store0 Demo.structPayload).1 =
        Res.error "emtpy user id" :=
  ⟨by decide!,
    (C30_struct_transaction_rejected Demo.earlyEnv Demo.store0
      (parseBlock Demo.earlyEnv Demo.store0 Demo.structPayload).2 Demo.structPayload
      (Demo.parsed Demo.structPayload)
      ((Demo.parsed Demo.structPayload).Parsers.headD Parser.new) 1 [2, 3, 4]
      (by decide!) (by decide!) (by decide!) (by decide) (by decide)).2.2.2 (by decide!)
      Demo.store0 (some Demo.previousHeader) Demo.structPayload,
    by decide!⟩

/-! ## C31: an empty field at the end of an old transaction -/

theorem dropLastEmpty_append_empty (fs : List Bytes) : dropLastEmpty (fs ++ [[]]) = fs := by
  simp [dropLastEmpty]

/-- A list of fields that ends in an empty field is the rest followed by that field. -/
theorem dropLastEmpty_of_last_empty (fs : List Bytes) (h : fs.getLast? = some []) :
    dropLastEmpty fs ++ [[]] = fs ∧ (dropLastEmpty fs).length + 1 = fs.length := by
  have hd : dropLastEmpty fs = fs.dropLast := by simp [dropLastEmpty, h]
  have hne : fs ≠ [] := by
    intro hc
    rw [hc] at h
    simp at h
  have hl : fs.getLast hne = [] := by
    rw [List.getLast?_eq_getLast _ hne] at h
    simpa using h
  have hfs : fs.dropLast ++ [[]] = fs := by
    rw [← hl]
    exact List.dropLast_append_getLast hne
  refine ⟨by rw [hd, hfs], ?_⟩
  rw [hd, List.length_dropLast]
  have : 0 < fs.length := List.length_pos.mpr hne
  omega

/-- After a well-framed input, one more length prefix that decodes to zero gives one more
field, an empty one. -/
theorem oldFields_append_zero (maxSize : Int) (hmax : 0 ≤ maxSize) :
    ∀ (fuel : Nat) (pre : Bytes) (fs : List Bytes), oldFields maxSize fuel pre = some fs →
      ∀ (front : Bytes) (fuel1 : Nat),
        (∀ tail, DecodeLengthBuf (front ++ tail) = .ok (0, tail)) →
        (pre ++ front).length ≤ fuel1 →
        oldFields maxSize fuel1 (pre ++ front) = some (fs ++ [[]]) := by
  have hbase : ∀ (front : Bytes) (fuel1 : Nat),
      (∀ tail, DecodeLengthBuf (front ++ tail) = .ok (0, tail)) → front.length ≤ fuel1 →
      oldFields maxSize fuel1 front = some [[]] := by
    intro front fuel1 hfront hfuel
    have hdec : DecodeLengthBuf front = .ok (0, []) := by
      have := hfront []
      simpa using this
    have hsh := DecodeLengthBuf_shorter _ _ _ hdec
    cases front with
    | nil => simp at hsh
    | cons c cs =>
      cases fuel1 with
      | zero => simp at hfuel
      | succ fuel1 =>
        have hm : ¬ ((0 : Nat) : Int) > maxSize := by
          simp only [Nat.cast_zero, gt_iff_lt, not_lt]
          exact hmax
        rw [oldFields, hdec]
        simp only [List.length_nil, Nat.lt_irrefl, if_false, hm, List.drop_nil, List.take_nil]
        cases fuel1 <;> simp [oldFields]
  intro fuel
  induction fuel with
  | zero =>
    intro pre fs h front fuel1 hfront hfuel
    cases pre with
    | cons b tl => simp [oldFields] at h
    | nil =>
      simp only [oldFields, Option.some.injEq] at h
      subst h
      simp only [List.nil_append] at hfuel ⊢
      exact hbase front fuel1 hfront hfuel
  | succ fuel ih =>
    intro pre fs h front fuel1 hfront hfuel
    cases pre with
    | nil =>
      simp only [oldFields, Option.some.injEq] at h
      subst h
      simp only [List.nil_append] at hfuel ⊢
      exact hbase front fuel1 hfront hfuel
    | cons b tl =>
      simp only [oldFields] at h
      split at h
      · simp at h
      · rename_i size buf1 hd
        split at h
        · simp at h
        · rename_i hb1
          split at h
          · simp at h
          · rename_i hb2
            split at h
            · simp at h
            · rename_i tl1 htl
              simp only [Option.some.injEq] at h
              subst h
              obtain ⟨fr, -, hfr, hany⟩ := DecodeLengthBuf_prefix _ _ _ hd
              have hd2 : DecodeLengthBuf (b :: tl ++ front) = .ok (size, buf1 ++ front) := by
                rw [hfr, List.append_assoc]
                exact hany _
              have hsh := DecodeLengthBuf_shorter _ _ _ hd2
              cases fuel1 with
              | zero => simp at hfuel
              | succ fuel1 =>
                have hlen : ¬ (buf1 ++ front).length < size := by
                  simp only [List.length_append]; omega
                have hdrop : (buf1 ++ front).drop size = buf1.drop size ++ front := by
                  rw [List.drop_append_of_le_length (by omega)]
                have htake : (buf1 ++ front).take size = buf1.take size := by
                  rw [List.take_append_of_le_length (by omega)]
                have hrec := ih (buf1.drop size) tl1 htl front fuel1 hfront (by
                  rw [← hdrop]
                  simp only [List.length_drop]
                  simp only [List.length_append, List.length_cons] at hfuel hsh ⊢
                  omega)
                simp only [List.cons_append] at hd2
                rw [List.cons_append, oldFields, hd2]
                simp only [hlen, hb2, if_false, hdrop, hrec, htake, List.cons_append]
/-- Counterexample to C31 as stated: `ParseOldTransaction` succeeds on `Demo.oldTx`, which
ends in an empty field, with the fields `ab`, empty and `c`; with one more zero-length
field appended, the empty field that was last is kept and the result has one more
element. -/
theorem C31_second_empty_field_changes_result :
    ParseOldTransaction Demo.env Demo.oldTx =
        (some [[], [], strBytes "1400000005", strBytes "ab", [], strBytes "c"], none) ∧
      DecodeLengthBuf [0] = .ok (0, []) ∧
      ParseOldTransaction Demo.env (Demo.oldTx ++ [0]) =
        (some [[], [], strBytes "1400000005", strBytes "ab", [], strBytes "c", []], none) := by
  refine ⟨by decide, by decide, by decide⟩

/-- Claim C31, amended: when `ParseOldTransaction` succeeds, what follows the time is
well framed into k fields and the result is the two placeholders, the time and the
fields in order, a zero-length field being an empty slice, less the last field when
that is empty: 3 + k elements, or 3 + k - 1. Appending one zero-length field leaves
the result unchanged when the last field of the input is not empty; when it is empty,
the result gains one empty slice, the field that was last. -/
theorem C31_trailing_empty_field (env : Env) (buffer front : Bytes) (result : List Bytes)
    (h : ParseOldTransaction env buffer = (some result, none))
    (hfront : ∀ tail, DecodeLengthBuf (front ++ tail) = .ok (0, tail)) :
    ∃ fs, oldFields env.MAX_TX_SIZE (buffer.drop 4).length (buffer.drop 4) = some fs ∧
      result = [[], [], Int64ToByte (BinToDec (buffer.take 4))] ++ dropLastEmpty fs ∧
      (fs.getLast? ≠ some [] →
        result.length = 3 + fs.length ∧
        ParseOldTransaction env (buffer ++ front) = (some result, none)) ∧
      (fs.getLast? = some [] →
        result.length + 1 = 3 + fs.length ∧
        ParseOldTransaction env (buffer ++ front) = (some (result ++ [[]]), none)) := by
  unfold ParseOldTransaction at h
  dsimp only at h
  split at h
  · simp at h
  · rename_i hlen
    split at h
    · simp at h
    · rename_i r hr
      simp only [Prod.mk.injEq, Option.some.injEq, and_true] at h
      subst h
      obtain ⟨fs, h1, h2⟩ := parseOldFields_ok env _ _ _ _ hr
      obtain ⟨hmaxall, -⟩ := oldFields_body _ _ _ _ h1
      have hb4 : 4 ≤ buffer.length := by
        simp only [List.length_drop] at hlen
        omega
      have hfs : fs ≠ [] := by
        cases hd : buffer.drop 4 with
        | nil => rw [hd] at hlen; simp at hlen
        | cons b rest =>
          rw [hd] at h1
          exact oldFields_ne_nil _ _ _ _ _ h1
      have hmax : 0 ≤ env.MAX_TX_SIZE := by
        cases fs with
        | nil => exact absurd rfl hfs
        | cons f tl =>
          have := hmaxall f (List.mem_cons_self _ _)
          have h0 : (0 : Int) ≤ (f.length : Int) := Int.ofNat_nonneg _
          omega
      have happ := oldFields_append_zero env.MAX_TX_SIZE hmax _ _ _ h1 front
        (buffer.drop 4 ++ front).length hfront (le_refl _)
      have hdrop : (buffer ++ front).drop 4 = buffer.drop 4 ++ front :=
        List.drop_append_of_le_length hb4
      have htake : (buffer ++ front).take 4 = buffer.take 4 :=
        List.take_append_of_le_length hb4
      have hne : ¬ (buffer.drop 4 ++ front).length = 0 := by
        simp only [List.length_append]
        omega
      have hnew : ParseOldTransaction env (buffer ++ front) =
          (some ([[], [], Int64ToByte (BinToDec (buffer.take 4))] ++ fs), none) := by
        unfold ParseOldTransaction
        simp only [hdrop, htake, hne, if_false,
          parseOldFields_of_oldFields env _ _ _ _ happ, dropLastEmpty_append_empty]
      refine ⟨fs, h1, h2, ?_, ?_⟩
      · intro hlast
        have hd : dropLastEmpty fs = fs := by simp [dropLastEmpty, hlast]
        rw [hd] at h2
        refine ⟨by rw [h2]; simp; omega, ?_⟩
        rw [hnew, h2]
      · intro hlast
        obtain ⟨e1, e2⟩ := dropLastEmpty_of_last_empty fs hlast
        refine ⟨?_, ?_⟩
        · rw [h2]
          simp only [List.length_append, List.length_cons, List.length_nil]
          omega
        · rw [hnew, h2, List.append_assoc, e1]

/-- Witness for C31: the input with the time and the one field `c` keeps its result when a
zero-length field is appended. -/
theorem C31_trailing_empty_field_witness :
    ParseOldTransaction Demo.env [83, 114, 78, 5, 1, 99] =
        (some [[], [], strBytes "1400000005", strBytes "c"], none) ∧
      ParseOldTransaction Demo.env ([83, 114, 78, 5, 1, 99] ++ [0]) =
        (some [[], [], strBytes "1400000005", strBytes "c"], none) := by
  obtain ⟨fs, h1, -, h3, -⟩ := C31_trailing_empty_field Demo.env [83, 114, 78, 5, 1, 99] [0]
    [[], [], strBytes "1400000005", strBytes "c"] (by decide) (fun tail => rfl)
  have hfs : fs = [[99]] := by
    have : oldFields Demo.env.MAX_TX_SIZE 2 [1, 99] = some [[99]] := by decide
    have h1' : oldFields Demo.env.MAX_TX_SIZE 2 [1, 99] = some fs := h1
    rw [this] at h1'
    simpa using h1'.symm
  exact ⟨by decide, (h3 (by rw [hfs]; decide)).2⟩

end Genesis
